import Mathlib

/-!
Verification development for the entity-component runtime of Project Clockwork:
the fixed-timestep game loop, the phase-ordered system scheduler, the pub/sub
event bus, the entity store with secondary indices, and the template-based
entity factory.  Each subsystem below is a shallow embedding of the
corresponding TypeScript class; JavaScript machine details that matter
(stable Array.sort, Map insertion order, truthiness, typeof, try/catch) are
reproduced explicitly and noted at the point of use.

Layout: all definitions first, then the lemmas and the claim theorems.
-/

/-! # Definitions -/

/-! ## Fixed-timestep loop (GameLoop.ts)

State of the GameLoop class.  Wall-clock quantities are embedded as rationals.
The FPS diagnostic counters (frameCount, fpsLastUpdate, currentFPS, lines
111-119 of the source) are wall-clock statistics that no claim mentions and
are not carried here; the calls field is the observable trace of callback
invocations, recording the context passed to the callback together with the
outcome of the call (true when the callback threw; the loop catches either
way, lines 100-104). -/

namespace Loop

structure TickContext where
  deltaTime : ℚ
  totalTime : ℚ
  tickCount : Nat
deriving DecidableEq, Repr

structure LoopState where
  isRunning : Bool
  lastTime : ℚ
  accumulator : ℚ
  totalTime : ℚ
  tickCount : Nat
  fixedDeltaTime : ℚ
  maxAccumulator : ℚ
  calls : List (TickContext × Bool)
deriving DecidableEq, Repr

/-- Constructor: fixedDeltaTime = 1000 / targetFPS, maxAccumulator = 10x that. -/
def mkLoop (targetFPS : ℚ) : LoopState :=
  { isRunning := false
    lastTime := 0
    accumulator := 0
    totalTime := 0
    tickCount := 0
    fixedDeltaTime := 1000 / targetFPS
    maxAccumulator := 1000 / targetFPS * 10
    calls := [] }

/-- GameLoop.start: a warning and no state change when already running,
otherwise reset the counters and record the current wall-clock time. -/
def start (st : LoopState) (now : ℚ) : LoopState :=
  if st.isRunning then st
  else
    { st with
      isRunning := true
      lastTime := now
      accumulator := 0
      totalTime := 0
      tickCount := 0 }

/-- GameLoop.stop: clears the running flag (cancelling the pending frame
callback has no counterpart in this embedding, where frames are supplied
explicitly and ignored while stopped). -/
def stop (st : LoopState) : LoopState :=
  if st.isRunning then { st with isRunning := false } else st

/-- One iteration of the while loop body (lines 93-109): invoke the callback
with the current context inside try/catch, then subtract one tick from the
accumulator and advance totalTime and tickCount.  The callback outcome
(cb ctx = true means the callback threw) is recorded in the trace and,
because of the catch, influences nothing else. -/
def tickOnce (cb : TickContext → Bool) (st : LoopState) : LoopState :=
  let ctx : TickContext :=
    { deltaTime := st.fixedDeltaTime, totalTime := st.totalTime, tickCount := st.tickCount }
  { st with
    calls := st.calls ++ [(ctx, cb ctx)]
    accumulator := st.accumulator - st.fixedDeltaTime
    totalTime := st.totalTime + st.fixedDeltaTime
    tickCount := st.tickCount + 1 }

/-- The while loop: while the accumulator holds at least one fixed tick,
run one tick.  The fuel argument bounds the iteration count; the clamped
accumulator never needs more than 10 iterations (see the drain lemmas). -/
def drain (cb : TickContext → Bool) : Nat → LoopState → LoopState
  | 0, st => st
  | fuel + 1, st =>
    if st.fixedDeltaTime ≤ st.accumulator then drain cb fuel (tickOnce cb st)
    else st

/-- One frame callback (GameLoop.loop, lines 79-120): bail out if stopped,
compute the real-time delta, clamp it to maxAccumulator, add it to the
accumulator, then drain whole ticks. -/
def frame (cb : TickContext → Bool) (fuel : Nat) (st : LoopState) (currentTime : ℚ) :
    LoopState :=
  if st.isRunning then
    let delta := currentTime - st.lastTime
    let st := { st with lastTime := currentTime }
    let st := { st with accumulator := st.accumulator + min delta st.maxAccumulator }
    drain cb fuel st
  else st

/-- Process a sequence of frame callbacks at the given wall-clock times. -/
def runFrames (cb : TickContext → Bool) (fuel : Nat) (st : LoopState)
    (times : List ℚ) : LoopState :=
  times.foldl (frame cb fuel) st

/-- Absolute frame times produced by a sequence of per-frame deltas starting
from a given time.  The source receives absolute times from the frame
scheduler and subtracts; this converts the other way for the theorems. -/
def timesFrom (t0 : ℚ) : List ℚ → List ℚ
  | [] => []
  | d :: ds => (t0 + d) :: timesFrom (t0 + d) ds

/-- Sum of the per-frame deltas after clamping each to the cap. -/
def clampedSum (cap : ℚ) (deltas : List ℚ) : ℚ :=
  (deltas.map (fun d => min d cap)).sum

/-- Agreement of two loop states on every field except the invocation
trace: the progression of the loop, as opposed to what its callback saw. -/
def coreEq (s1 s2 : LoopState) : Prop :=
  s1.isRunning = s2.isRunning ∧ s1.lastTime = s2.lastTime ∧
  s1.accumulator = s2.accumulator ∧ s1.totalTime = s2.totalTime ∧
  s1.tickCount = s2.tickCount ∧ s1.fixedDeltaTime = s2.fixedDeltaTime ∧
  s1.maxAccumulator = s2.maxAccumulator

end Loop

/-! ## System scheduler (SystemManager.ts)

A registration record carries the per-system bookkeeping of the
SystemRegistration interface.  The per-system wall-clock totalTime
(performance.now diagnostics, lines 621-631) is not carried.  Concrete
systems are external; their update behaviour is abstracted to whether the
update call throws, supplied as a function from system name to Bool. -/

namespace Sched

inductive Phase where
  | preUpdate
  | earlyUpdate
  | update
  | lateUpdate
  | postUpdate
deriving DecidableEq, Repr

/-- The five phases in their fixed execution order. -/
def phaseOrder : List Phase :=
  [Phase.preUpdate, Phase.earlyUpdate, Phase.update, Phase.lateUpdate, Phase.postUpdate]

structure SystemReg where
  name : String
  phase : Phase
  enabled : Bool
  frequency : Nat
  updateCount : Nat
  lastUpdate : Nat
deriving DecidableEq, Repr

structure SM where
  systems : List SystemReg
  tickCount : Nat
deriving DecidableEq, Repr

/-- A system runs this phase this tick when it is registered in the phase, is
enabled, and the frequency gate tickCount % frequency == 0 passes (line 617).
A frequency of 0 makes the JavaScript check NaN !== 0 and always skips; with
tick ≥ 1 the embedding tick % 0 = tick ≠ 0 skips as well. -/
def dueIn (tick : Nat) (phase : Phase) (r : SystemReg) : Bool :=
  r.phase == phase && r.enabled && tick % r.frequency == 0

/-- SystemManager.updatePhase: filter the due systems of the phase in
registration order and invoke each inside try/catch; updateCount advances
only when the update returns normally (line 625), lastUpdate always
(line 632).  Returns the updated registrations and the invocation trace as
(name, threw) pairs in invocation order. -/
def updatePhase (throws : String → Bool) (tick : Nat) (phase : Phase)
    (systems : List SystemReg) : List SystemReg × List (String × Bool) :=
  (systems.map fun r =>
      if dueIn tick phase r then
        { r with
          updateCount := r.updateCount + (if throws r.name then 0 else 1)
          lastUpdate := tick }
      else r,
   (systems.filter (dueIn tick phase)).map fun r => (r.name, throws r.name))

/-- SystemManager.update: advance the tick counter, then run the phases in
order, threading the registration list and concatenating the traces. -/
def smUpdate (throws : String → Bool) (sm : SM) : SM × List (String × Bool) :=
  let tick := sm.tickCount + 1
  let step := phaseOrder.foldl
    (fun (acc : List SystemReg × List (String × Bool)) phase =>
      let r := updatePhase throws tick phase acc.1
      (r.1, acc.2 ++ r.2))
    (sm.systems, [])
  ({ systems := step.1, tickCount := tick }, step.2)

/-- The systems due to run this tick, in dispatch order: phases in their
fixed order, and registration order within a phase. -/
def dueNames (sm : SM) : List String :=
  (phaseOrder.map fun phase =>
    (sm.systems.filter (dueIn (sm.tickCount + 1) phase)).map SystemReg.name).flatten

end Sched

/-! ## Event bus (EventBus.ts)

Callbacks are identified by a callback id (cid); each subscription object
additionally carries a unique subscription id (sid) standing for its object
identity, which the unsubscribe closures and the once-removal use.  Event
payloads are opaque to the bus; the data type below covers the payloads the
claims need.  Date.now timestamps are wall clock and observed by no claim;
they are embedded as 0.  Callback behaviour is abstracted to the list of
events a callback emits when invoked, as a function of its cid and of how
many times it has been invoked before; dispatch runs on a task machine whose
fuel bounds the number of elementary steps, so that nested emits made by a
callback are executed to completion in source order. -/

namespace Bus

inductive EventData where
  | unit
  | cmd (command : String) (args : List String)
deriving DecidableEq, Repr

structure GameEvent where
  type : String
  data : EventData
  timestamp : Nat
  source : Option String
deriving DecidableEq, Repr

structure Subscription where
  sid : Nat
  cid : Nat
  priority : Int
  once : Bool
deriving DecidableEq, Repr

structure EventBus where
  subscriptions : List (String × List Subscription)
  eventHistory : List GameEvent
  maxHistorySize : Nat
deriving DecidableEq, Repr

def emptyBus : EventBus := { subscriptions := [], eventHistory := [], maxHistorySize := 1000 }

/-- The live subscriber array for a type, empty when the key is absent. -/
def subsFor (bus : EventBus) (etype : String) : List Subscription :=
  match bus.subscriptions.find? (fun p => p.1 == etype) with
  | some p => p.2
  | none => []

/-- Overwrite the array stored under a key, appending the key in Map
insertion order when it is new. -/
def setSubs (m : List (String × List Subscription)) (etype : String)
    (v : List Subscription) : List (String × List Subscription) :=
  if m.any (fun p => p.1 == etype) then
    m.map fun p => if p.1 == etype then (etype, v) else p
  else m ++ [(etype, v)]

/-- Stable insertion into a descending-priority list: pass over strictly
greater priorities only, so an element inserted from the left of the list
lands before any equal-priority element already present. -/
def insertDesc (s : Subscription) : List Subscription → List Subscription
  | [] => [s]
  | t :: rest => if t.priority > s.priority then t :: insertDesc s rest else s :: t :: rest

/-- The stable sort by descending priority.  This embeds the ES2019-stable
subs.sort with comparator (a, b) => b.priority - a.priority of lines 39
and 66: a stable sorting algorithm is unique as a function, and this foldr
insertion sort is stable for the descending order. -/
def sortSubs (l : List Subscription) : List Subscription :=
  l.foldr insertDesc []

/-- Insertion of a newly pushed subscription into an already sorted list:
it lands after every element of priority at least its own and before the
first strictly smaller one — where the stable sort of the push puts it. -/
def insertLast (x : Subscription) : List Subscription → List Subscription
  | [] => [x]
  | t :: rest => if t.priority ≥ x.priority then t :: insertLast x rest else x :: t :: rest

/-- Shared body of subscribe and once: get-or-create the per-type array,
push the new subscription, sort by descending priority (lines 24-48). -/
def addSub (bus : EventBus) (etype : String) (s : Subscription) : EventBus :=
  { bus with subscriptions := setSubs bus.subscriptions etype (sortSubs (subsFor bus etype ++ [s])) }

def subscribe (bus : EventBus) (etype : String) (cid : Nat) (priority : Int)
    (sid : Nat) : EventBus :=
  addSub bus etype { sid := sid, cid := cid, priority := priority, once := false }

def subscribeOnce (bus : EventBus) (etype : String) (cid : Nat) (priority : Int)
    (sid : Nat) : EventBus :=
  addSub bus etype { sid := sid, cid := cid, priority := priority, once := true }

/-- The unsubscribe closure returned by subscribe and once, and the removal
step for once subscriptions: splice the subscription out of the live array
if still present (object identity stands in as the sid; a no-op when the
subscription is already gone, matching indexOf returning -1). -/
def removeSid (bus : EventBus) (etype : String) (sid : Nat) : EventBus :=
  match bus.subscriptions.find? (fun p => p.1 == etype) with
  | none => bus
  | some p =>
    { bus with subscriptions := setSubs bus.subscriptions etype (p.2.filter (fun s => s.sid != sid)) }

/-- Push an event onto the bounded history: append, then evict the oldest
entry when the capacity is exceeded (lines 100-104). -/
def pushHistory (bus : EventBus) (e : GameEvent) : EventBus :=
  let h := bus.eventHistory ++ [e]
  { bus with eventHistory := if bus.maxHistorySize < h.length then h.drop 1 else h }

/-- Number of invocations a callback id has received so far in a trace. -/
def countInv (trace : List (Nat × GameEvent)) (cid : Nat) : Nat :=
  (trace.filter (fun p => p.1 == cid)).length

/-- Behaviour of the callbacks: given a cid and the number of earlier
invocations of that callback, the list of (type, data) events the callback
emits during this invocation. -/
def Beh := Nat → Nat → List (String × EventData)

/-- Callbacks that emit nothing. -/
def inertBeh : Beh := fun _ _ => []

inductive Task where
  | emitT (etype : String) (data : EventData) (source : Option String)
  | invokeT (etype : String) (event : GameEvent) (snapshot : List Subscription)
  | removeT (etype : String) (sid : Nat)
deriving DecidableEq, Repr

/-- The dispatch machine; one fuel unit per elementary step.  An emit task
(lines 92-128) records the event in history, snapshots the live subscriber
array, and queues an invoke task over the snapshot.  An invoke task calls
the head subscriber: its invocation is recorded in the trace, the events its
behaviour emits are queued in front (a nested emit runs to completion before
the outer dispatch resumes), then a once subscription is spliced out of the
live array, and the rest of the snapshot follows. -/
def run (beh : Beh) :
    Nat → List Task → EventBus → List (Nat × GameEvent) → EventBus × List (Nat × GameEvent)
  | 0, _, bus, tr => (bus, tr)
  | _ + 1, [], bus, tr => (bus, tr)
  | fuel + 1, Task.emitT etype data source :: rest, bus, tr =>
    let ev : GameEvent := { type := etype, data := data, timestamp := 0, source := source }
    let bus := pushHistory bus ev
    match bus.subscriptions.find? (fun p => p.1 == etype) with
    | none => run beh fuel rest bus tr
    | some p =>
      if p.2.isEmpty then run beh fuel rest bus tr
      else run beh fuel (Task.invokeT etype ev p.2 :: rest) bus tr
  | fuel + 1, Task.invokeT _ _ [] :: rest, bus, tr => run beh fuel rest bus tr
  | fuel + 1, Task.invokeT etype ev (s :: snap) :: rest, bus, tr =>
    let acts := (beh s.cid (countInv tr s.cid)).map fun a => Task.emitT a.1 a.2 none
    let post := (if s.once then [Task.removeT etype s.sid] else []) ++ Task.invokeT etype ev snap :: rest
    run beh fuel (acts ++ post) bus (tr ++ [(s.cid, ev)])
  | fuel + 1, Task.removeT etype sid :: rest, bus, tr =>
    run beh fuel rest (removeSid bus etype sid) tr

/-- EventBus.emit as a single emit task run from an empty trace. -/
def emit (beh : Beh) (fuel : Nat) (bus : EventBus) (etype : String) (data : EventData)
    (source : Option String) : EventBus × List (Nat × GameEvent) :=
  run beh fuel [Task.emitT etype data source] bus []

/-- EventBus.clear: drop all subscriptions, leave the history alone. -/
def clear (bus : EventBus) : EventBus := { bus with subscriptions := [] }

/-- EventBus.clearHistory. -/
def clearHistory (bus : EventBus) : EventBus := { bus with eventHistory := [] }

/-- EventBus.getSubscriptionCount; a truthy eventType argument selects one
type, while an absent or empty string argument counts all types. -/
def getSubscriptionCount (bus : EventBus) (etype : Option String) : Nat :=
  if etype.getD "" ≠ "" then (subsFor bus (etype.getD "")).length
  else (bus.subscriptions.map (fun p => p.2.length)).sum

/-- EventBus.getHistory; a truthy eventType filters by type, and a truthy
limit keeps the most recent entries (slice with a negative index). -/
def getHistory (bus : EventBus) (etype : Option String) (limit : Option Nat) :
    List GameEvent :=
  let h :=
    if etype.getD "" ≠ "" then bus.eventHistory.filter (fun e => e.type == etype.getD "")
    else bus.eventHistory
  match limit with
  | some l => if l = 0 then h else h.drop (h.length - l)
  | none => h

/-- A subscription id unused anywhere in the bus. -/
def freshSid (bus : EventBus) : Nat :=
  ((bus.subscriptions.map (fun p => p.2.map Subscription.sid)).flatten.foldr max 0) + 1

/-- A callback id unused anywhere in the bus. -/
def freshCid (bus : EventBus) : Nat :=
  ((bus.subscriptions.map (fun p => p.2.map Subscription.cid)).flatten.foldr max 0) + 1

structure CommandResult where
  success : Bool
  message : String
  events : List GameEvent
deriving DecidableEq, Repr

/-- GameWorld.executeCommand (lines 131-149): subscribe a collecting
callback under the literal type "*", emit command:executed, unsubscribe,
and return the collected events.  The collector events are the trace
entries delivered to the collector cid. -/
def executeCommand (beh : Beh) (fuel : Nat) (bus : EventBus) (command : String)
    (args : List String) : EventBus × CommandResult :=
  let sid := freshSid bus
  let cid := freshCid bus
  let bus1 := subscribe bus "*" cid 0 sid
  let out := run beh fuel [Task.emitT "command:executed" (EventData.cmd command args) none] bus1 []
  let events := (out.2.filter (fun p => p.1 == cid)).map Prod.snd
  let bus2 := removeSid out.1 "*" sid
  (bus2, { success := true, message := "Command executed", events := events })

/-- A subscribe or once call, as recorded for the dispatch-order theorem. -/
inductive SubOp where
  | sub (etype : String) (cid : Nat) (priority : Int)
  | subOnce (etype : String) (cid : Nat) (priority : Int)
deriving DecidableEq, Repr

def applyOp (bus : EventBus) (sid : Nat) : SubOp → EventBus
  | .sub t cid p => subscribe bus t cid p sid
  | .subOnce t cid p => subscribeOnce bus t cid p sid

/-- Apply a sequence of subscribe and once calls, numbering the created
subscription objects consecutively from sid0. -/
def applyOps (bus : EventBus) (sid0 : Nat) : List SubOp → EventBus
  | [] => bus
  | op :: ops => applyOps (applyOp bus sid0 op) (sid0 + 1) ops

/-- The subscriptions a sequence of calls registers for one type, in
registration order, with the sids they receive. -/
def regsFor (t : String) (sid0 : Nat) : List SubOp → List Subscription
  | [] => []
  | .sub t2 cid p :: ops =>
    (if t2 = t then [{ sid := sid0, cid := cid, priority := p, once := false }] else [])
      ++ regsFor t (sid0 + 1) ops
  | .subOnce t2 cid p :: ops =>
    (if t2 = t then [{ sid := sid0, cid := cid, priority := p, once := true }] else [])
      ++ regsFor t (sid0 + 1) ops

/-- Fuel consumed by dispatching one snapshot whose callbacks emit nothing:
one step per subscriber, one more per once splice, one to retire the
exhausted snapshot. -/
def costSnap (snap : List Subscription) : Nat :=
  (snap.map (fun s => if s.once then 2 else 1)).sum + 1

/-- The once splices dispatch performs over a snapshot. -/
def removeOnces (etype : String) (snap : List Subscription) (bus : EventBus) : EventBus :=
  snap.foldl (fun b s => if s.once then removeSid b etype s.sid else b) bus

/-- Dispatch order as the claims state it: strictly higher priority first,
and registration order (increasing sid) among equal priorities. -/
def dispatchOrd (a b : Subscription) : Prop :=
  b.priority < a.priority ∨ (a.priority = b.priority ∧ a.sid < b.sid)

end Bus

/-! ## Entity store with secondary indices (EntityManager.ts)

What the store inspects of an entity: its id, its type, the realm and city
fields of its position component (strings in the source PositionComponent
type, read with JavaScript truthiness, so an empty string is not indexed),
and the set of component names.  Component field values are therefore
embedded as strings.  Maps and Sets keep insertion order; a Set add of a
present element and a delete of an absent one are no-ops. -/

namespace Store

abbrev Component := List (String × String)

structure Entity where
  id : String
  type : String
  components : List (String × Component)
deriving DecidableEq, Repr

/-- Lookup in an insertion-ordered string-keyed map. -/
def lookupA {α : Type} (m : List (String × α)) (k : String) : Option α :=
  (m.find? (fun p => p.1 == k)).map Prod.snd

/-- Map.set: overwrite in place, or append a new key. -/
def setA {α : Type} (m : List (String × α)) (k : String) (v : α) : List (String × α) :=
  if m.any (fun p => p.1 == k) then m.map (fun p => if p.1 == k then (k, v) else p)
  else m ++ [(k, v)]

/-- The id set stored under an index key (empty when the key is absent). -/
def idxGet (m : List (String × List String)) (k : String) : List String :=
  (lookupA m k).getD []

/-- Get-or-create the Set under a key and add an id (Set semantics: a
present element is not duplicated). -/
def idxAdd (m : List (String × List String)) (k : String) (v : String) :
    List (String × List String) :=
  setA m k (let old := idxGet m k; if v ∈ old then old else old ++ [v])

/-- Optional-chained Set delete: a no-op when the key is absent. -/
def idxDel (m : List (String × List String)) (k : String) (v : String) :
    List (String × List String) :=
  m.map (fun p => if p.1 == k then (p.1, p.2.filter (fun x => x != v)) else p)

/-- The realm or city field of the position component, read the way the
index code reads it: undefined when the position component is absent, the
field is absent, or the field value is falsy. -/
def posField (e : Entity) (f : String) : Option String :=
  match lookupA e.components "position" with
  | none => none
  | some c =>
    match lookupA c f with
    | none => none
    | some v => if v = "" then none else some v

/-- The component names of an entity, in insertion order (Object.keys). -/
def componentNames (e : Entity) : List String :=
  e.components.map Prod.fst

structure EM where
  entities : List (String × Entity)
  byType : List (String × List String)
  byRealm : List (String × List String)
  byCity : List (String × List String)
  byComponent : List (String × List String)
deriving DecidableEq, Repr

def emptyEM : EM :=
  { entities := [], byType := [], byRealm := [], byCity := [], byComponent := [] }

/-- EntityManager.updateIndices (lines 186-218). -/
def updateIndices (em : EM) (e : Entity) : EM :=
  let em := { em with byType := idxAdd em.byType e.type e.id }
  let em :=
    match posField e "realm" with
    | some r => { em with byRealm := idxAdd em.byRealm r e.id }
    | none => em
  let em :=
    match posField e "city" with
    | some c => { em with byCity := idxAdd em.byCity c e.id }
    | none => em
  { em with byComponent := (componentNames e).foldl (fun m n => idxAdd m n e.id) em.byComponent }

/-- EntityManager.removeFromIndices (lines 220-238). -/
def removeFromIndices (em : EM) (e : Entity) : EM :=
  let em := { em with byType := idxDel em.byType e.type e.id }
  let em :=
    match posField e "realm" with
    | some r => { em with byRealm := idxDel em.byRealm r e.id }
    | none => em
  let em :=
    match posField e "city" with
    | some c => { em with byCity := idxDel em.byCity c e.id }
    | none => em
  { em with byComponent := (componentNames e).foldl (fun m n => idxDel m n e.id) em.byComponent }

/-- EntityManager.add: store under the entity id (overwriting any previous
entry for that id) and index the new entity; the indices of an overwritten
entity are not removed. -/
def add (em : EM) (e : Entity) : EM :=
  updateIndices { em with entities := setA em.entities e.id e } e

/-- EntityManager.remove: false on an unknown id; otherwise unindex the
stored entity and delete it. -/
def remove (em : EM) (id : String) : EM × Bool :=
  match lookupA em.entities id with
  | none => (em, false)
  | some e =>
    let em := removeFromIndices em e
    ({ em with entities := em.entities.filter (fun p => p.1 != id) }, true)

/-- The Partial update object handed to EntityManager.update;
Object.assign replaces each present field wholesale. -/
structure EntityUpdates where
  newId : Option String := none
  newType : Option String := none
  newComponents : Option (List (String × Component)) := none
deriving DecidableEq, Repr

/-- EntityManager.update: false on an unknown id; otherwise unindex the old
entity, assign the updates onto it in place (the map entry stays under the
original key), and re-index the result. -/
def update (em : EM) (id : String) (u : EntityUpdates) : EM × Bool :=
  match lookupA em.entities id with
  | none => (em, false)
  | some e =>
    let em := removeFromIndices em e
    let e2 : Entity :=
      { id := u.newId.getD e.id
        type := u.newType.getD e.type
        components := u.newComponents.getD e.components }
    (updateIndices { em with entities := setA em.entities id e2 } e2, true)

inductive StoreOp where
  | add (e : Entity)
  | update (id : String) (u : EntityUpdates)
  | remove (id : String)
deriving DecidableEq, Repr

def applyStoreOp (em : EM) : StoreOp → EM
  | .add e => add em e
  | .update id u => (update em id u).1
  | .remove id => (remove em id).1

def applyStoreOps (em : EM) (ops : List StoreOp) : EM :=
  ops.foldl applyStoreOp em

/-- Benign operations: an add does not reuse an id already in the store,
and an update does not rewrite the id field. -/
def wfOp (em : EM) : StoreOp → Bool
  | .add e => (lookupA em.entities e.id).isNone
  | .update _ u => u.newId.isNone
  | .remove _ => true

def wfOps (em : EM) : List StoreOp → Bool
  | [] => true
  | op :: ops => wfOp em op && wfOps (applyStoreOp em op) ops

/-- The index consistency invariant of the claim: an index references an id
exactly when the entity currently stored under that id has the indexed
type, truthy position field, or component name. -/
def consistent (em : EM) : Prop :=
  (∀ t id, id ∈ idxGet em.byType t ↔ ∃ e, lookupA em.entities id = some e ∧ e.type = t) ∧
  (∀ r id, id ∈ idxGet em.byRealm r ↔
    ∃ e, lookupA em.entities id = some e ∧ posField e "realm" = some r) ∧
  (∀ c id, id ∈ idxGet em.byCity c ↔
    ∃ e, lookupA em.entities id = some e ∧ posField e "city" = some c) ∧
  (∀ n id, id ∈ idxGet em.byComponent n ↔
    ∃ e, lookupA em.entities id = some e ∧ n ∈ componentNames e)

/-- Every stored entity sits under its own id. -/
def keyed (em : EM) : Prop :=
  ∀ k e, lookupA em.entities k = some e → e.id = k

end Store

/-! ## Entity factory (EntityFactory.ts)

Component data is JSON-shaped.  Each object and array node carries an
identity tag standing for its heap address, so that reference sharing is
expressible: two values share a mutable reference exactly when they share a
tag.  Arrays additionally carry the non-index string properties a merge may
assign onto them (deepMerge writes through result[key]); object keys that
are array indices are used by no claim and are outside this embedding.
JavaScript facts reproduced below: typeof null is object, Object.entries
and property access throw on null, an assignment onto a primitive is
impossible here because the merge only assigns onto clones of object-typed
values, and deepClone of an array maps over its elements only, dropping any
extra properties. -/

namespace Factory

mutual
inductive JVal where
  | jnull
  | jbool (b : Bool)
  | jnum (n : Int)
  | jstr (s : String)
  | jobj (tag : Nat) (fields : JFields)
  | jarr (tag : Nat) (elems : JList) (extras : JFields)
deriving DecidableEq, Repr
inductive JFields where
  | nil
  | fcons (key : String) (val : JVal) (rest : JFields)
deriving DecidableEq, Repr
inductive JList where
  | nil
  | lcons (val : JVal) (rest : JList)
deriving DecidableEq, Repr
end

def getField : JFields → String → Option JVal
  | .nil, _ => none
  | .fcons k v rest, key => if k == key then some v else getField rest key

/-- Property assignment: overwrite in place, or append a new key. -/
def setField : JFields → String → JVal → JFields
  | .nil, key, v => .fcons key v .nil
  | .fcons k w rest, key, v =>
    if k == key then .fcons k v rest else .fcons k w (setField rest key v)

def fieldKeys : JFields → List String
  | .nil => []
  | .fcons k _ rest => k :: fieldKeys rest

def fAppend : JFields → JFields → JFields
  | .nil, g => g
  | .fcons k v rest, g => .fcons k v (fAppend rest g)

/-- typeof x === the string object (true for objects, arrays and null). -/
def isObjectType : JVal → Bool
  | .jnull => true
  | .jobj _ _ => true
  | .jarr _ _ _ => true
  | _ => false

def isArrayV : JVal → Bool
  | .jarr _ _ _ => true
  | _ => false

def truthy : JVal → Bool
  | .jnull => false
  | .jbool b => b
  | .jnum n => n != 0
  | .jstr s => s != ""
  | _ => true

/-- Property read on an object or an array (only non-index keys arise). -/
def getProp : JVal → String → Option JVal
  | .jobj _ fs, k => getField fs k
  | .jarr _ _ ex, k => getField ex k
  | _, _ => none

/-- Property write; the primitive case never arises in the merge below. -/
def setProp : JVal → String → JVal → JVal
  | .jobj t fs, k, v => .jobj t (setField fs k v)
  | .jarr t es ex, k, v => .jarr t es (setField ex k v)
  | x, _, _ => x

/-! EntityFactory.deepClone (lines 338-353), threading an allocation
counter: every object and array node of the result is freshly tagged;
array extra properties are dropped because the clone maps over elements. -/
mutual
def deepClone : Nat → JVal → Nat × JVal
  | ctr, .jnull => (ctr, .jnull)
  | ctr, .jbool b => (ctr, .jbool b)
  | ctr, .jnum n => (ctr, .jnum n)
  | ctr, .jstr s => (ctr, .jstr s)
  | ctr, .jarr _ es _ =>
    let r := deepCloneList (ctr + 1) es
    (r.1, .jarr ctr r.2 .nil)
  | ctr, .jobj _ fs =>
    let r := deepCloneFields (ctr + 1) fs
    (r.1, .jobj ctr r.2)
def deepCloneFields : Nat → JFields → Nat × JFields
  | ctr, .nil => (ctr, .nil)
  | ctr, .fcons k v rest =>
    let r := deepClone ctr v
    let r2 := deepCloneFields r.1 rest
    (r2.1, .fcons k r.2 r2.2)
def deepCloneList : Nat → JList → Nat × JList
  | ctr, .nil => (ctr, .nil)
  | ctr, .lcons v rest =>
    let r := deepClone ctr v
    let r2 := deepCloneList r.1 rest
    (r2.1, .lcons r.2 r2.2)
end

/-- A fresh empty object, standing for a literal pair of braces in
result[key] or-else braces (line 326). -/
def emptyObj (ctr : Nat) : Nat × JVal := (ctr + 1, .jobj ctr .nil)

/-! EntityFactory.deepMerge (lines 313-333) and its entry loop.  A
non-object on either side returns the source itself, uncloned; an array
source is deep-cloned; otherwise the target is deep-cloned and the source
entries are assigned over it one by one, recursing for object-typed
non-null, non-array values with the current value or a fresh empty object
as target.  Object.entries and property access on null throw. -/
mutual
def deepMerge : Nat → JVal → JVal → Except String (Nat × JVal)
  | ctr, target, source =>
    if !isObjectType target || !isObjectType source then .ok (ctr, source)
    else if isArrayV source then .ok (deepClone ctr source)
    else
      match source with
      | .jobj _ sf =>
        let r := deepClone ctr target
        mergeEntries r.1 r.2 sf
      | _ => .error "TypeError: Object.entries called on null"
def mergeEntries : Nat → JVal → JFields → Except String (Nat × JVal)
  | ctr, result, .nil => .ok (ctr, result)
  | ctr, result, .fcons k v rest =>
    if result == JVal.jnull then .error "TypeError: property access on null"
    else if isObjectType v && !isArrayV v && v != JVal.jnull then
      let cur :=
        match getProp result k with
        | some x => if truthy x then (ctr, x) else emptyObj ctr
        | none => emptyObj ctr
      match deepMerge cur.1 cur.2 v with
      | .error e => .error e
      | .ok r => mergeEntries r.1 (setProp result k r.2) rest
    else
      let rc := deepClone ctr v
      mergeEntries rc.1 (setProp result k rc.2) rest
end

/-- EntityFactory.mergeComponents (lines 291-308): clone the base bag, then
assign each override entry, deep-merging when the present base value is
truthy and the override value is object-typed and not an array (note: a
null override value passes this test and sends deepMerge into the entries
throw).  Component bags are Record-typed in the source, so a non-object
override bag does not arise and is not modelled. -/
def mcEntries : Nat → JVal → JFields → Except String (Nat × JVal)
  | ctr, result, .nil => .ok (ctr, result)
  | ctr, result, .fcons k v rest =>
    if result == JVal.jnull then .error "TypeError: property access on null"
    else if (match getProp result k with | some x => truthy x | none => false)
        && isObjectType v && !isArrayV v then
      match deepMerge ctr ((getProp result k).getD JVal.jnull) v with
      | .error e => .error e
      | .ok r => mcEntries r.1 (setProp result k r.2) rest
    else
      let rc := deepClone ctr v
      mcEntries rc.1 (setProp result k rc.2) rest

def mergeComponents (ctr : Nat) (base override : JVal) : Except String (Nat × JVal) :=
  let r := deepClone ctr base
  match override with
  | .jobj _ ofs => mcEntries r.1 r.2 ofs
  | .jnull => .error "TypeError: Object.entries called on null"
  | _ => .error "component bag is not an object"

/-- JavaScript string truthiness. -/
def strTruthy (s : String) : Bool := s != ""

def optStrTruthy : Option String → Bool
  | some s => strTruthy s
  | none => false

def orStr (a b : String) : String := if strTruthy a then a else b

def orOptStr (a b : Option String) : Option String := if optStrTruthy a then a else b

/-- EntityTemplate; the extends field is spelled xtends here. -/
structure Template where
  id : String
  type : String
  xtends : Option String
  description : Option String
  components : JVal
deriving DecidableEq, Repr

structure EFactory where
  templates : List (String × Template)
  idCounter : Nat
deriving DecidableEq, Repr

def emptyFactory : EFactory := { templates := [], idCounter := 0 }

/-- EntityFactory.registerTemplate (lines 39-56). -/
def registerTemplate (fac : EFactory) (t : Template) : Except String EFactory :=
  if !strTruthy t.id then .error "Template must have an id"
  else if !strTruthy t.type then
    .error ("Template \"" ++ t.id ++ "\" must have a type")
  else if optStrTruthy t.xtends && (Store.lookupA fac.templates (t.xtends.getD "")).isNone then
    .error ("Template \"" ++ t.id ++ "\" extends \"" ++ t.xtends.getD ""
      ++ "\" which does not exist")
  else .ok { fac with templates := Store.setA fac.templates t.id t }

def missingMsg (q : List Template) : String :=
  "Circular dependency or missing parent templates detected: "
    ++ String.intercalate ", "
      (q.map fun t => "\"" ++ t.id ++ "\" extends \"" ++ t.xtends.getD "" ++ "\"")

/-- The second-pass while loop of registerFromJSON (lines 80-101): shift the
front of the queue, register it when its parent is present, otherwise push
it to the back; then compare the queue length against previousCount, which
was the queue length when the iteration began, and raise the circular or
missing parent error on equality.  One fuel unit per iteration; queue
length + 1 units always suffice because a push makes the lengths equal. -/
def pass2 : Nat → EFactory → List Template → Nat → Except String EFactory
  | 0, _, _, _ => .error "pass2 fuel exhausted"
  | _ + 1, fac, [], _ => .ok fac
  | fuel + 1, fac, t :: rest, previousCount =>
    if (Store.lookupA fac.templates (t.xtends.getD "")).isSome then
      match registerTemplate fac t with
      | .error e => .error e
      | .ok fac2 =>
        if rest.length = previousCount then .error (missingMsg rest)
        else pass2 fuel fac2 rest rest.length
    else
      let q := rest ++ [t]
      if q.length = previousCount then .error (missingMsg q)
      else pass2 fuel fac q q.length

/-- EntityFactory.registerFromJSON (lines 61-102): first pass registers the
templates without a truthy extends in order, collecting the others into the
queue; the second pass is the loop above with previousCount seeded to the
initial queue length. -/
def registerFromJSON (fac : EFactory) (ts : List Template) : Except String EFactory :=
  let step := ts.foldl
    (fun acc t =>
      match acc with
      | .error e => .error e
      | .ok (fac, queue) =>
        if optStrTruthy t.xtends then .ok (fac, queue ++ [t])
        else (registerTemplate fac t).map fun f => (f, queue))
    ((Except.ok (fac, ([] : List Template))) : Except String (EFactory × List Template))
  match step with
  | .error e => .error e
  | .ok (fac2, queue) => pass2 (queue.length + 1) fac2 queue queue.length

/-- EntityFactory.resolveTemplate (lines 261-286): a template without a
truthy extends resolves to itself; otherwise the parent is looked up,
recursively resolved, and the components merged parent-then-child.  The
resolved object carries no extends field.  The recursion fuel stands for
the call stack; any fuel at least the inheritance depth suffices. -/
def resolveTemplate : Nat → EFactory → Nat → Template → Except String (Nat × Template)
  | 0, _, ctr, t =>
    if optStrTruthy t.xtends then .error "resolution fuel exhausted" else .ok (ctr, t)
  | fuel + 1, fac, ctr, t =>
    if optStrTruthy t.xtends then
      match Store.lookupA fac.templates (t.xtends.getD "") with
      | none =>
        .error ("Parent template \"" ++ t.xtends.getD "" ++ "\" not found for \""
          ++ t.id ++ "\"")
      | some parent =>
        match resolveTemplate fuel fac ctr parent with
        | .error e => .error e
        | .ok (ctr1, rp) =>
          match mergeComponents ctr1 rp.components t.components with
          | .error e => .error e
          | .ok (ctr2, mc) =>
            .ok (ctr2,
              { id := t.id
                type := orStr t.type rp.type
                xtends := none
                description := orOptStr t.description rp.description
                components := mc })
    else .ok (ctr, t)

structure JEntity where
  id : String
  type : String
  components : JVal
deriving DecidableEq, Repr

/-- The Partial entity overrides accepted by createFromTemplate. -/
structure Overrides where
  oid : Option String := none
  otype : Option String := none
  ocomponents : Option JVal := none
deriving DecidableEq, Repr

/-- EntityFactory.generateId; the Date.now component of the generated id is
wall clock and is omitted, the counter part is kept.  The pluggable custom
generator is not modelled. -/
def generateId (fac : EFactory) : EFactory × String :=
  ({ fac with idCounter := fac.idCounter + 1 }, "entity_" ++ toString fac.idCounter)

/-- EntityFactory.createFromTemplate (lines 107-144) for a factory without
an attached type registry (the registry hook of lines 134-141 validates and
is outside this embedding): look up, resolve, deep-clone the resolved
components, then merge truthy override components over them. -/
def createFromTemplate (fac : EFactory) (ctr : Nat) (fuel : Nat) (templateId : String)
    (ov : Option Overrides) : Except String (Nat × EFactory × JEntity) :=
  match Store.lookupA fac.templates templateId with
  | none => .error ("Template \"" ++ templateId ++ "\" not found")
  | some t =>
    match resolveTemplate fuel fac ctr t with
    | .error e => .error e
    | .ok (ctr1, rt) =>
      let oid := ov.bind Overrides.oid
      let idStep := if optStrTruthy oid then (fac, oid.getD "") else generateId fac
      let etype :=
        if optStrTruthy (ov.bind Overrides.otype) then (ov.bind Overrides.otype).getD ""
        else rt.type
      let rc := deepClone ctr1 rt.components
      match ov.bind Overrides.ocomponents with
      | some oc =>
        if truthy oc then
          match mergeComponents rc.1 rc.2 oc with
          | .error e => .error e
          | .ok r =>
            .ok (r.1, idStep.1, { id := idStep.2, type := etype, components := r.2 })
        else .ok (rc.1, idStep.1, { id := idStep.2, type := etype, components := rc.2 })
      | none => .ok (rc.1, idStep.1, { id := idStep.2, type := etype, components := rc.2 })

/-! Erasure, identity tags, and the merge the specification describes. -/

/-! Forget identity tags (set them all to 0), keeping pure JSON structure. -/
mutual
def erase : JVal → JVal
  | .jobj _ fs => .jobj 0 (eraseFields fs)
  | .jarr _ es ex => .jarr 0 (eraseList es) (eraseFields ex)
  | v => v
def eraseFields : JFields → JFields
  | .nil => .nil
  | .fcons k v rest => .fcons k (erase v) (eraseFields rest)
def eraseList : JList → JList
  | .nil => .nil
  | .lcons v rest => .lcons (erase v) (eraseList rest)
end

/-! All identity tags reachable in a value. -/
mutual
def tagsOf : JVal → List Nat
  | .jobj t fs => t :: tagsFields fs
  | .jarr t es ex => t :: (tagsList es ++ tagsFields ex)
  | _ => []
def tagsFields : JFields → List Nat
  | .nil => []
  | .fcons _ v rest => tagsOf v ++ tagsFields rest
def tagsList : JList → List Nat
  | .nil => []
  | .lcons v rest => tagsOf v ++ tagsList rest
end

def tagsBelow (n : Nat) (v : JVal) : Bool := (tagsOf v).all (fun a => a < n)

/-- The fields of the override whose key the base does not have. -/
def keysNotIn : JFields → List String → JFields
  | .nil, _ => .nil
  | .fcons k v rest, ks =>
    if k ∈ ks then keysNotIn rest ks else .fcons k v (keysNotIn rest ks)

/-! The deep merge in the words of the specification and the claim: when
both sides are plain objects, merge field by field with the base field
order first and the new override fields appended; in every other case,
including an array on either side, the override value wins wholesale.
This definition follows the specification text and is the comparison point
for the merge implemented by the factory. -/
mutual
def specMerge : JVal → JVal → JVal
  | .jobj _ bf, c =>
    match c with
    | .jobj _ o => .jobj 0 (fAppend (specMergeBase bf o) (keysNotIn o (fieldKeys bf)))
    | _ => c
  | _, c => c
def specMergeBase : JFields → JFields → JFields
  | .nil, _ => .nil
  | .fcons k v rest, o =>
    match getField o k with
    | some w => .fcons k (specMerge v w) (specMergeBase rest o)
    | none => .fcons k v (specMergeBase rest o)
end

def specFoldComps (acc : JVal) : List JVal → JVal
  | [] => acc
  | c :: cs => specFoldComps (specMerge acc c) cs

/-- Left fold of the implemented merge over a chain of component bags. -/
def codeFoldComps (ctr : Nat) (acc : JVal) : List JVal → Except String (Nat × JVal)
  | [] => .ok (ctr, acc)
  | c :: cs =>
    match mergeComponents ctr acc c with
    | .error e => .error e
    | .ok r => codeFoldComps r.1 r.2 cs

/-! Well-formed JSON data: object keys are duplicate-free at every level
and arrays carry no extra properties (as all JSON-derived data does). -/
mutual
def wfVal : JVal → Bool
  | .jobj _ fs => wfFields fs
  | .jarr _ es ex => wfList es && ex == JFields.nil
  | _ => true
def wfFields : JFields → Bool
  | .nil => true
  | .fcons k v rest => !(fieldKeys rest).contains k && wfVal v && wfFields rest
def wfList : JList → Bool
  | .nil => true
  | .lcons v rest => wfVal v && wfList rest
end

/-- A component bag as the source types it: an object whose values are all
objects (the Component type is a Record of string to any). -/
def allValsObj : JFields → Bool
  | .nil => true
  | .fcons _ v rest => (match v with | .jobj _ _ => true | _ => false) && allValsObj rest

def wfBag : JVal → Bool
  | .jobj _ fs => wfFields fs && allValsObj fs
  | _ => false

/-! Conditions under which deepMerge agrees with the merge the
specification describes and returns a value sharing no reference with the
source: the recursion never meets an object source over a non-object
target (the implementation returns the source itself there, uncloned, and
over an array target it grafts the object fields onto a copy of the
array), never an array source over a non-object target (again returned
uncloned), and never a null source over an object target (Object.entries
throws). -/
mutual
def deepMergeOk : JVal → JVal → Bool
  | t, .jobj _ sf =>
    (match t with
     | .jobj _ tf => entriesOk tf sf
     | _ => false)
  | t, .jnull => !isObjectType t
  | t, .jarr _ _ _ => isObjectType t
  | _, _ => true
def entriesOk : JFields → JFields → Bool
  | _, .nil => true
  | tf, .fcons k v rest =>
    (match v with
     | .jobj _ _ =>
       (match getField tf k with
        | some bv =>
          if truthy bv then
            match bv with
            | .jobj _ _ => deepMergeOk bv v
            | _ => false
          else true
        | none => true)
     | _ => true)
    && entriesOk tf rest
end

/-- Conditions under which mergeComponents agrees with the merge the
specification describes on two component bags and shares no reference
with the override: no override value of null over a present object-typed
base value (a throw), and an object override value colliding with a
truthy base value requires that base value to be a plain object (an array
there grafts, any other truthy value makes deepMerge hand back the
override uncloned). -/
def mcOk : JFields → JFields → Bool
  | _, .nil => true
  | bf, .fcons k v rest =>
    (match getField bf k with
     | some bv =>
       if truthy bv then
         match v with
         | .jnull => !isObjectType bv
         | .jobj _ _ =>
           (match bv with
            | .jobj _ _ => deepMergeOk bv v
            | _ => false)
         | _ => true
       else true
     | none => true)
    && mcOk bf rest

def mcOkBags : JVal → JVal → Bool
  | .jobj _ bf, .jobj _ o => mcOk bf o
  | _, _ => false

/-- The pairwise agreement conditions along a whole chain, accumulated on
the specification side (tag-free). -/
def chainOk (acc : JVal) : List JVal → Bool
  | [] => true
  | c :: cs =>
    wfBag acc && wfBag c && mcOkBags acc c && chainOk (specMerge acc c) cs

/-- A template together with its strict ancestors, nearest parent first:
each link extends the next entry, which is registered under that id. -/
def chainUp (fac : EFactory) : Template → List Template → Bool
  | t, [] => !(optStrTruthy t.xtends)
  | t, p :: ps =>
    t.xtends == some p.id && strTruthy p.id
      && Store.lookupA fac.templates p.id == some p && chainUp fac p ps

/-! Concrete two-template chains.  The cx pair collides an object override
over an array base value (components a.x); the ok pair is a clean warrior
chain whose collisions are object over object. -/

def cxBase : Template :=
  Template.mk "cx_base" "npc" none none
    (JVal.jobj 0 (JFields.fcons "a"
      (JVal.jobj 1 (JFields.fcons "x"
        (JVal.jarr 2 (JList.lcons (JVal.jnum 1) JList.nil) JFields.nil)
        JFields.nil))
      JFields.nil))

def cxChild : Template :=
  Template.mk "cx_child" "npc" (some "cx_base") none
    (JVal.jobj 3 (JFields.fcons "a"
      (JVal.jobj 4 (JFields.fcons "x"
        (JVal.jobj 5 (JFields.fcons "y" (JVal.jnum 2) JFields.nil))
        JFields.nil))
      JFields.nil))

def cxFac : EFactory := EFactory.mk [("cx_base", cxBase), ("cx_child", cxChild)] 0

def okBase : Template :=
  Template.mk "ok_base" "npc" none none
    (JVal.jobj 0 (JFields.fcons "hp"
      (JVal.jobj 1 (JFields.fcons "value" (JVal.jnum 10) JFields.nil))
      (JFields.fcons "mp"
        (JVal.jobj 2 (JFields.fcons "value" (JVal.jnum 5) JFields.nil))
        JFields.nil)))

def okChild : Template :=
  Template.mk "ok_child" "warrior" (some "ok_base") none
    (JVal.jobj 3 (JFields.fcons "hp"
      (JVal.jobj 4 (JFields.fcons "value" (JVal.jnum 20)
        (JFields.fcons "regen" (JVal.jnum 1) JFields.nil)))
      (JFields.fcons "armor"
        (JVal.jobj 5 (JFields.fcons "value" (JVal.jnum 3) JFields.nil))
        JFields.nil)))

def okFac : EFactory := EFactory.mk [("ok_base", okBase), ("ok_child", okChild)] 0

end Factory

/-! # Lemmas and claim theorems -/

/-! ## Fixed-timestep loop -/

namespace Loop

lemma tickOnce_fields (cb : TickContext → Bool) (st : LoopState) :
    (tickOnce cb st).accumulator = st.accumulator - st.fixedDeltaTime ∧
    (tickOnce cb st).tickCount = st.tickCount + 1 ∧
    (tickOnce cb st).totalTime = st.totalTime + st.fixedDeltaTime ∧
    (tickOnce cb st).isRunning = st.isRunning ∧
    (tickOnce cb st).lastTime = st.lastTime ∧
    (tickOnce cb st).fixedDeltaTime = st.fixedDeltaTime ∧
    (tickOnce cb st).maxAccumulator = st.maxAccumulator := by
  simp [tickOnce]

/-- Closed form of the while loop: with the accumulator below
fixedDeltaTime * (fuel + 1), exactly floor (accumulator / fixedDeltaTime)
ticks happen. -/
lemma drain_spec (cb : TickContext → Bool) :
    ∀ (fuel : Nat) (st : LoopState), 0 < st.fixedDeltaTime →
      0 ≤ st.accumulator →
      st.accumulator < st.fixedDeltaTime * (fuel + 1) →
      (drain cb fuel st).accumulator
          = st.accumulator - (⌊st.accumulator / st.fixedDeltaTime⌋).toNat * st.fixedDeltaTime ∧
      (drain cb fuel st).tickCount
          = st.tickCount + (⌊st.accumulator / st.fixedDeltaTime⌋).toNat ∧
      (drain cb fuel st).totalTime
          = st.totalTime + (⌊st.accumulator / st.fixedDeltaTime⌋).toNat * st.fixedDeltaTime ∧
      (drain cb fuel st).isRunning = st.isRunning ∧
      (drain cb fuel st).lastTime = st.lastTime ∧
      (drain cb fuel st).fixedDeltaTime = st.fixedDeltaTime ∧
      (drain cb fuel st).maxAccumulator = st.maxAccumulator := by
  intro fuel
  induction fuel with
  | zero =>
    intro st hT h0 hlt
    have hfl : ⌊st.accumulator / st.fixedDeltaTime⌋ = 0 := by
      rw [Int.floor_eq_zero_iff]
      constructor
      · exact div_nonneg h0 (le_of_lt hT)
      · rw [div_lt_one hT]
        simpa using hlt
    simp [drain, hfl]
  | succ fuel ih =>
    intro st hT h0 hlt
    by_cases hge : st.fixedDeltaTime ≤ st.accumulator
    · have hT' : (tickOnce cb st).fixedDeltaTime = st.fixedDeltaTime := (tickOnce_fields cb st).2.2.2.2.2.1
      have hacc : (tickOnce cb st).accumulator = st.accumulator - st.fixedDeltaTime :=
        (tickOnce_fields cb st).1
      have h0' : 0 ≤ (tickOnce cb st).accumulator := by
        rw [hacc]; linarith
      have hlt' : (tickOnce cb st).accumulator
          < (tickOnce cb st).fixedDeltaTime * (fuel + 1) := by
        rw [hacc, hT']
        have : st.fixedDeltaTime * ((fuel : ℚ) + 1 + 1) = st.fixedDeltaTime * (fuel + 1) + st.fixedDeltaTime := by ring
        push_cast at hlt ⊢
        linarith [hlt, this]
      have hT0 : 0 < (tickOnce cb st).fixedDeltaTime := by rw [hT']; exact hT
      obtain ⟨ha, hc, ht, hr, hl, hf, hm⟩ := ih (tickOnce cb st) hT0 h0' hlt'
      have hdiv : (tickOnce cb st).accumulator / (tickOnce cb st).fixedDeltaTime
          = st.accumulator / st.fixedDeltaTime - 1 := by
        rw [hacc, hT']
        field_simp
      have hfl : ⌊(tickOnce cb st).accumulator / (tickOnce cb st).fixedDeltaTime⌋
          = ⌊st.accumulator / st.fixedDeltaTime⌋ - 1 := by
        rw [hdiv]
        exact_mod_cast Int.floor_sub_int (st.accumulator / st.fixedDeltaTime) 1
      have hpos : 1 ≤ ⌊st.accumulator / st.fixedDeltaTime⌋ := by
        have : (1 : ℚ) ≤ st.accumulator / st.fixedDeltaTime := by
          rw [le_div_iff₀ hT]; linarith
        exact_mod_cast Int.le_floor.mpr (by exact_mod_cast this)
      have htn : (⌊st.accumulator / st.fixedDeltaTime⌋).toNat
          = (⌊st.accumulator / st.fixedDeltaTime⌋ - 1).toNat + 1 := by omega
      have hdr : drain cb (fuel + 1) st = drain cb fuel (tickOnce cb st) := by
        simp [drain, hge]
      rw [hdr]
      refine ⟨?_, ?_, ?_, ?_, ?_, ?_, ?_⟩
      · rw [ha, hfl, hacc, hT', htn]
        push_cast
        ring
      · rw [hc, hfl, (tickOnce_fields cb st).2.1, htn]
        omega
      · rw [ht, hfl, (tickOnce_fields cb st).2.2.1, hT', htn]
        push_cast
        ring
      · rw [hr]; exact (tickOnce_fields cb st).2.2.2.1
      · rw [hl]; exact (tickOnce_fields cb st).2.2.2.2.1
      · rw [hf]; exact hT'
      · rw [hm]; exact (tickOnce_fields cb st).2.2.2.2.2.2
    · push_neg at hge
      have hfl : ⌊st.accumulator / st.fixedDeltaTime⌋ = 0 := by
        rw [Int.floor_eq_zero_iff]
        exact ⟨div_nonneg h0 (le_of_lt hT), by rw [div_lt_one hT]; exact hge⟩
      have hdr : drain cb (fuel + 1) st = st := by
        simp [drain, not_le.mpr hge]
      simp [hdr, hfl]

/-- The residual accumulator after a complete drain is in [0, tick). -/
lemma floor_residual {a T : ℚ} (hT : 0 < T) (h0 : 0 ≤ a) :
    0 ≤ a - (⌊a / T⌋).toNat * T ∧ a - (⌊a / T⌋).toNat * T < T := by
  have hnn : 0 ≤ ⌊a / T⌋ := Int.floor_nonneg.mpr (div_nonneg h0 (le_of_lt hT))
  have hcast : ((⌊a / T⌋).toNat : ℚ) = (⌊a / T⌋ : ℚ) := by
    exact_mod_cast congrArg Int.cast (Int.toNat_of_nonneg hnn)
  have ha : a / T * T = a := div_mul_cancel₀ a (ne_of_gt hT)
  have hle : (⌊a / T⌋ : ℚ) ≤ a / T := Int.floor_le _
  have hlt : a / T < ⌊a / T⌋ + 1 := Int.lt_floor_add_one _
  have h1 : (⌊a / T⌋ : ℚ) * T ≤ a := by
    have := (mul_le_mul_right hT).mpr hle
    rwa [ha] at this
  have h2 : a < ((⌊a / T⌋ : ℚ) + 1) * T := by
    have := (mul_lt_mul_right hT).mpr hlt
    rwa [ha] at this
  rw [hcast]
  constructor
  · linarith
  · linarith [h2]

end Loop

namespace Loop

/-- One running frame preserves the loop invariant and adds exactly the
clamped delta to the time accounted in whole ticks plus residue. -/
lemma frame_spec (cb : TickContext → Bool) (fuel : Nat) (st : LoopState) (d : ℚ)
    (hrun : st.isRunning = true) (hT : 0 < st.fixedDeltaTime)
    (hmax : st.maxAccumulator = st.fixedDeltaTime * 10)
    (h0 : 0 ≤ st.accumulator) (hlt : st.accumulator < st.fixedDeltaTime)
    (htot : st.totalTime = st.tickCount * st.fixedDeltaTime)
    (hd : 0 ≤ d) (hfuel : 10 ≤ fuel) :
    (frame cb fuel st (st.lastTime + d)).accumulator
          + (frame cb fuel st (st.lastTime + d)).tickCount * st.fixedDeltaTime
        = st.accumulator + st.tickCount * st.fixedDeltaTime + min d st.maxAccumulator ∧
      0 ≤ (frame cb fuel st (st.lastTime + d)).accumulator ∧
      (frame cb fuel st (st.lastTime + d)).accumulator < st.fixedDeltaTime ∧
      (frame cb fuel st (st.lastTime + d)).totalTime
        = (frame cb fuel st (st.lastTime + d)).tickCount * st.fixedDeltaTime ∧
      (frame cb fuel st (st.lastTime + d)).isRunning = true ∧
      (frame cb fuel st (st.lastTime + d)).lastTime = st.lastTime + d ∧
      (frame cb fuel st (st.lastTime + d)).fixedDeltaTime = st.fixedDeltaTime ∧
      (frame cb fuel st (st.lastTime + d)).maxAccumulator = st.maxAccumulator := by
  have hdelta : st.lastTime + d - st.lastTime = d := by ring
  set st1 : LoopState :=
    { st with lastTime := st.lastTime + d,
              accumulator := st.accumulator + min (st.lastTime + d - st.lastTime) st.maxAccumulator }
    with hst1
  have hframe : frame cb fuel st (st.lastTime + d) = drain cb fuel st1 := by
    simp only [frame, hrun, if_true, hst1]
  have hminnn : 0 ≤ min d st.maxAccumulator := by
    have : (0 : ℚ) ≤ st.maxAccumulator := by rw [hmax]; positivity
    exact le_min hd this
  have h01 : 0 ≤ st1.accumulator := by
    simp only [hst1, hdelta]
    linarith
  have hlt1 : st1.accumulator < st1.fixedDeltaTime * (fuel + 1) := by
    simp only [hst1, hdelta]
    have hmle : min d st.maxAccumulator ≤ st.fixedDeltaTime * 10 := by
      rw [← hmax]; exact min_le_right _ _
    have hf : (11 : ℚ) ≤ (fuel : ℚ) + 1 := by
      have : (10 : ℚ) ≤ (fuel : ℚ) := by exact_mod_cast hfuel
      linarith
    have : st.accumulator + min d st.maxAccumulator < st.fixedDeltaTime * 11 := by linarith
    calc st.accumulator + min d st.maxAccumulator < st.fixedDeltaTime * 11 := this
    _ ≤ st.fixedDeltaTime * ((fuel : ℚ) + 1) := by
        have := mul_le_mul_of_nonneg_left hf (le_of_lt hT)
        linarith
  have hT1 : 0 < st1.fixedDeltaTime := hT
  obtain ⟨ha, hc, ht, hr, hl, hf, hm⟩ := drain_spec cb fuel st1 hT1 h01 hlt1
  have hres := floor_residual (a := st1.accumulator) (T := st1.fixedDeltaTime) hT1 h01
  rw [hframe]
  have hacc1 : st1.accumulator = st.accumulator + min d st.maxAccumulator := by
    simp only [hst1, hdelta]
  refine ⟨?_, ?_, ?_, ?_, ?_, ?_, ?_, ?_⟩
  · rw [ha, hc]
    simp only [hst1, hdelta]
    push_cast
    ring
  · rw [ha]; exact hres.1
  · rw [ha]; exact hres.2
  · rw [ht, hc]
    have htot1 : st1.totalTime = st1.tickCount * st1.fixedDeltaTime := htot
    rw [htot1]
    push_cast
    ring
  · rw [hr]; exact hrun
  · rw [hl]
  · rw [hf]
  · rw [hm]

/-- Folding frames keeps the invariant; total clamped time splits into
whole ticks plus a residue below one tick. -/
lemma runFrames_spec (cb : TickContext → Bool) (fuel : Nat) :
    ∀ (deltas : List ℚ) (st : LoopState),
      st.isRunning = true → 0 < st.fixedDeltaTime →
      st.maxAccumulator = st.fixedDeltaTime * 10 →
      0 ≤ st.accumulator → st.accumulator < st.fixedDeltaTime →
      st.totalTime = st.tickCount * st.fixedDeltaTime →
      (∀ d ∈ deltas, 0 ≤ d) → 10 ≤ fuel →
      (runFrames cb fuel st (timesFrom st.lastTime deltas)).accumulator
            + (runFrames cb fuel st (timesFrom st.lastTime deltas)).tickCount * st.fixedDeltaTime
          = st.accumulator + st.tickCount * st.fixedDeltaTime
            + clampedSum st.maxAccumulator deltas ∧
        0 ≤ (runFrames cb fuel st (timesFrom st.lastTime deltas)).accumulator ∧
        (runFrames cb fuel st (timesFrom st.lastTime deltas)).accumulator < st.fixedDeltaTime ∧
        (runFrames cb fuel st (timesFrom st.lastTime deltas)).totalTime
          = (runFrames cb fuel st (timesFrom st.lastTime deltas)).tickCount * st.fixedDeltaTime ∧
        (runFrames cb fuel st (timesFrom st.lastTime deltas)).fixedDeltaTime = st.fixedDeltaTime := by
  intro deltas
  induction deltas with
  | nil =>
    intro st hrun hT hmax h0 hlt htot _ _
    simp only [timesFrom, runFrames, List.foldl_nil, clampedSum, List.map_nil, List.sum_nil]
    exact ⟨by ring, h0, hlt, htot, by trivial⟩
  | cons d ds ih =>
    intro st hrun hT hmax h0 hlt htot hd hfuel
    have hd0 : 0 ≤ d := hd d (List.mem_cons_self d ds)
    have hds : ∀ x ∈ ds, 0 ≤ x := fun x hx => hd x (List.mem_cons_of_mem d hx)
    obtain ⟨hsum, h0f, hltf, htotf, hrunf, hlastf, hTf, hmaxf⟩ :=
      frame_spec cb fuel st d hrun hT hmax h0 hlt htot hd0 hfuel
    set st1 := frame cb fuel st (st.lastTime + d) with hst1
    have hchain : runFrames cb fuel st (timesFrom st.lastTime (d :: ds))
        = runFrames cb fuel st1 (timesFrom st1.lastTime ds) := by
      simp only [timesFrom, runFrames, List.foldl_cons]
      rw [hlastf]
    obtain ⟨ihsum, ih0, ihlt, ihtot, ihT⟩ :=
      ih st1 hrunf (by rw [hTf]; exact hT) (by rw [hTf, hmaxf]; exact hmax)
        h0f (by rw [hTf]; exact hltf) (by rw [hTf]; exact htotf) hds hfuel
    rw [hchain]
    have hTeq : st1.fixedDeltaTime = st.fixedDeltaTime := hTf
    have hmaxeq : st1.maxAccumulator = st.maxAccumulator := hmaxf
    refine ⟨?_, ih0, by rw [← hTeq]; exact ihlt, by rw [← hTeq]; exact ihtot,
      by rw [← hTeq]; exact ihT⟩
    · rw [hTeq] at ihsum
      rw [ihsum, hmaxeq]
      have : clampedSum st.maxAccumulator (d :: ds)
          = min d st.maxAccumulator + clampedSum st.maxAccumulator ds := by
        simp [clampedSum]
      rw [this]
      linarith [hsum]

end Loop

namespace Loop

lemma ticks_of_split (n : Nat) (a T S : ℚ) (hT : 0 < T) (h0 : 0 ≤ a) (hlt : a < T)
    (hS : S = a + n * T) : (⌊S / T⌋).toNat = n := by
  have hdiv : S / T = (n : ℚ) + a / T := by
    rw [hS]
    field_simp
    ring
  have hfl0 : ⌊a / T⌋ = 0 := by
    rw [Int.floor_eq_zero_iff]
    exact ⟨div_nonneg h0 hT.le, by rw [div_lt_one hT]; exact hlt⟩
  have hfl : ⌊S / T⌋ = n := by
    rw [hdiv, Int.floor_nat_add, hfl0, add_zero]
  rw [hfl]
  exact Int.toNat_natCast n

/-- C4: for a running fixed-timestep loop fed any finite sequence of
non-negative frame deltas, the number of simulation ticks equals the floor
of the sum of the per-frame deltas, each clamped to ten fixed ticks,
divided by the fixed tick, and totalTime is exactly tickCount times the
fixed tick — so both depend only on the clamped total, not on how it is
split into frames. -/
theorem loop_ticks_floor_clamped_sum (targetFPS t0 : ℚ) (deltas : List ℚ)
    (cb : TickContext → Bool) (fuel : Nat) (hfps : 0 < targetFPS)
    (hd : ∀ d ∈ deltas, 0 ≤ d) (hfuel : 10 ≤ fuel) :
    (runFrames cb fuel (start (mkLoop targetFPS) t0) (timesFrom t0 deltas)).tickCount
        = (⌊clampedSum (1000 / targetFPS * 10) deltas / (1000 / targetFPS)⌋).toNat
      ∧ (runFrames cb fuel (start (mkLoop targetFPS) t0) (timesFrom t0 deltas)).totalTime
        = (runFrames cb fuel (start (mkLoop targetFPS) t0) (timesFrom t0 deltas)).tickCount
            * (1000 / targetFPS) := by
  set st0 := start (mkLoop targetFPS) t0 with hst0
  have hrun : st0.isRunning = true := by simp [hst0, start, mkLoop]
  have hlast : st0.lastTime = t0 := by simp [hst0, start, mkLoop]
  have hTeq : st0.fixedDeltaTime = 1000 / targetFPS := by simp [hst0, start, mkLoop]
  have hmaxeq : st0.maxAccumulator = 1000 / targetFPS * 10 := by simp [hst0, start, mkLoop]
  have hacc : st0.accumulator = 0 := by simp [hst0, start, mkLoop]
  have htick : st0.tickCount = 0 := by simp [hst0, start, mkLoop]
  have htot : st0.totalTime = 0 := by simp [hst0, start, mkLoop]
  have hT : 0 < st0.fixedDeltaTime := by rw [hTeq]; positivity
  obtain ⟨hsum, h0f, hltf, htotf, hTf⟩ :=
    runFrames_spec cb fuel deltas st0 hrun hT
      (by rw [hTeq, hmaxeq]) (by rw [hacc]) (by rw [hacc]; exact hT)
      (by simp [htot, htick]) hd hfuel
  rw [hlast] at hsum h0f hltf htotf
  set fin := runFrames cb fuel st0 (timesFrom t0 deltas) with hfin
  rw [hacc, htick] at hsum
  simp only [Nat.cast_zero, zero_mul, zero_add, add_zero] at hsum
  rw [hTeq] at hsum hltf htotf
  rw [hmaxeq] at hsum
  constructor
  · exact (ticks_of_split fin.tickCount fin.accumulator (1000 / targetFPS)
      (clampedSum (1000 / targetFPS * 10) deltas) (by positivity) h0f hltf
      (by linarith [hsum])).symm
  · exact htotf

/-- Witness for C4 at 60 FPS with the delta sequence 10, 40, 200 ms. -/
theorem loop_ticks_floor_clamped_sum_witness :
    (0 : ℚ) < 60 ∧ (∀ d ∈ [(10 : ℚ), 40, 200], 0 ≤ d) ∧ 10 ≤ 10 ∧
    ((runFrames (fun _ => false) 10 (start (mkLoop 60) 0) (timesFrom 0 [10, 40, 200])).tickCount
        = (⌊clampedSum (1000 / 60 * 10) [10, 40, 200] / (1000 / 60)⌋).toNat
      ∧ (runFrames (fun _ => false) 10 (start (mkLoop 60) 0)
            (timesFrom 0 [10, 40, 200])).totalTime
        = (runFrames (fun _ => false) 10 (start (mkLoop 60) 0)
            (timesFrom 0 [10, 40, 200])).tickCount * (1000 / 60)) :=
  ⟨by norm_num, by intro d hd; fin_cases hd <;> norm_num, le_refl 10,
   loop_ticks_floor_clamped_sum 60 0 [10, 40, 200] (fun _ => false) 10 (by norm_num)
     (by intro d hd; fin_cases hd <;> norm_num) (le_refl 10)⟩

/-- C10: starting a stopped loop resets tickCount, totalTime and the
accumulator to zero and records the new wall-clock time; starting a running
loop changes nothing; in particular after stop-then-start no counters
survive from the previous run. -/
theorem loop_start_resets (st : LoopState) (now now2 : ℚ) :
    (st.isRunning = false →
      start st now = { st with
        isRunning := true
        lastTime := now
        accumulator := 0
        totalTime := 0
        tickCount := 0 })
    ∧ (st.isRunning = true → start st now = st)
    ∧ (start (stop st) now2).tickCount = 0
    ∧ (start (stop st) now2).totalTime = 0
    ∧ (start (stop st) now2).accumulator = 0 := by
  cases h : st.isRunning <;> simp [start, stop, h]

/-- Witness for C10: a freshly constructed loop is stopped and resets on
start; a started loop ignores a second start. -/
theorem loop_start_resets_witness :
    start (mkLoop 60) 5 = { mkLoop 60 with
        isRunning := true
        lastTime := 5
        accumulator := 0
        totalTime := 0
        tickCount := 0 }
    ∧ start (start (mkLoop 60) 5) 9 = start (mkLoop 60) 5 :=
  ⟨(loop_start_resets (mkLoop 60) 5 0).1 rfl,
   (loop_start_resets (start (mkLoop 60) 5) 9 0).2.1 rfl⟩

end Loop

/-! ## System scheduler -/

namespace Sched

/-- The static part of a registration, which membership in a phase and
dueness depend on; updatePhase never changes it. -/
lemma updatePhase_static (throws : String → Bool) (tick : Nat) (phase : Phase)
    (sys : List SystemReg) :
    ((updatePhase throws tick phase sys).1).map
        (fun r => (r.name, r.phase, r.enabled, r.frequency))
      = sys.map (fun r => (r.name, r.phase, r.enabled, r.frequency)) := by
  simp only [updatePhase, List.map_map]
  apply List.map_congr_left
  intro r _
  by_cases h : dueIn tick phase r = true <;> simp [h]

/-- Dueness and dispatch entries depend only on the static part. -/
lemma filter_map_static {β : Type} (F : String → β) (tick : Nat) (phase : Phase) :
    ∀ (sys1 sys2 : List SystemReg),
      sys1.map (fun r => (r.name, r.phase, r.enabled, r.frequency))
          = sys2.map (fun r => (r.name, r.phase, r.enabled, r.frequency)) →
      (sys1.filter (dueIn tick phase)).map (fun r => F r.name)
        = (sys2.filter (dueIn tick phase)).map (fun r => F r.name) := by
  intro sys1
  induction sys1 with
  | nil =>
    intro sys2 h
    cases sys2 with
    | nil => rfl
    | cons b m => simp at h
  | cons a l ih =>
    intro sys2 h
    cases sys2 with
    | nil => simp at h
    | cons b m =>
      simp only [List.map_cons, List.cons.injEq, Prod.mk.injEq] at h
      obtain ⟨⟨hn, hp, he, hf⟩, ht⟩ := h
      have hdue : dueIn tick phase a = dueIn tick phase b := by
        simp only [dueIn, hn, hp, he, hf]
      by_cases hd : dueIn tick phase a = true
      · rw [List.filter_cons_of_pos hd, List.filter_cons_of_pos (hdue ▸ hd)]
        simp only [List.map_cons, hn, ih m ht]
      · rw [List.filter_cons_of_neg (by simpa using hd),
          List.filter_cons_of_neg (by rw [← hdue]; simpa using hd)]
        exact ih m ht

/-- The trace of the phase fold: for every phase in order, the systems due
in that phase at the start of the tick, in registration order. -/
lemma fold_trace (throws : String → Bool) (tick : Nat) :
    ∀ (phs : List Phase) (sys : List SystemReg) (acc : List (String × Bool)),
      (phs.foldl
        (fun (a : List SystemReg × List (String × Bool)) phase =>
          let r := updatePhase throws tick phase a.1
          (r.1, a.2 ++ r.2)) (sys, acc)).2
      = acc ++ (phs.map (fun p =>
          (sys.filter (dueIn tick p)).map (fun r => (r.name, throws r.name)))).flatten := by
  intro phs
  induction phs with
  | nil => intro sys acc; simp
  | cons p ps ih =>
    intro sys acc
    have hstep := ih (updatePhase throws tick p sys).1
      (acc ++ (sys.filter (dueIn tick p)).map (fun r => (r.name, throws r.name)))
    have hmaps : ∀ q : Phase,
        (((updatePhase throws tick p sys).1).filter (dueIn tick q)).map
            (fun r => (r.name, throws r.name))
          = (sys.filter (dueIn tick q)).map (fun r => (r.name, throws r.name)) := by
      intro q
      exact filter_map_static (fun n => (n, throws n)) tick q _ sys
        (updatePhase_static throws tick p sys)
    have hrest : acc ++ (sys.filter (dueIn tick p)).map (fun r => (r.name, throws r.name))
          ++ (ps.map (fun q =>
              (((updatePhase throws tick p sys).1).filter (dueIn tick q)).map
                (fun r => (r.name, throws r.name)))).flatten
        = acc ++ ((sys.filter (dueIn tick p)).map (fun r => (r.name, throws r.name))
          ++ (ps.map (fun q =>
              (sys.filter (dueIn tick q)).map (fun r => (r.name, throws r.name)))).flatten) := by
      rw [List.append_assoc]
      congr 2
      exact congrArg List.flatten (List.map_congr_left (fun q _ => hmaps q))
    exact hstep.trans hrest

end Sched

namespace Loop

lemma coreEq_tickOnce (cb1 cb2 : TickContext → Bool) {s1 s2 : LoopState}
    (h : coreEq s1 s2) : coreEq (tickOnce cb1 s1) (tickOnce cb2 s2) := by
  obtain ⟨h1, h2, h3, h4, h5, h6, h7⟩ := h
  exact ⟨h1, h2, by simp [tickOnce, h3, h6], by simp [tickOnce, h4, h6],
    by simp [tickOnce, h5], h6, h7⟩

lemma coreEq_drain (cb1 cb2 : TickContext → Bool) :
    ∀ (fuel : Nat) {s1 s2 : LoopState}, coreEq s1 s2 →
      coreEq (drain cb1 fuel s1) (drain cb2 fuel s2) := by
  intro fuel
  induction fuel with
  | zero => intro s1 s2 h; exact h
  | succ fuel ih =>
    intro s1 s2 h
    have hcond : (s1.fixedDeltaTime ≤ s1.accumulator) = (s2.fixedDeltaTime ≤ s2.accumulator) := by
      rw [h.2.2.1, h.2.2.2.2.2.1]
    by_cases hc : s1.fixedDeltaTime ≤ s1.accumulator
    · rw [show drain cb1 (fuel + 1) s1 = drain cb1 fuel (tickOnce cb1 s1) by simp [drain, hc],
        show drain cb2 (fuel + 1) s2 = drain cb2 fuel (tickOnce cb2 s2) by
          simp [drain, hcond ▸ hc]]
      exact ih (coreEq_tickOnce cb1 cb2 h)
    · rw [show drain cb1 (fuel + 1) s1 = s1 by simp [drain, hc],
        show drain cb2 (fuel + 1) s2 = s2 by simp [drain, hcond ▸ hc]]
      exact h

lemma coreEq_frame (cb1 cb2 : TickContext → Bool) (fuel : Nat) {s1 s2 : LoopState}
    (h : coreEq s1 s2) (t : ℚ) : coreEq (frame cb1 fuel s1 t) (frame cb2 fuel s2 t) := by
  obtain ⟨h1, h2, h3, h4, h5, h6, h7⟩ := h
  by_cases hr : s1.isRunning = true
  · rw [show frame cb1 fuel s1 t = drain cb1 fuel
        { s1 with
          lastTime := t
          accumulator := s1.accumulator + min (t - s1.lastTime) s1.maxAccumulator } by
        simp [frame, hr],
      show frame cb2 fuel s2 t = drain cb2 fuel
        { s2 with
          lastTime := t
          accumulator := s2.accumulator + min (t - s2.lastTime) s2.maxAccumulator } by
        simp [frame, h1 ▸ hr]]
    exact coreEq_drain cb1 cb2 fuel
      ⟨h1, rfl, by simp [h2, h3, h7], h4, h5, h6, h7⟩
  · rw [show frame cb1 fuel s1 t = s1 by simp [frame, hr],
      show frame cb2 fuel s2 t = s2 by simp [frame, h1 ▸ hr]]
    exact ⟨h1, h2, h3, h4, h5, h6, h7⟩

/-- The loop progression never depends on whether its callback throws. -/
lemma coreEq_runFrames (cb1 cb2 : TickContext → Bool) (fuel : Nat) :
    ∀ (times : List ℚ) {s1 s2 : LoopState}, coreEq s1 s2 →
      coreEq (runFrames cb1 fuel s1 times) (runFrames cb2 fuel s2 times) := by
  intro times
  induction times with
  | nil => intro s1 s2 h; exact h
  | cons t ts ih =>
    intro s1 s2 h
    exact ih (coreEq_frame cb1 cb2 fuel h t)

end Loop

namespace Sched

/-- C5: when some due system throws during a tick, the scheduler still
invokes exactly the due systems — same phase and later phases included, in
phase order and registration order — identically to a tick in which
nothing throws; the tick counter advances; and the loop driving the
scheduler progresses identically whatever its callback throws, because
both the scheduler (lines 623-628) and the loop (lines 100-104) catch. -/
theorem scheduler_fault_isolation (sm : SM) (throws : String → Bool)
    (h : ∃ n ∈ dueNames sm, throws n = true) :
    ((smUpdate throws sm).2).map Prod.fst = dueNames sm
    ∧ ((smUpdate throws sm).2).map Prod.fst = ((smUpdate (fun _ => false) sm).2).map Prod.fst
    ∧ (smUpdate throws sm).1.tickCount = sm.tickCount + 1
    ∧ (∀ (cb1 cb2 : Loop.TickContext → Bool) (fuel : Nat) (st : Loop.LoopState)
        (times : List ℚ),
        Loop.coreEq (Loop.runFrames cb1 fuel st times) (Loop.runFrames cb2 fuel st times)) := by
  have htr : ∀ (th : String → Bool), (smUpdate th sm).2
      = ((phaseOrder.map (fun p =>
          (sm.systems.filter (dueIn (sm.tickCount + 1) p)).map
            (fun r => (r.name, th r.name)))).flatten) := by
    intro th
    have := fold_trace th (sm.tickCount + 1) phaseOrder sm.systems []
    simpa [smUpdate] using this
  have hnames : ∀ (th : String → Bool),
      ((smUpdate th sm).2).map Prod.fst = dueNames sm := by
    intro th
    rw [htr th, dueNames]
    rw [List.map_flatten, List.map_map]
    apply congrArg List.flatten
    apply List.map_congr_left
    intro p _
    simp [List.map_map, Function.comp]
  refine ⟨hnames throws, ?_, ?_, ?_⟩
  · rw [hnames throws, hnames (fun _ => false)]
  · simp [smUpdate]
  · intro cb1 cb2 fuel st times
    exact Loop.coreEq_runFrames cb1 cb2 fuel times
      ⟨rfl, rfl, rfl, rfl, rfl, rfl, rfl⟩

/-- Witness for C5: a system that throws in the update phase does not stop
a later-phase system from being invoked the same tick. -/
theorem scheduler_fault_isolation_witness :
    (∃ n ∈ dueNames (SM.mk [SystemReg.mk "thrower" Phase.update true 1 0 0,
        SystemReg.mk "later" Phase.lateUpdate true 1 0 0] 0),
      (fun m => m == "thrower") n = true)
    ∧ ((smUpdate (fun m => m == "thrower")
        (SM.mk [SystemReg.mk "thrower" Phase.update true 1 0 0,
          SystemReg.mk "later" Phase.lateUpdate true 1 0 0] 0)).2).map Prod.fst
      = dueNames (SM.mk [SystemReg.mk "thrower" Phase.update true 1 0 0,
          SystemReg.mk "later" Phase.lateUpdate true 1 0 0] 0) :=
  ⟨⟨"thrower", by decide, by decide⟩,
   (scheduler_fault_isolation
     (SM.mk [SystemReg.mk "thrower" Phase.update true 1 0 0,
       SystemReg.mk "later" Phase.lateUpdate true 1 0 0] 0)
     (fun m => m == "thrower") ⟨"thrower", by decide, by decide⟩).1⟩

end Sched

/-! ## Event bus -/

namespace Bus

/-- C9: clear removes every subscription — the subscription count drops to
zero for every type and in total — but getHistory answers exactly as
before; only clearHistory empties the history. -/
theorem bus_clear_keeps_history (bus : EventBus) (etype : Option String)
    (limit : Option Nat) :
    getHistory (clear bus) etype limit = getHistory bus etype limit
    ∧ getSubscriptionCount (clear bus) etype = 0
    ∧ (clear bus).eventHistory = bus.eventHistory
    ∧ (clearHistory bus).eventHistory = [] := by
  refine ⟨rfl, ?_, rfl, rfl⟩
  by_cases h : etype.getD "" ≠ ""
  · simp [getSubscriptionCount, clear, subsFor, h]
  · simp [getSubscriptionCount, clear, h]

/-- C1 is a code bug; this theorem evaluates the code at the failing
input: on a fresh world, executeCommand with any command object reports
success with the fixed message, emits command:executed into the bus
history, and yet returns an empty events list — the temporary collector is
subscribed under the literal type star, which the exact-type dispatch of
emit never invokes. -/
theorem executeCommand_events_always_empty (c : String) (args : List String)
    (fuel : Nat) :
    (executeCommand inertBeh (fuel + 1) emptyBus c args).2.success = true
    ∧ (executeCommand inertBeh (fuel + 1) emptyBus c args).2.message = "Command executed"
    ∧ (executeCommand inertBeh (fuel + 1) emptyBus c args).2.events = []
    ∧ (executeCommand inertBeh (fuel + 1) emptyBus c args).1.eventHistory
      = [{ type := "command:executed", data := EventData.cmd c args, timestamp := 0,
           source := none }] := by
  have hrun : ∀ (bus : EventBus) (tr : List (Nat × GameEvent)),
      run inertBeh fuel [] bus tr = (bus, tr) := by
    intro bus tr
    cases fuel <;> rfl
  refine ⟨rfl, rfl, ?_, ?_⟩ <;>
    simp [executeCommand, emptyBus, subscribe, addSub, subsFor, setSubs, sortSubs,
      insertDesc, freshSid, freshCid, run, pushHistory, removeSid, hrun]

/-- The concrete bus of the C7 counterexample: a priority-1 subscriber
whose callback re-emits the same type on its first invocation, and a
priority-0 once subscriber, both for type e. -/
def nestedBeh : Beh := fun cid n => if cid == 1 && n == 0 then [("e", EventData.unit)] else []

def onceBus : EventBus := subscribeOnce (subscribe emptyBus "e" 1 1 0) "e" 2 0 1

/-- C7 is a code bug; this theorem evaluates the code at the failing input:
emitting e on the bus above invokes the once callback (cid 2) twice — once
from the nested emit made by the other handler, and once more from the
outer emit, whose snapshot still holds the already-removed subscription
(emit iterates a snapshot, lines 111-127, and only splices the once entry
from the live array after calling it). -/
theorem once_invoked_twice_under_nested_emit :
    countInv (run nestedBeh 12 [Task.emitT "e" EventData.unit none] onceBus []).2 2 = 2
    ∧ (run nestedBeh 12 [Task.emitT "e" EventData.unit none] onceBus []).2.map Prod.fst
      = [1, 1, 2, 2] := by
  constructor <;> rfl

end Bus

namespace Bus

lemma insertDesc_insertLast_comm (a x : Subscription) :
    ∀ m : List Subscription, insertDesc a (insertLast x m) = insertLast x (insertDesc a m) := by
  intro m
  induction m with
  | nil =>
    by_cases h : x.priority > a.priority
    · have h2 : ¬ (a.priority ≥ x.priority) := by omega
      simp [insertDesc, insertLast, h, h2]
    · have h2 : a.priority ≥ x.priority := by omega
      simp [insertDesc, insertLast, h, h2]
  | cons t m ih =>
    by_cases h1 : t.priority ≥ x.priority
    · by_cases h2 : t.priority > a.priority
      · simp [insertDesc, insertLast, h1, h2, ih]
      · have h3 : a.priority ≥ x.priority := by omega
        simp [insertDesc, insertLast, h1, h2, h3]
    · by_cases h2 : x.priority > a.priority
      · have h4 : ¬ (a.priority ≥ x.priority) := by omega
        by_cases h3 : t.priority > a.priority
        · simp [insertDesc, insertLast, h1, h2, h3, h4]
        · simp [insertDesc, insertLast, h1, h2, h3, h4]
      · have h3 : a.priority ≥ x.priority := by omega
        have h4 : ¬ (t.priority > a.priority) := by omega
        simp [insertDesc, insertLast, h1, h2, h3, h4]

lemma sortSubs_append_one (x : Subscription) :
    ∀ l : List Subscription, sortSubs (l ++ [x]) = insertLast x (sortSubs l) := by
  intro l
  induction l with
  | nil => rfl
  | cons a l ih =>
    show insertDesc a (sortSubs (l ++ [x])) = insertLast x (insertDesc a (sortSubs l))
    rw [ih, insertDesc_insertLast_comm]

end Bus

namespace Bus

lemma insertDesc_perm (a : Subscription) :
    ∀ m : List Subscription, (insertDesc a m).Perm (a :: m) := by
  intro m
  induction m with
  | nil => simp [insertDesc]
  | cons t m ih =>
    by_cases h : t.priority > a.priority
    · simp only [insertDesc, if_pos h]
      exact ((ih.cons t).trans (List.Perm.swap a t m))
    · simp [insertDesc, h]

lemma sortSubs_perm : ∀ l : List Subscription, (sortSubs l).Perm l := by
  intro l
  induction l with
  | nil => simp [sortSubs]
  | cons a l ih =>
    show (insertDesc a (sortSubs l)).Perm (a :: l)
    exact (insertDesc_perm a (sortSubs l)).trans (ih.cons a)

lemma insertDesc_pairwise (a : Subscription) :
    ∀ m : List Subscription, m.Pairwise dispatchOrd →
      (∀ b ∈ m, a.sid < b.sid) →
      (insertDesc a m).Pairwise dispatchOrd := by
  intro m
  induction m with
  | nil => intro _ _; simp [insertDesc, List.pairwise_singleton]
  | cons t m ih =>
    intro hp hs
    rw [List.pairwise_cons] at hp
    by_cases h : t.priority > a.priority
    · simp only [insertDesc, if_pos h]
      rw [List.pairwise_cons]
      constructor
      · intro b hb
        rcases (insertDesc_perm a m).mem_iff.mp hb with hb2
        rcases List.mem_cons.mp hb2 with rfl | hbm
        · exact Or.inl h
        · exact hp.1 b hbm
      · exact ih hp.2 (fun b hb => hs b (List.mem_cons_of_mem _ hb))
    · simp only [insertDesc, if_neg h]
      rw [List.pairwise_cons]
      constructor
      · intro b hb
        rcases List.mem_cons.mp hb with rfl | hbm
        · by_cases he : a.priority = b.priority
          · exact Or.inr ⟨he, hs b (List.mem_cons_self _ _)⟩
          · exact Or.inl (by omega)
        · rcases hp.1 b hbm with hlt | ⟨heq, _⟩
          · by_cases he : a.priority = b.priority
            · exact Or.inr ⟨he, hs b (List.mem_cons_of_mem _ hbm)⟩
            · exact Or.inl (by omega)
          · by_cases he : a.priority = b.priority
            · exact Or.inr ⟨he, hs b (List.mem_cons_of_mem _ hbm)⟩
            · exact Or.inl (by omega)
      · rw [List.pairwise_cons]
        exact ⟨hp.1, hp.2⟩

lemma sortSubs_pairwise : ∀ l : List Subscription,
    l.Pairwise (fun p q => p.sid < q.sid) →
    (sortSubs l).Pairwise dispatchOrd := by
  intro l
  induction l with
  | nil => intro _; simp [sortSubs]
  | cons a l ih =>
    intro h
    rw [List.pairwise_cons] at h
    show (insertDesc a (sortSubs l)).Pairwise dispatchOrd
    exact insertDesc_pairwise a (sortSubs l) (ih h.2)
      (fun b hb => h.1 b ((sortSubs_perm l).mem_iff.mp hb))

end Bus

namespace Bus

lemma insertDesc_sorted (a : Subscription) :
    ∀ m : List Subscription, m.Pairwise (fun p q => q.priority ≤ p.priority) →
      (insertDesc a m).Pairwise (fun p q => q.priority ≤ p.priority) := by
  intro m
  induction m with
  | nil => intro _; simp [insertDesc]
  | cons t m ih =>
    intro hp
    rw [List.pairwise_cons] at hp
    by_cases h : t.priority > a.priority
    · simp only [insertDesc, if_pos h]
      rw [List.pairwise_cons]
      refine ⟨?_, ih hp.2⟩
      intro b hb
      rcases List.mem_cons.mp ((insertDesc_perm a m).mem_iff.mp hb) with rfl | hbm
      · omega
      · exact hp.1 b hbm
    · simp only [insertDesc, if_neg h]
      rw [List.pairwise_cons]
      refine ⟨?_, List.pairwise_cons.mpr hp⟩
      intro b hb
      rcases List.mem_cons.mp hb with rfl | hbm
      · omega
      · have := hp.1 b hbm
        omega

lemma sortSubs_sorted : ∀ l : List Subscription,
    (sortSubs l).Pairwise (fun p q => q.priority ≤ p.priority) := by
  intro l
  induction l with
  | nil => simp [sortSubs]
  | cons a l ih => exact insertDesc_sorted a (sortSubs l) ih

lemma sortSubs_of_sorted : ∀ l : List Subscription,
    l.Pairwise (fun p q => q.priority ≤ p.priority) → sortSubs l = l := by
  intro l
  induction l with
  | nil => intro _; rfl
  | cons a l ih =>
    intro hp
    rw [List.pairwise_cons] at hp
    show insertDesc a (sortSubs l) = a :: l
    rw [ih hp.2]
    cases l with
    | nil => rfl
    | cons t m =>
      have : ¬ (t.priority > a.priority) := by
        have := hp.1 t (List.mem_cons_self _ _)
        omega
      simp [insertDesc, this]

lemma sortSubs_idem (l : List Subscription) : sortSubs (sortSubs l) = sortSubs l :=
  sortSubs_of_sorted (sortSubs l) (sortSubs_sorted l)

lemma sortSubs_sortSubs_append (l : List Subscription) (x : Subscription) :
    sortSubs (sortSubs l ++ [x]) = sortSubs (l ++ [x]) := by
  rw [sortSubs_append_one, sortSubs_append_one, sortSubs_idem]

end Bus

namespace Bus

lemma find_map_keykeep (t2 t : String) (v : List Subscription) (h : t2 ≠ t) :
    ∀ m : List (String × List Subscription),
      ((m.map (fun p => if p.1 == t2 then (t2, v) else p)).find? (fun p => p.1 == t)).map Prod.snd
        = (m.find? (fun p => p.1 == t)).map Prod.snd := by
  intro m
  induction m with
  | nil => rfl
  | cons kv m ih =>
    obtain ⟨k, w⟩ := kv
    by_cases hk2 : k = t2
    · subst hk2
      rw [List.map_cons, if_pos (by simp)]
      rw [List.find?_cons_of_neg _ (by simpa using h)]
      rw [List.find?_cons_of_neg _ (by simpa using h)]
      exact ih
    · by_cases hkt : k = t
      · subst hkt
        rw [List.map_cons, if_neg (by simpa using hk2)]
        rw [List.find?_cons_of_pos _ (by simp)]
        rw [List.find?_cons_of_pos _ (by simp)]
      · rw [List.map_cons, if_neg (by simpa using hk2)]
        rw [List.find?_cons_of_neg _ (by simpa using hkt)]
        rw [List.find?_cons_of_neg _ (by simpa using hkt)]
        exact ih

lemma find_map_self (t2 : String) (v : List Subscription) :
    ∀ m : List (String × List Subscription), m.any (fun p => p.1 == t2) = true →
      ((m.map (fun p => if p.1 == t2 then (t2, v) else p)).find? (fun p => p.1 == t2)).map Prod.snd
        = some v := by
  intro m
  induction m with
  | nil => intro h; simp at h
  | cons kv m ih =>
    intro h
    obtain ⟨k, w⟩ := kv
    by_cases hk : k = t2
    · subst hk
      rw [List.map_cons, if_pos (by simp)]
      rw [List.find?_cons_of_pos _ (by simp)]
      rfl
    · have hm : m.any (fun p => p.1 == t2) = true := by
        simp only [List.any_cons] at h
        rcases Bool.or_eq_true_iff.mp h with h1 | h2
        · exact absurd (by simpa using h1) hk
        · exact h2
      rw [List.map_cons, if_neg (by simpa using hk)]
      rw [List.find?_cons_of_neg _ (by simpa using hk)]
      exact ih hm

lemma find_setSubs :
    ∀ (m : List (String × List Subscription)) (t2 : String) (v : List Subscription) (t : String),
      ((setSubs m t2 v).find? (fun p => p.1 == t)).map Prod.snd
        = if t2 = t then some v
          else (m.find? (fun p => p.1 == t)).map Prod.snd := by
  intro m t2 v t
  by_cases hmem : m.any (fun p => p.1 == t2)
  · rw [show setSubs m t2 v = m.map (fun p => if p.1 == t2 then (t2, v) else p) from by
      simp [setSubs, hmem]]
    by_cases h : t2 = t
    · subst h
      rw [if_pos rfl]
      exact find_map_self t2 v m hmem
    · rw [if_neg h]
      exact find_map_keykeep t2 t v h m
  · rw [show setSubs m t2 v = m ++ [(t2, v)] from by simp [setSubs, hmem]]
    induction m with
    | nil =>
      by_cases h : t2 = t
      · subst h
        rw [if_pos rfl, List.nil_append, List.find?_cons_of_pos _ (by simp)]
        rfl
      · rw [if_neg h, List.nil_append, List.find?_cons_of_neg _ (by simpa using h)]
    | cons kv m ih =>
      obtain ⟨k, w⟩ := kv
      have hmem2 : ¬ m.any (fun p => p.1 == t2) = true := by
        intro hc
        exact hmem (by simp [List.any_cons, hc])
      have hk2 : ¬ (k = t2) := by
        intro hc
        exact hmem (by simp [List.any_cons, hc])
      by_cases hkt : k = t
      · subst hkt
        rw [List.cons_append]
        rw [List.find?_cons_of_pos _ (by simp)]
        rw [if_neg (fun hc => hk2 hc.symm)]
        rw [List.find?_cons_of_pos _ (by simp)]
      · rw [List.cons_append]
        rw [List.find?_cons_of_neg _ (by simpa using hkt)]
        rw [show ((if t2 = t then some v
            else ((((k, w) :: m).find? (fun p => p.1 == t)).map Prod.snd)))
          = (if t2 = t then some v else ((m.find? (fun p => p.1 == t)).map Prod.snd)) from by
            rw [List.find?_cons_of_neg _ (by simpa using hkt)]]
        exact ih hmem2

end Bus

namespace Bus

lemma subsFor_eq_getD (bus : EventBus) (t : String) :
    subsFor bus t = ((bus.subscriptions.find? (fun p => p.1 == t)).map Prod.snd).getD [] := by
  simp only [subsFor]
  cases bus.subscriptions.find? (fun p => p.1 == t) <;> rfl

lemma subsFor_addSub (bus : EventBus) (t2 : String) (s : Subscription) (t : String) :
    subsFor (addSub bus t2 s) t
      = if t2 = t then sortSubs (subsFor bus t2 ++ [s]) else subsFor bus t := by
  have h := find_setSubs bus.subscriptions t2 (sortSubs (subsFor bus t2 ++ [s])) t
  rw [subsFor_eq_getD]
  show (((setSubs bus.subscriptions t2 (sortSubs (subsFor bus t2 ++ [s]))).find?
      (fun p => p.1 == t)).map Prod.snd).getD [] = _
  rw [h]
  by_cases ht : t2 = t
  · rw [if_pos ht, if_pos ht]
    rfl
  · rw [if_neg ht, if_neg ht]
    rw [subsFor_eq_getD]

end Bus

namespace Bus

lemma applyOps_subsFor :
    ∀ (ops : List SubOp) (bus : EventBus) (sid0 : Nat) (t : String) (R : List Subscription),
      subsFor bus t = sortSubs R →
      subsFor (applyOps bus sid0 ops) t = sortSubs (R ++ regsFor t sid0 ops) := by
  intro ops
  induction ops with
  | nil =>
    intro bus sid0 t R h
    simpa [applyOps, regsFor] using h
  | cons op ops ih =>
    intro bus sid0 t R h
    cases op with
    | sub t2 cid p =>
      show subsFor (applyOps (subscribe bus t2 cid p sid0) (sid0 + 1) ops) t = _
      by_cases ht : t2 = t
      · subst ht
        have hstep : subsFor (subscribe bus t2 cid p sid0) t2
            = sortSubs (R ++ [{ sid := sid0, cid := cid, priority := p, once := false }]) := by
          rw [show subscribe bus t2 cid p sid0
              = addSub bus t2 { sid := sid0, cid := cid, priority := p, once := false } from rfl]
          rw [subsFor_addSub, if_pos rfl, h, sortSubs_sortSubs_append]
        rw [ih (subscribe bus t2 cid p sid0) (sid0 + 1) t2 _ hstep]
        rw [show regsFor t2 sid0 (SubOp.sub t2 cid p :: ops)
            = { sid := sid0, cid := cid, priority := p, once := false } :: regsFor t2 (sid0 + 1) ops from by
          simp [regsFor]]
        rw [List.append_assoc]
        rfl
      · have hstep : subsFor (subscribe bus t2 cid p sid0) t = sortSubs R := by
          rw [show subscribe bus t2 cid p sid0
              = addSub bus t2 { sid := sid0, cid := cid, priority := p, once := false } from rfl]
          rw [subsFor_addSub, if_neg ht, h]
        rw [ih (subscribe bus t2 cid p sid0) (sid0 + 1) t _ hstep]
        rw [show regsFor t sid0 (SubOp.sub t2 cid p :: ops) = regsFor t (sid0 + 1) ops from by
          simp [regsFor, ht]]
    | subOnce t2 cid p =>
      show subsFor (applyOps (subscribeOnce bus t2 cid p sid0) (sid0 + 1) ops) t = _
      by_cases ht : t2 = t
      · subst ht
        have hstep : subsFor (subscribeOnce bus t2 cid p sid0) t2
            = sortSubs (R ++ [{ sid := sid0, cid := cid, priority := p, once := true }]) := by
          rw [show subscribeOnce bus t2 cid p sid0
              = addSub bus t2 { sid := sid0, cid := cid, priority := p, once := true } from rfl]
          rw [subsFor_addSub, if_pos rfl, h, sortSubs_sortSubs_append]
        rw [ih (subscribeOnce bus t2 cid p sid0) (sid0 + 1) t2 _ hstep]
        rw [show regsFor t2 sid0 (SubOp.subOnce t2 cid p :: ops)
            = { sid := sid0, cid := cid, priority := p, once := true } :: regsFor t2 (sid0 + 1) ops from by
          simp [regsFor]]
        rw [List.append_assoc]
        rfl
      · have hstep : subsFor (subscribeOnce bus t2 cid p sid0) t = sortSubs R := by
          rw [show subscribeOnce bus t2 cid p sid0
              = addSub bus t2 { sid := sid0, cid := cid, priority := p, once := true } from rfl]
          rw [subsFor_addSub, if_neg ht, h]
        rw [ih (subscribeOnce bus t2 cid p sid0) (sid0 + 1) t _ hstep]
        rw [show regsFor t sid0 (SubOp.subOnce t2 cid p :: ops) = regsFor t (sid0 + 1) ops from by
          simp [regsFor, ht]]

lemma regsFor_sid_lb :
    ∀ (ops : List SubOp) (t : String) (sid0 : Nat) (s : Subscription),
      s ∈ regsFor t sid0 ops → sid0 ≤ s.sid := by
  intro ops
  induction ops with
  | nil => intro t sid0 s h; simp [regsFor] at h
  | cons op ops ih =>
    intro t sid0 s h
    cases op with
    | sub t2 cid p =>
      simp only [regsFor] at h
      rcases List.mem_append.mp h with h1 | h2
      · by_cases ht : t2 = t
        · rw [if_pos ht] at h1
          simp at h1
          simp [h1]
        · rw [if_neg ht] at h1
          simp at h1
      · have := ih t (sid0 + 1) s h2
        omega
    | subOnce t2 cid p =>
      simp only [regsFor] at h
      rcases List.mem_append.mp h with h1 | h2
      · by_cases ht : t2 = t
        · rw [if_pos ht] at h1
          simp at h1
          simp [h1]
        · rw [if_neg ht] at h1
          simp at h1
      · have := ih t (sid0 + 1) s h2
        omega

lemma regsFor_pairwise :
    ∀ (ops : List SubOp) (t : String) (sid0 : Nat),
      (regsFor t sid0 ops).Pairwise (fun p q => p.sid < q.sid) := by
  intro ops
  induction ops with
  | nil => intro t sid0; simp [regsFor]
  | cons op ops ih =>
    intro t sid0
    have hhead : ∀ (s0 : Subscription), s0.sid = sid0 →
        (s0 :: regsFor t (sid0 + 1) ops).Pairwise (fun p q => p.sid < q.sid) := by
      intro s0 hs0
      rw [List.pairwise_cons]
      refine ⟨?_, ih t (sid0 + 1)⟩
      intro b hb
      have := regsFor_sid_lb ops t (sid0 + 1) b hb
      omega
    cases op with
    | sub t2 cid p =>
      by_cases ht : t2 = t
      · rw [show regsFor t sid0 (SubOp.sub t2 cid p :: ops)
            = { sid := sid0, cid := cid, priority := p, once := false } :: regsFor t (sid0 + 1) ops from by
          simp [regsFor, ht]]
        exact hhead _ rfl
      · rw [show regsFor t sid0 (SubOp.sub t2 cid p :: ops) = regsFor t (sid0 + 1) ops from by
          simp [regsFor, ht]]
        exact ih t (sid0 + 1)
    | subOnce t2 cid p =>
      by_cases ht : t2 = t
      · rw [show regsFor t sid0 (SubOp.subOnce t2 cid p :: ops)
            = { sid := sid0, cid := cid, priority := p, once := true } :: regsFor t (sid0 + 1) ops from by
          simp [regsFor, ht]]
        exact hhead _ rfl
      · rw [show regsFor t sid0 (SubOp.subOnce t2 cid p :: ops) = regsFor t (sid0 + 1) ops from by
          simp [regsFor, ht]]
        exact ih t (sid0 + 1)

end Bus

namespace Bus

lemma run_nil (beh : Beh) : ∀ (fuel : Nat) (bus : EventBus) (tr : List (Nat × GameEvent)),
    run beh fuel [] bus tr = (bus, tr) := by
  intro fuel bus tr
  cases fuel <;> rfl

lemma run_invoke_inert (etype : String) (ev : GameEvent) :
    ∀ (snap : List Subscription) (fuel : Nat) (rest : List Task) (bus : EventBus)
      (tr : List (Nat × GameEvent)),
      run inertBeh (costSnap snap + fuel) (Task.invokeT etype ev snap :: rest) bus tr
        = run inertBeh fuel rest (removeOnces etype snap bus)
            (tr ++ snap.map (fun s => (s.cid, ev))) := by
  intro snap
  induction snap with
  | nil =>
    intro fuel rest bus tr
    rw [show costSnap [] + fuel = fuel + 1 from by simp [costSnap]; omega]
    simp [run, removeOnces]
  | cons s snap ih =>
    intro fuel rest bus tr
    by_cases ho : s.once = true
    · rw [show costSnap (s :: snap) + fuel = ((costSnap snap + fuel) + 1) + 1 from by
        simp [costSnap, ho]; omega]
      rw [show run inertBeh (((costSnap snap + fuel) + 1) + 1)
            (Task.invokeT etype ev (s :: snap) :: rest) bus tr
          = run inertBeh ((costSnap snap + fuel) + 1)
              (Task.removeT etype s.sid :: Task.invokeT etype ev snap :: rest) bus
              (tr ++ [(s.cid, ev)]) from by
        simp [run, inertBeh, ho]]
      rw [show run inertBeh ((costSnap snap + fuel) + 1)
            (Task.removeT etype s.sid :: Task.invokeT etype ev snap :: rest) bus
            (tr ++ [(s.cid, ev)])
          = run inertBeh (costSnap snap + fuel)
              (Task.invokeT etype ev snap :: rest) (removeSid bus etype s.sid)
              (tr ++ [(s.cid, ev)]) from by
        simp [run]]
      rw [ih fuel rest (removeSid bus etype s.sid) (tr ++ [(s.cid, ev)])]
      rw [show removeOnces etype (s :: snap) bus
          = removeOnces etype snap (removeSid bus etype s.sid) from by
        simp [removeOnces, ho]]
      rw [List.append_assoc]
      rfl
    · rw [show costSnap (s :: snap) + fuel = (costSnap snap + fuel) + 1 from by
        simp [costSnap, ho]; omega]
      rw [show run inertBeh ((costSnap snap + fuel) + 1)
            (Task.invokeT etype ev (s :: snap) :: rest) bus tr
          = run inertBeh (costSnap snap + fuel)
              (Task.invokeT etype ev snap :: rest) bus (tr ++ [(s.cid, ev)]) from by
        simp [run, inertBeh, ho]]
      rw [ih fuel rest bus (tr ++ [(s.cid, ev)])]
      rw [show removeOnces etype (s :: snap) bus = removeOnces etype snap bus from by
        simp [removeOnces, ho]]
      rw [List.append_assoc]
      rfl

lemma run_emit_inert (etype : String) (d : EventData) (src : Option String)
    (bus : EventBus) (fuel : Nat) :
    run inertBeh (costSnap (subsFor bus etype) + fuel + 1) [Task.emitT etype d src] bus []
      = (removeOnces etype (subsFor bus etype)
           (pushHistory bus { type := etype, data := d, timestamp := 0, source := src }),
         (subsFor bus etype).map
           (fun s => (s.cid, ({ type := etype, data := d, timestamp := 0, source := src } : GameEvent)))) := by
  have hpres : (pushHistory bus
      { type := etype, data := d, timestamp := 0, source := src }).subscriptions
      = bus.subscriptions := rfl
  rcases hfind : bus.subscriptions.find? (fun p => p.1 == etype) with _ | p
  · have hsnap : subsFor bus etype = [] := by simp [subsFor, hfind]
    rw [hsnap]
    simp only [run, hpres, hfind, List.map_nil]
    rw [run_nil]
    simp [removeOnces]
  · have hsnap : subsFor bus etype = p.2 := by simp [subsFor, hfind]
    rw [hsnap]
    by_cases hemp : p.2.isEmpty
    · have hnil : p.2 = [] := List.isEmpty_iff.mp hemp
      rw [hnil]
      simp only [run, hpres, hfind, hemp, if_true, List.map_nil]
      rw [run_nil]
      simp [removeOnces]
    · rw [show run inertBeh (costSnap p.2 + fuel + 1) [Task.emitT etype d src] bus []
          = run inertBeh (costSnap p.2 + fuel)
              [Task.invokeT etype ({ type := etype, data := d, timestamp := 0, source := src }) p.2]
              (pushHistory bus { type := etype, data := d, timestamp := 0, source := src }) []
          from by
        simp [run, hfind, hpres, hemp]]
      rw [run_invoke_inert]
      rw [run_nil]
      rfl

/-- C6: for every sequence of subscribe and once calls, the per-type
subscriber list is the stable descending-priority sort of the
registrations, so an emit invokes exactly the current subscribers of that
type, in strictly descending priority with registration order (increasing
sid) breaking ties. -/
theorem bus_dispatch_order (ops : List SubOp) (sid0 : Nat) (t : String)
    (d : EventData) (src : Option String) (fuel : Nat) :
    (run inertBeh (costSnap (subsFor (applyOps emptyBus sid0 ops) t) + fuel + 1)
        [Task.emitT t d src] (applyOps emptyBus sid0 ops) []).2
      = (subsFor (applyOps emptyBus sid0 ops) t).map
          (fun s => (s.cid, ({ type := t, data := d, timestamp := 0, source := src } : GameEvent)))
    ∧ (subsFor (applyOps emptyBus sid0 ops) t).Perm (regsFor t sid0 ops)
    ∧ (subsFor (applyOps emptyBus sid0 ops) t).Pairwise dispatchOrd := by
  have hinv : subsFor (applyOps emptyBus sid0 ops) t = sortSubs (regsFor t sid0 ops) := by
    have h0 : subsFor emptyBus t = sortSubs [] := rfl
    simpa using applyOps_subsFor ops emptyBus sid0 t [] h0
  refine ⟨?_, ?_, ?_⟩
  · rw [run_emit_inert]
  · rw [hinv]
    exact sortSubs_perm (regsFor t sid0 ops)
  · rw [hinv]
    exact sortSubs_pairwise (regsFor t sid0 ops) (regsFor_pairwise ops t sid0)

end Bus

/-! ## Entity store -/

namespace Store

lemma lookupA_map_keykeep {α : Type} (k : String) (v : α) (k2 : String) (h : k ≠ k2) :
    ∀ m : List (String × α),
      lookupA (m.map (fun p => if p.1 == k then (k, v) else p)) k2 = lookupA m k2 := by
  intro m
  simp only [lookupA]
  induction m with
  | nil => rfl
  | cons kv m ih =>
    obtain ⟨a, w⟩ := kv
    by_cases ha : a = k
    · subst ha
      rw [List.map_cons, if_pos (by simp)]
      rw [List.find?_cons_of_neg _ (by simpa using h)]
      rw [List.find?_cons_of_neg _ (by simpa using h)]
      exact ih
    · by_cases ha2 : a = k2
      · subst ha2
        rw [List.map_cons, if_neg (by simpa using ha)]
        rw [List.find?_cons_of_pos _ (by simp)]
        rw [List.find?_cons_of_pos _ (by simp)]
      · rw [List.map_cons, if_neg (by simpa using ha)]
        rw [List.find?_cons_of_neg _ (by simpa using ha2)]
        rw [List.find?_cons_of_neg _ (by simpa using ha2)]
        exact ih

lemma lookupA_map_self {α : Type} (k : String) (v : α) :
    ∀ m : List (String × α), m.any (fun p => p.1 == k) = true →
      lookupA (m.map (fun p => if p.1 == k then (k, v) else p)) k = some v := by
  intro m
  simp only [lookupA]
  induction m with
  | nil => intro h; simp at h
  | cons kv m ih =>
    intro h
    obtain ⟨a, w⟩ := kv
    by_cases ha : a = k
    · subst ha
      rw [List.map_cons, if_pos (by simp)]
      rw [List.find?_cons_of_pos _ (by simp)]
      rfl
    · have hm : m.any (fun p => p.1 == k) = true := by
        simp only [List.any_cons] at h
        rcases Bool.or_eq_true_iff.mp h with h1 | h2
        · exact absurd (by simpa using h1) ha
        · exact h2
      rw [List.map_cons, if_neg (by simpa using ha)]
      rw [List.find?_cons_of_neg _ (by simpa using ha)]
      exact ih hm

lemma lookupA_setA {α : Type} (m : List (String × α)) (k : String) (v : α) (k2 : String) :
    lookupA (setA m k v) k2 = if k = k2 then some v else lookupA m k2 := by
  by_cases hmem : m.any (fun p => p.1 == k)
  · rw [show setA m k v = m.map (fun p => if p.1 == k then (k, v) else p) from by
      simp [setA, hmem]]
    by_cases h : k = k2
    · subst h
      rw [if_pos rfl]
      exact lookupA_map_self k v m hmem
    · rw [if_neg h]
      exact lookupA_map_keykeep k v k2 h m
  · rw [show setA m k v = m ++ [(k, v)] from by simp [setA, hmem]]
    simp only [lookupA]
    induction m with
    | nil =>
      by_cases h : k = k2
      · subst h
        rw [if_pos rfl, List.nil_append]
        rw [List.find?_cons_of_pos _ (by simp)]
        rfl
      · rw [if_neg h, List.nil_append]
        rw [List.find?_cons_of_neg _ (by simpa using h)]
    | cons kv m ih =>
      obtain ⟨a, w⟩ := kv
      have hmem2 : ¬ m.any (fun p => p.1 == k) = true := by
        intro hc
        exact hmem (by simp [List.any_cons, hc])
      have ha : ¬ (a = k) := by
        intro hc
        exact hmem (by simp [List.any_cons, hc])
      by_cases ha2 : a = k2
      · subst ha2
        rw [List.cons_append]
        rw [List.find?_cons_of_pos _ (by simp)]
        rw [if_neg (fun hc => ha hc.symm)]
        rw [List.find?_cons_of_pos _ (by simp)]
      · rw [List.cons_append]
        rw [List.find?_cons_of_neg _ (by simpa using ha2)]
        rw [show (if k = k2 then some v
            else (Option.map Prod.snd (List.find? (fun p => p.1 == k2) ((a, w) :: m))))
          = (if k = k2 then some v
            else (Option.map Prod.snd (List.find? (fun p => p.1 == k2) m))) from by
            rw [List.find?_cons_of_neg _ (by simpa using ha2)]]
        exact ih hmem2

lemma lookupA_filter_ne {α : Type} (k : String) (k2 : String) :
    ∀ m : List (String × α),
      lookupA (m.filter (fun p => p.1 != k)) k2
        = if k = k2 then none else lookupA m k2 := by
  intro m
  simp only [lookupA]
  induction m with
  | nil => by_cases h : k = k2 <;> simp [h]
  | cons kv m ih =>
    obtain ⟨a, w⟩ := kv
    by_cases ha : a = k
    · subst ha
      rw [List.filter_cons_of_neg (by simp)]
      rw [ih]
      by_cases h : a = k2
      · rw [if_pos h, if_pos h]
      · rw [if_neg h, if_neg h]
        rw [List.find?_cons_of_neg _ (by simpa using h)]
    · rw [List.filter_cons_of_pos (by simpa using ha)]
      by_cases h2 : a = k2
      · subst h2
        rw [List.find?_cons_of_pos _ (by simp), List.find?_cons_of_pos _ (by simp)]
        rw [if_neg (fun hc => ha hc.symm)]
      · rw [List.find?_cons_of_neg _ (by simpa using h2)]
        rw [show (if k = k2 then none
            else (Option.map Prod.snd (List.find? (fun p => p.1 == k2) ((a, w) :: m))))
          = (if k = k2 then none
            else (Option.map Prod.snd (List.find? (fun p => p.1 == k2) m))) from by
            rw [List.find?_cons_of_neg _ (by simpa using h2)]]
        exact ih

end Store

namespace Store

lemma idxGet_idxAdd (m : List (String × List String)) (k v k2 : String) :
    idxGet (idxAdd m k v) k2
      = if k = k2 then (if v ∈ idxGet m k then idxGet m k else idxGet m k ++ [v])
        else idxGet m k2 := by
  simp only [idxAdd, idxGet]
  rw [lookupA_setA]
  by_cases h : k = k2
  · rw [if_pos h, if_pos h]
    rfl
  · rw [if_neg h, if_neg h]

lemma mem_idxAdd (m : List (String × List String)) (k v k2 a : String) :
    a ∈ idxGet (idxAdd m k v) k2 ↔ a ∈ idxGet m k2 ∨ (k = k2 ∧ a = v) := by
  rw [idxGet_idxAdd]
  by_cases h : k = k2
  · subst h
    rw [if_pos rfl]
    by_cases hv : v ∈ idxGet m k
    · rw [if_pos hv]
      constructor
      · intro ha; exact Or.inl ha
      · rintro (ha | ⟨-, rfl⟩)
        · exact ha
        · exact hv
    · rw [if_neg hv]
      simp only [List.mem_append, List.mem_singleton]
      constructor
      · rintro (ha | rfl)
        · exact Or.inl ha
        · exact Or.inr (by simp)
      · rintro (ha | ⟨-, rfl⟩)
        · exact Or.inl ha
        · exact Or.inr rfl
  · rw [if_neg h]
    constructor
    · intro ha; exact Or.inl ha
    · rintro (ha | ⟨hk, -⟩)
      · exact ha
      · exact absurd hk h

lemma idxGet_idxDel (m : List (String × List String)) (k v k2 : String) :
    idxGet (idxDel m k v) k2
      = if k = k2 then (idxGet m k2).filter (fun x => x != v) else idxGet m k2 := by
  simp only [idxDel, idxGet]
  induction m with
  | nil => by_cases h : k = k2 <;> simp [lookupA, h]
  | cons kv m ih =>
    obtain ⟨a, w⟩ := kv
    by_cases ha : a = k
    · subst ha
      by_cases h2 : a = k2
      · subst h2
        simp [lookupA]
      · simp only [List.map_cons, lookupA] at ih ⊢
        rw [if_pos (by simp)]
        rw [List.find?_cons_of_neg _ (by simpa using h2)]
        rw [List.find?_cons_of_neg _ (by simpa using h2)]
        exact ih
    · by_cases h2 : a = k2
      · subst h2
        simp only [List.map_cons, lookupA]
        rw [if_neg (by simpa using ha)]
        rw [List.find?_cons_of_pos _ (by simp)]
        rw [show (if k = a then
              ((Option.map Prod.snd (List.find? (fun p => p.1 == a) ((a, w) :: m))).getD []).filter
                (fun x => x != v)
            else ((Option.map Prod.snd (List.find? (fun p => p.1 == a) ((a, w) :: m))).getD []))
          = (if k = a then (w.filter (fun x => x != v)) else w) from by
            rw [List.find?_cons_of_pos _ (by simp)]
            rfl]
        rw [if_neg (fun hc => ha hc.symm)]
        rfl
      · simp only [List.map_cons, lookupA] at ih ⊢
        rw [if_neg (by simpa using ha)]
        rw [List.find?_cons_of_neg _ (by simpa using h2)]
        rw [show (if k = k2 then
              ((Option.map Prod.snd (List.find? (fun p => p.1 == k2) ((a, w) :: m))).getD []).filter
                (fun x => x != v)
            else ((Option.map Prod.snd (List.find? (fun p => p.1 == k2) ((a, w) :: m))).getD []))
          = (if k = k2 then
              ((Option.map Prod.snd (List.find? (fun p => p.1 == k2) m)).getD []).filter
                (fun x => x != v)
            else ((Option.map Prod.snd (List.find? (fun p => p.1 == k2) m)).getD [])) from by
            rw [List.find?_cons_of_neg _ (by simpa using h2)]]
        exact ih

lemma mem_idxDel (m : List (String × List String)) (k v k2 a : String) :
    a ∈ idxGet (idxDel m k v) k2 ↔ a ∈ idxGet m k2 ∧ ¬ (k = k2 ∧ a = v) := by
  rw [idxGet_idxDel]
  by_cases h : k = k2
  · subst h
    rw [if_pos rfl]
    simp only [List.mem_filter, bne_iff_ne, ne_eq]
    constructor
    · rintro ⟨ha, hne⟩
      exact ⟨ha, fun hc => hne (by simp [hc.2])⟩
    · rintro ⟨ha, hne⟩
      refine ⟨ha, ?_⟩
      intro hc
      exact hne ⟨trivial, hc⟩
  · rw [if_neg h]
    constructor
    · intro ha
      exact ⟨ha, fun hc => h hc.1⟩
    · rintro ⟨ha, -⟩
      exact ha

end Store

namespace Store

lemma mem_foldAdd (v : String) :
    ∀ (names : List String) (m : List (String × List String)) (k2 a : String),
      a ∈ idxGet (names.foldl (fun m n => idxAdd m n v) m) k2
        ↔ a ∈ idxGet m k2 ∨ (k2 ∈ names ∧ a = v) := by
  intro names
  induction names with
  | nil => intro m k2 a; simp
  | cons n names ih =>
    intro m k2 a
    rw [List.foldl_cons, ih, mem_idxAdd]
    constructor
    · rintro ((ha | ⟨rfl, rfl⟩) | ⟨hn, rfl⟩)
      · exact Or.inl ha
      · exact Or.inr ⟨List.mem_cons_self _ _, rfl⟩
      · exact Or.inr ⟨List.mem_cons_of_mem _ hn, rfl⟩
    · rintro (ha | ⟨hn, rfl⟩)
      · exact Or.inl (Or.inl ha)
      · rcases List.mem_cons.mp hn with rfl | hn2
        · exact Or.inl (Or.inr ⟨rfl, rfl⟩)
        · exact Or.inr ⟨hn2, rfl⟩

lemma mem_foldDel (v : String) :
    ∀ (names : List String) (m : List (String × List String)) (k2 a : String),
      a ∈ idxGet (names.foldl (fun m n => idxDel m n v) m) k2
        ↔ a ∈ idxGet m k2 ∧ ¬ (k2 ∈ names ∧ a = v) := by
  intro names
  induction names with
  | nil => intro m k2 a; simp
  | cons n names ih =>
    intro m k2 a
    rw [List.foldl_cons, ih, mem_idxDel]
    constructor
    · rintro ⟨⟨ha, h1⟩, h2⟩
      refine ⟨ha, ?_⟩
      rintro ⟨hn, rfl⟩
      rcases List.mem_cons.mp hn with rfl | hn2
      · exact h1 ⟨rfl, rfl⟩
      · exact h2 ⟨hn2, rfl⟩
    · rintro ⟨ha, h⟩
      refine ⟨⟨ha, ?_⟩, ?_⟩
      · rintro ⟨rfl, rfl⟩
        exact h ⟨List.mem_cons_self _ _, rfl⟩
      · rintro ⟨hn2, rfl⟩
        exact h ⟨List.mem_cons_of_mem _ hn2, rfl⟩

lemma mem_componentNames (e : Entity) (n : String) :
    n ∈ componentNames e ↔ (lookupA e.components n).isSome := by
  have hIso : ∀ (o : Option (String × Component)), (o.map Prod.snd).isSome = o.isSome := by
    intro o; cases o <;> rfl
  simp only [componentNames, lookupA, List.mem_map, hIso]
  rw [List.find?_isSome]
  constructor
  · rintro ⟨p, hp, rfl⟩
    exact ⟨p, hp, by simp⟩
  · rintro ⟨p, hp, hn⟩
    exact ⟨p, hp, (by simpa using hn)⟩

lemma updateIndices_fields (em : EM) (e : Entity) :
    (updateIndices em e).byType = idxAdd em.byType e.type e.id
    ∧ (updateIndices em e).byRealm
      = (match posField e "realm" with
         | some r => idxAdd em.byRealm r e.id
         | none => em.byRealm)
    ∧ (updateIndices em e).byCity
      = (match posField e "city" with
         | some c => idxAdd em.byCity c e.id
         | none => em.byCity)
    ∧ (updateIndices em e).byComponent
      = (componentNames e).foldl (fun m n => idxAdd m n e.id) em.byComponent
    ∧ (updateIndices em e).entities = em.entities := by
  cases hr : posField e "realm" <;> cases hc : posField e "city" <;>
    simp [updateIndices, hr, hc]

lemma removeFromIndices_fields (em : EM) (e : Entity) :
    (removeFromIndices em e).byType = idxDel em.byType e.type e.id
    ∧ (removeFromIndices em e).byRealm
      = (match posField e "realm" with
         | some r => idxDel em.byRealm r e.id
         | none => em.byRealm)
    ∧ (removeFromIndices em e).byCity
      = (match posField e "city" with
         | some c => idxDel em.byCity c e.id
         | none => em.byCity)
    ∧ (removeFromIndices em e).byComponent
      = (componentNames e).foldl (fun m n => idxDel m n e.id) em.byComponent
    ∧ (removeFromIndices em e).entities = em.entities := by
  cases hr : posField e "realm" <;> cases hc : posField e "city" <;>
    simp [removeFromIndices, hr, hc]

end Store

namespace Store

/-- Adding a fresh entity keeps an attribute index consistent. -/
lemma attr_inv_add (idx : List (String × List String)) (ents : List (String × Entity))
    (attr : Entity → Option String) (e : Entity)
    (hInv : ∀ k a, a ∈ idxGet idx k ↔ ∃ e2, lookupA ents a = some e2 ∧ attr e2 = some k)
    (hfresh : lookupA ents e.id = none) :
    ∀ k a, a ∈ idxGet (match attr e with | some r => idxAdd idx r e.id | none => idx) k
      ↔ ∃ e2, lookupA (setA ents e.id e) a = some e2 ∧ attr e2 = some k := by
  intro k a
  have hset := lookupA_setA ents e.id e a
  by_cases hid : e.id = a
  · subst hid
    rw [if_pos rfl] at hset
    have hleft : ¬ (e.id ∈ idxGet idx k) := by
      intro hc
      obtain ⟨e2, he2, -⟩ := (hInv k e.id).mp hc
      rw [hfresh] at he2
      cases he2
    cases hattr : attr e with
    | none =>
      simp only [hattr]
      constructor
      · intro hc; exact absurd hc hleft
      · rintro ⟨e2, he2, ha2⟩
        rw [hset] at he2
        cases he2
        rw [hattr] at ha2
        cases ha2
    | some r =>
      simp only [hattr]
      rw [mem_idxAdd]
      constructor
      · rintro (hc | ⟨rfl, -⟩)
        · exact absurd hc hleft
        · exact ⟨e, hset, hattr⟩
      · rintro ⟨e2, he2, ha2⟩
        rw [hset] at he2
        cases he2
        rw [hattr] at ha2
        cases ha2
        exact Or.inr ⟨rfl, rfl⟩
  · rw [if_neg hid] at hset
    have hstep : (∃ e2, lookupA (setA ents e.id e) a = some e2 ∧ attr e2 = some k)
        ↔ ∃ e2, lookupA ents a = some e2 ∧ attr e2 = some k := by
      rw [hset]
    cases hattr : attr e with
    | none =>
      simp only [hattr]
      rw [hstep]
      exact hInv k a
    | some r =>
      simp only [hattr]
      rw [mem_idxAdd, hstep]
      constructor
      · rintro (hc | ⟨-, rfl⟩)
        · exact (hInv k a).mp hc
        · exact absurd rfl hid
      · intro hc
        exact Or.inl ((hInv k a).mpr hc)

/-- Removing the stored entity keeps an attribute index consistent. -/
lemma attr_inv_del (idx : List (String × List String)) (ents : List (String × Entity))
    (attr : Entity → Option String) (e : Entity) (id : String)
    (hInv : ∀ k a, a ∈ idxGet idx k ↔ ∃ e2, lookupA ents a = some e2 ∧ attr e2 = some k)
    (hstored : lookupA ents id = some e) (hid : e.id = id) :
    ∀ k a, a ∈ idxGet (match attr e with | some r => idxDel idx r e.id | none => idx) k
      ↔ ∃ e2, lookupA (ents.filter (fun p => p.1 != id)) a = some e2 ∧ attr e2 = some k := by
  intro k a
  have hfil := lookupA_filter_ne id a ents
  by_cases ha : id = a
  · subst ha
    rw [if_pos rfl] at hfil
    have hright : ¬ (∃ e2, lookupA (ents.filter (fun p => p.1 != id)) id = some e2
        ∧ attr e2 = some k) := by
      rintro ⟨e2, he2, -⟩
      rw [hfil] at he2
      cases he2
    have hmem : id ∈ idxGet idx k ↔ attr e = some k := by
      rw [hInv k id]
      constructor
      · rintro ⟨e2, he2, ha2⟩
        rw [hstored] at he2
        cases he2
        exact ha2
      · intro hc
        exact ⟨e, hstored, hc⟩
    cases hattr : attr e with
    | none =>
      simp only [hattr]
      constructor
      · intro hc
        rw [hmem, hattr] at hc
        cases hc
      · intro hc; exact absurd hc hright
    | some r =>
      simp only [hattr]
      rw [hid, mem_idxDel]
      constructor
      · rintro ⟨hc, hne⟩
        rw [hmem, hattr] at hc
        cases hc
        exact absurd ⟨rfl, rfl⟩ hne
      · intro hc; exact absurd hc hright
  · rw [if_neg ha] at hfil
    have hstep : (∃ e2, lookupA (ents.filter (fun p => p.1 != id)) a = some e2
        ∧ attr e2 = some k) ↔ ∃ e2, lookupA ents a = some e2 ∧ attr e2 = some k := by
      rw [hfil]
    cases hattr : attr e with
    | none =>
      simp only [hattr]
      rw [hstep]
      exact hInv k a
    | some r =>
      simp only [hattr]
      rw [hid, mem_idxDel, hstep]
      constructor
      · rintro ⟨hc, -⟩
        exact (hInv k a).mp hc
      · intro hc
        exact ⟨(hInv k a).mpr hc, fun hcon => ha hcon.2.symm⟩

end Store

namespace Store

/-- Adding a fresh entity keeps the component-name index consistent. -/
lemma comp_inv_add (idx : List (String × List String)) (ents : List (String × Entity))
    (e : Entity)
    (hInv : ∀ k a, a ∈ idxGet idx k ↔ ∃ e2, lookupA ents a = some e2 ∧ k ∈ componentNames e2)
    (hfresh : lookupA ents e.id = none) :
    ∀ k a, a ∈ idxGet ((componentNames e).foldl (fun m n => idxAdd m n e.id) idx) k
      ↔ ∃ e2, lookupA (setA ents e.id e) a = some e2 ∧ k ∈ componentNames e2 := by
  intro k a
  rw [mem_foldAdd]
  have hset := lookupA_setA ents e.id e a
  by_cases hid : e.id = a
  · subst hid
    rw [if_pos rfl] at hset
    have hleft : ¬ (e.id ∈ idxGet idx k) := by
      intro hc
      obtain ⟨e2, he2, -⟩ := (hInv k e.id).mp hc
      rw [hfresh] at he2
      cases he2
    constructor
    · rintro (hc | ⟨hn, -⟩)
      · exact absurd hc hleft
      · exact ⟨e, hset, hn⟩
    · rintro ⟨e2, he2, hn⟩
      rw [hset] at he2
      cases he2
      exact Or.inr ⟨hn, rfl⟩
  · rw [if_neg hid] at hset
    have hstep : (∃ e2, lookupA (setA ents e.id e) a = some e2 ∧ k ∈ componentNames e2)
        ↔ ∃ e2, lookupA ents a = some e2 ∧ k ∈ componentNames e2 := by
      rw [hset]
    rw [hstep]
    constructor
    · rintro (hc | ⟨-, rfl⟩)
      · exact (hInv k a).mp hc
      · exact absurd rfl hid
    · intro hc
      exact Or.inl ((hInv k a).mpr hc)

/-- Removing the stored entity keeps the component-name index consistent. -/
lemma comp_inv_del (idx : List (String × List String)) (ents : List (String × Entity))
    (e : Entity) (id : String)
    (hInv : ∀ k a, a ∈ idxGet idx k ↔ ∃ e2, lookupA ents a = some e2 ∧ k ∈ componentNames e2)
    (hstored : lookupA ents id = some e) (hid : e.id = id) :
    ∀ k a, a ∈ idxGet ((componentNames e).foldl (fun m n => idxDel m n e.id) idx) k
      ↔ ∃ e2, lookupA (ents.filter (fun p => p.1 != id)) a = some e2
        ∧ k ∈ componentNames e2 := by
  intro k a
  rw [mem_foldDel]
  have hfil := lookupA_filter_ne id a ents
  by_cases ha : id = a
  · subst ha
    rw [if_pos rfl] at hfil
    have hmem : id ∈ idxGet idx k ↔ k ∈ componentNames e := by
      rw [hInv k id]
      constructor
      · rintro ⟨e2, he2, hn⟩
        rw [hstored] at he2
        cases he2
        exact hn
      · intro hc
        exact ⟨e, hstored, hc⟩
    constructor
    · rintro ⟨hc, hne⟩
      exact absurd ⟨hmem.mp hc, hid.symm⟩ hne
    · rintro ⟨e2, he2, -⟩
      rw [hfil] at he2
      cases he2
  · rw [if_neg ha] at hfil
    have hstep : (∃ e2, lookupA (ents.filter (fun p => p.1 != id)) a = some e2
        ∧ k ∈ componentNames e2) ↔ ∃ e2, lookupA ents a = some e2 ∧ k ∈ componentNames e2 := by
      rw [hfil]
    rw [hstep]
    constructor
    · rintro ⟨hc, -⟩
      exact (hInv k a).mp hc
    · intro hc
      refine ⟨(hInv k a).mpr hc, ?_⟩
      rintro ⟨-, rfl⟩
      exact ha hid.symm

/-- An index invariant depends on the entity map only through lookupA. -/
lemma inv_ext (idx : List (String × List String)) (m1 m2 : List (String × Entity))
    (P : Entity → String → Prop)
    (hext : ∀ a, lookupA m1 a = lookupA m2 a)
    (h : ∀ k a, a ∈ idxGet idx k ↔ ∃ e, lookupA m1 a = some e ∧ P e k) :
    ∀ k a, a ∈ idxGet idx k ↔ ∃ e, lookupA m2 a = some e ∧ P e k := by
  intro k a
  rw [← hext a]
  exact h k a

/-- Overwriting a key in place and filter-then-append agree under lookupA. -/
lemma lookupA_setA_filter {α : Type} (ents : List (String × α)) (id : String) (v : α)
    (a : String) :
    lookupA (setA (ents.filter (fun p => p.1 != id)) id v) a = lookupA (setA ents id v) a := by
  rw [lookupA_setA, lookupA_setA]
  by_cases h : id = a
  · rw [if_pos h, if_pos h]
  · rw [if_neg h, if_neg h, lookupA_filter_ne, if_neg h]

end Store

namespace Store

/-- EntityManager.add preserves the invariant when the id is fresh. -/
lemma add_preserves (em : EM) (e : Entity)
    (hc : consistent em) (hk : keyed em)
    (hfresh : lookupA em.entities e.id = none) :
    consistent (add em e) ∧ keyed (add em e) := by
  obtain ⟨h1, h2, h3, h4⟩ := hc
  obtain ⟨hT, hR, hC, hN, hE⟩ :=
    updateIndices_fields { em with entities := setA em.entities e.id e } e
  constructor
  · refine ⟨?_, ?_, ?_, ?_⟩
    · intro t a
      rw [show (add em e).byType = idxAdd em.byType e.type e.id from hT]
      rw [show (add em e).entities = setA em.entities e.id e from hE]
      have := attr_inv_add em.byType em.entities (fun e2 => some e2.type) e
        (fun k a2 => by simpa using h1 k a2) hfresh t a
      simpa using this
    · intro r a
      rw [show (add em e).byRealm = (match posField e "realm" with
          | some r2 => idxAdd em.byRealm r2 e.id
          | none => em.byRealm) from hR]
      rw [show (add em e).entities = setA em.entities e.id e from hE]
      exact attr_inv_add em.byRealm em.entities (fun e2 => posField e2 "realm") e h2 hfresh r a
    · intro c a
      rw [show (add em e).byCity = (match posField e "city" with
          | some c2 => idxAdd em.byCity c2 e.id
          | none => em.byCity) from hC]
      rw [show (add em e).entities = setA em.entities e.id e from hE]
      exact attr_inv_add em.byCity em.entities (fun e2 => posField e2 "city") e h3 hfresh c a
    · intro n a
      rw [show (add em e).byComponent
          = (componentNames e).foldl (fun m n2 => idxAdd m n2 e.id) em.byComponent from hN]
      rw [show (add em e).entities = setA em.entities e.id e from hE]
      exact comp_inv_add em.byComponent em.entities e h4 hfresh n a
  · intro k e3 hlook
    rw [show (add em e).entities = setA em.entities e.id e from hE, lookupA_setA] at hlook
    by_cases hke : e.id = k
    · rw [if_pos hke] at hlook
      cases hlook
      exact hke
    · rw [if_neg hke] at hlook
      exact hk k e3 hlook

/-- EntityManager.remove preserves the invariant unconditionally. -/
lemma remove_preserves (em : EM) (id : String)
    (hc : consistent em) (hk : keyed em) :
    consistent (remove em id).1 ∧ keyed (remove em id).1 := by
  obtain ⟨h1, h2, h3, h4⟩ := hc
  cases hlook : lookupA em.entities id with
  | none =>
    rw [show (remove em id).1 = em from by simp [remove, hlook]]
    exact ⟨⟨h1, h2, h3, h4⟩, hk⟩
  | some e =>
    have hid : e.id = id := hk id e hlook
    obtain ⟨hT, hR, hC, hN, hE⟩ := removeFromIndices_fields em e
    have hbT : (remove em id).1.byType = idxDel em.byType e.type e.id := by
      simp [remove, hlook, hT]
    have hbR : (remove em id).1.byRealm = (match posField e "realm" with
        | some r2 => idxDel em.byRealm r2 e.id
        | none => em.byRealm) := by
      simp only [remove, hlook]
      exact hR
    have hbC : (remove em id).1.byCity = (match posField e "city" with
        | some c2 => idxDel em.byCity c2 e.id
        | none => em.byCity) := by
      simp only [remove, hlook]
      exact hC
    have hbN : (remove em id).1.byComponent
        = (componentNames e).foldl (fun m n2 => idxDel m n2 e.id) em.byComponent := by
      simp [remove, hlook, hN]
    have hbE : (remove em id).1.entities = em.entities.filter (fun p => p.1 != id) := by
      simp [remove, hlook, hE]
    constructor
    · refine ⟨?_, ?_, ?_, ?_⟩
      · intro t a
        rw [hbT, hbE]
        have := attr_inv_del em.byType em.entities (fun e2 => some e2.type) e id
          (fun k a2 => by simpa using h1 k a2) hlook hid t a
        simpa using this
      · intro r a
        rw [hbR, hbE]
        exact attr_inv_del em.byRealm em.entities (fun e2 => posField e2 "realm") e id
          h2 hlook hid r a
      · intro c a
        rw [hbC, hbE]
        exact attr_inv_del em.byCity em.entities (fun e2 => posField e2 "city") e id
          h3 hlook hid c a
      · intro n a
        rw [hbN, hbE]
        exact comp_inv_del em.byComponent em.entities e id h4 hlook hid n a
    · intro k e3 hlook3
      rw [hbE, lookupA_filter_ne] at hlook3
      by_cases hke : id = k
      · rw [if_pos hke] at hlook3
        cases hlook3
      · rw [if_neg hke] at hlook3
        exact hk k e3 hlook3

end Store

namespace Store

/-- EntityManager.update preserves the invariant when the update leaves the
id field alone. -/
lemma update_preserves (em : EM) (id : String) (u : EntityUpdates)
    (hc : consistent em) (hk : keyed em) (hu : u.newId = none) :
    consistent (update em id u).1 ∧ keyed (update em id u).1 := by
  obtain ⟨h1, h2, h3, h4⟩ := hc
  cases hlook : lookupA em.entities id with
  | none =>
    rw [show (update em id u).1 = em from by simp [update, hlook]]
    exact ⟨⟨h1, h2, h3, h4⟩, hk⟩
  | some e =>
    have hid : e.id = id := hk id e hlook
    obtain ⟨uid, utype, ucomps⟩ := u
    have hu2 : uid = none := hu
    subst hu2
    obtain ⟨hT, hR, hC, hN, hE⟩ := removeFromIndices_fields em e
    obtain ⟨hT2, hR2, hC2, hN2, hE2⟩ := updateIndices_fields
      { removeFromIndices em e with
        entities := setA em.entities id ⟨e.id, utype.getD e.type, ucomps.getD e.components⟩ }
      ⟨e.id, utype.getD e.type, ucomps.getD e.components⟩
    have hmain : (update em id ⟨none, utype, ucomps⟩).1
        = updateIndices
            { removeFromIndices em e with
              entities := setA em.entities id
                ⟨e.id, utype.getD e.type, ucomps.getD e.components⟩ }
            ⟨e.id, utype.getD e.type, ucomps.getD e.components⟩ := by
      simp [update, hlook, hE]
    have hfr2 : lookupA (em.entities.filter (fun p => p.1 != id))
        (⟨e.id, utype.getD e.type, ucomps.getD e.components⟩ : Entity).id = none := by
      rw [show (⟨e.id, utype.getD e.type, ucomps.getD e.components⟩ : Entity).id = id from hid]
      rw [lookupA_filter_ne, if_pos rfl]
    have hext : ∀ a2, lookupA (setA (em.entities.filter (fun p => p.1 != id))
          (⟨e.id, utype.getD e.type, ucomps.getD e.components⟩ : Entity).id
          ⟨e.id, utype.getD e.type, ucomps.getD e.components⟩) a2
        = lookupA (setA em.entities id
          ⟨e.id, utype.getD e.type, ucomps.getD e.components⟩) a2 := by
      intro a2
      rw [show (⟨e.id, utype.getD e.type, ucomps.getD e.components⟩ : Entity).id = id from hid]
      exact lookupA_setA_filter em.entities id _ a2
    constructor
    · refine ⟨?_, ?_, ?_, ?_⟩
      · intro t a
        rw [hmain, hT2, hE2]
        dsimp only
        have s1 := attr_inv_del em.byType em.entities (fun e3 => some e3.type) e id
          (fun k a2 => by simpa using h1 k a2) hlook hid
        have s2 := attr_inv_add _ _ (fun e3 => some e3.type)
          ⟨e.id, utype.getD e.type, ucomps.getD e.components⟩ s1 hfr2
        have s3 := inv_ext _ _ (setA em.entities id
            ⟨e.id, utype.getD e.type, ucomps.getD e.components⟩)
          (fun e3 k => some e3.type = some k) hext s2
        rw [show (removeFromIndices em e).byType = idxDel em.byType e.type e.id from hT]
        simpa using s3 t a
      · intro r a
        rw [hmain, hR2, hE2]
        dsimp only
        simp only [hR]
        have s1 := attr_inv_del em.byRealm em.entities (fun e3 => posField e3 "realm") e id
          h2 hlook hid
        have s2 := attr_inv_add _ _ (fun e3 => posField e3 "realm")
          ⟨e.id, utype.getD e.type, ucomps.getD e.components⟩ s1 hfr2
        have s3 := inv_ext _ _ (setA em.entities id
            ⟨e.id, utype.getD e.type, ucomps.getD e.components⟩)
          (fun e3 k => posField e3 "realm" = some k) hext s2
        exact s3 r a
      · intro c a
        rw [hmain, hC2, hE2]
        dsimp only
        simp only [hC]
        have s1 := attr_inv_del em.byCity em.entities (fun e3 => posField e3 "city") e id
          h3 hlook hid
        have s2 := attr_inv_add _ _ (fun e3 => posField e3 "city")
          ⟨e.id, utype.getD e.type, ucomps.getD e.components⟩ s1 hfr2
        have s3 := inv_ext _ _ (setA em.entities id
            ⟨e.id, utype.getD e.type, ucomps.getD e.components⟩)
          (fun e3 k => posField e3 "city" = some k) hext s2
        exact s3 c a
      · intro n a
        rw [hmain, hN2, hE2]
        dsimp only
        have s1 := comp_inv_del em.byComponent em.entities e id h4 hlook hid
        have s2 := comp_inv_add _ _
          ⟨e.id, utype.getD e.type, ucomps.getD e.components⟩ s1 hfr2
        have s3 := inv_ext _ _ (setA em.entities id
            ⟨e.id, utype.getD e.type, ucomps.getD e.components⟩)
          (fun e3 k => k ∈ componentNames e3) hext s2
        rw [show (removeFromIndices em e).byComponent
            = (componentNames e).foldl (fun m n2 => idxDel m n2 e.id) em.byComponent from hN]
        exact s3 n a
    · intro k e3 hlk
      rw [hmain, hE2] at hlk
      dsimp only at hlk
      rw [lookupA_setA] at hlk
      by_cases hke : id = k
      · rw [if_pos hke] at hlk
        cases hlk
        exact hid.trans hke
      · rw [if_neg hke] at hlk
        exact hk k e3 hlk

end Store

namespace Store

lemma consistent_empty : consistent emptyEM := by
  refine ⟨?_, ?_, ?_, ?_⟩ <;> intro k a <;>
    simp [emptyEM, idxGet, lookupA]

lemma keyed_empty : keyed emptyEM := by
  intro k e h
  simp [emptyEM, lookupA] at h

/-- Benign operation sequences preserve the full invariant. -/
lemma applyStoreOps_inv : ∀ (ops : List StoreOp) (em : EM),
    consistent em → keyed em → wfOps em ops = true →
    consistent (applyStoreOps em ops) ∧ keyed (applyStoreOps em ops) := by
  intro ops
  induction ops with
  | nil => intro em hc hk _; exact ⟨hc, hk⟩
  | cons op ops ih =>
    intro em hc hk hwf
    rw [wfOps] at hwf
    obtain ⟨hop, hops⟩ := (Bool.and_eq_true _ _).mp hwf
    have hstep : consistent (applyStoreOp em op) ∧ keyed (applyStoreOp em op) := by
      cases op with
      | add e => exact add_preserves em e hc hk (Option.isNone_iff_eq_none.mp hop)
      | update id u => exact update_preserves em id u hc hk (Option.isNone_iff_eq_none.mp hop)
      | remove id => exact remove_preserves em id hc hk
    exact ih (applyStoreOp em op) hstep.1 hstep.2 hops

end Store

namespace Store

/-- C3 counterexample: the claim fails as stated on an add whose id is
already present.  EntityManager.add overwrites the stored entity without
removing the old entity from the indices, so after adding id "a" with type
"npc" and then adding id "a" again with type "item", the byType index still
lists "a" under "npc" while the stored entity has type "item". -/
theorem store_dup_add_breaks_consistency :
    ¬ consistent (applyStoreOps emptyEM
      [StoreOp.add ⟨"a", "npc", []⟩, StoreOp.add ⟨"a", "item", []⟩]) := by
  intro h
  have hmem : "a" ∈ idxGet (applyStoreOps emptyEM
      [StoreOp.add ⟨"a", "npc", []⟩, StoreOp.add ⟨"a", "item", []⟩]).byType "npc" := by
    decide
  obtain ⟨e, he, ht⟩ := (h.1 "npc" "a").mp hmem
  have hval : lookupA (applyStoreOps emptyEM
      [StoreOp.add ⟨"a", "npc", []⟩, StoreOp.add ⟨"a", "item", []⟩]).entities "a"
      = some ⟨"a", "item", []⟩ := by decide
  rw [hval] at he
  injection he with he2
  subst he2
  exact absurd ht (by decide)

/-- C3 (amended): after any sequence of add, update and remove operations in
which every add uses an id not currently stored and no update rewrites the
id field, every secondary index (by type, by realm, by city, by component
name) contains an id exactly when the currently stored entity under that id
has the indexed type, truthy position field, or component; in particular an
entity inserted then removed is referenced by no index. -/
theorem store_index_consistency (ops : List StoreOp)
    (h : wfOps emptyEM ops = true) :
    consistent (applyStoreOps emptyEM ops) :=
  (applyStoreOps_inv ops emptyEM consistent_empty keyed_empty h).1

theorem store_index_consistency_witness :
    wfOps emptyEM
      [StoreOp.add ⟨"a", "npc", [("position", [("realm", "r1"), ("city", "c1")])]⟩,
       StoreOp.add ⟨"b", "item", [("durability", [("value", "3")])]⟩,
       StoreOp.update "a" ⟨none, some "monster", none⟩,
       StoreOp.remove "b"] = true
    ∧ consistent (applyStoreOps emptyEM
      [StoreOp.add ⟨"a", "npc", [("position", [("realm", "r1"), ("city", "c1")])]⟩,
       StoreOp.add ⟨"b", "item", [("durability", [("value", "3")])]⟩,
       StoreOp.update "a" ⟨none, some "monster", none⟩,
       StoreOp.remove "b"]) :=
  ⟨by decide, store_index_consistency
    [StoreOp.add ⟨"a", "npc", [("position", [("realm", "r1"), ("city", "c1")])]⟩,
     StoreOp.add ⟨"b", "item", [("durability", [("value", "3")])]⟩,
     StoreOp.update "a" ⟨none, some "monster", none⟩,
     StoreOp.remove "b"] (by decide)⟩

end Store

namespace Factory

/-- C2: refuted.  The retry queue never retries: after a template whose
parent is not yet registered is pushed to the back, the queue length equals
previousCount (the length measured at the top of the same iteration), so
the stuck check fires on the first deferred template instead of after a
full fruitless pass.  The acyclic input a, c extends b, b extends a is
rejected with the circular-dependency error, while the same three templates
in the order a, b, c register fine. -/
theorem register_from_json_rejects_out_of_order :
    registerFromJSON emptyFactory
      [Template.mk "a" "npc" none none (JVal.jobj 0 JFields.nil),
       Template.mk "c" "npc" (some "b") none (JVal.jobj 0 JFields.nil),
       Template.mk "b" "npc" (some "a") none (JVal.jobj 0 JFields.nil)]
      = .error ("Circular dependency or missing parent templates detected: "
        ++ "\"b\" extends \"a\", \"c\" extends \"b\"")
    ∧ (registerFromJSON emptyFactory
      [Template.mk "a" "npc" none none (JVal.jobj 0 JFields.nil),
       Template.mk "b" "npc" (some "a") none (JVal.jobj 0 JFields.nil),
       Template.mk "c" "npc" (some "b") none (JVal.jobj 0 JFields.nil)]).toOption.isSome
      = true :=
  ⟨rfl, rfl⟩

end Factory

namespace Factory

lemma getField_setField_self : ∀ (fs : JFields) (k : String) (v : JVal),
    getField (setField fs k v) k = some v
  | .nil, k, v => by simp [setField, getField]
  | .fcons k0 v0 rest, k, v => by
    by_cases h : k0 = k
    · subst h
      simp [setField, getField]
    · rw [show setField (.fcons k0 v0 rest) k v = .fcons k0 v0 (setField rest k v) from by
        simp [setField, h]]
      rw [show getField (.fcons k0 v0 (setField rest k v)) k = getField (setField rest k v) k
        from by simp [getField, h]]
      exact getField_setField_self rest k v

lemma getField_setField_ne : ∀ (fs : JFields) (k : String) (v : JVal) (k2 : String),
    k ≠ k2 → getField (setField fs k v) k2 = getField fs k2
  | .nil, k, v, k2 => by
    intro h
    simp [setField, getField, h]
  | .fcons k0 v0 rest, k, v, k2 => by
    intro h
    by_cases h0 : k0 = k
    · subst h0
      simp [setField, getField, h]
    · rw [show setField (.fcons k0 v0 rest) k v = .fcons k0 v0 (setField rest k v) from by
        simp [setField, h0]]
      by_cases h2 : k0 = k2
      · subst h2
        simp [getField]
      · rw [show getField (.fcons k0 v0 (setField rest k v)) k2 = getField (setField rest k v) k2
          from by simp [getField, h2]]
        rw [show getField (.fcons k0 v0 rest) k2 = getField rest k2 from by simp [getField, h2]]
        exact getField_setField_ne rest k v k2 h

lemma mem_fieldKeys : ∀ (fs : JFields) (k : String),
    k ∈ fieldKeys fs ↔ (getField fs k).isSome
  | .nil, k => by simp [fieldKeys, getField]
  | .fcons k0 v0 rest, k => by
    by_cases h : k0 = k
    · subst h
      simp [fieldKeys, getField]
    · rw [show getField (.fcons k0 v0 rest) k = getField rest k from by simp [getField, h]]
      rw [show fieldKeys (.fcons k0 v0 rest) = k0 :: fieldKeys rest from rfl]
      rw [List.mem_cons, mem_fieldKeys rest k]
      constructor
      · rintro (rfl | hm)
        · exact absurd rfl h
        · exact hm
      · exact Or.inr

lemma fieldKeys_setField : ∀ (fs : JFields) (k : String) (v : JVal),
    fieldKeys (setField fs k v)
      = if k ∈ fieldKeys fs then fieldKeys fs else fieldKeys fs ++ [k]
  | .nil, k, v => by simp [setField, fieldKeys]
  | .fcons k0 v0 rest, k, v => by
    by_cases h : k0 = k
    · subst h
      simp [setField, fieldKeys]
    · rw [show setField (.fcons k0 v0 rest) k v = .fcons k0 v0 (setField rest k v) from by
        simp [setField, h]]
      rw [show fieldKeys (.fcons k0 v0 (setField rest k v)) = k0 :: fieldKeys (setField rest k v)
        from rfl]
      rw [fieldKeys_setField rest k v]
      have hne : ¬ (k = k0) := fun hc => h hc.symm
      by_cases hm : k ∈ fieldKeys rest
      · rw [if_pos hm, if_pos (by simp [fieldKeys, hm])]
        rfl
      · rw [if_neg hm, if_neg (by simp [fieldKeys, hm, hne])]
        rfl

lemma fAppend_snoc : ∀ (x : JFields) (k : String) (v : JVal) (y : JFields),
    fAppend (fAppend x (.fcons k v .nil)) y = fAppend x (.fcons k v y)
  | .nil, k, v, y => rfl
  | .fcons k0 v0 rest, k, v, y => by
    rw [show fAppend (.fcons k0 v0 rest) (.fcons k v .nil)
        = .fcons k0 v0 (fAppend rest (.fcons k v .nil)) from rfl]
    rw [show fAppend (.fcons k0 v0 (fAppend rest (.fcons k v .nil))) y
        = .fcons k0 v0 (fAppend (fAppend rest (.fcons k v .nil)) y) from rfl]
    rw [fAppend_snoc rest k v y]
    rfl

lemma keysNotIn_nil_keys : ∀ R : JFields, keysNotIn R [] = R
  | .nil => rfl
  | .fcons k v rest => by simp [keysNotIn, keysNotIn_nil_keys rest]

lemma keysNotIn_cons_not_mem : ∀ (R : JFields) (k : String) (ks : List String),
    ¬ k ∈ fieldKeys R → keysNotIn R (k :: ks) = keysNotIn R ks
  | .nil, k, ks => by intro _; rfl
  | .fcons k0 v0 rest, k, ks => by
    intro h
    have h0 : ¬ (k0 = k) := fun hc => h (by simp [fieldKeys, hc])
    have hrest : ¬ k ∈ fieldKeys rest := fun hc => h (by simp [fieldKeys, hc])
    by_cases hm : k0 ∈ ks
    · rw [show keysNotIn (.fcons k0 v0 rest) (k :: ks) = keysNotIn rest (k :: ks) from by
        simp [keysNotIn, hm]]
      rw [show keysNotIn (.fcons k0 v0 rest) ks = keysNotIn rest ks from by
        simp [keysNotIn, hm]]
      exact keysNotIn_cons_not_mem rest k ks hrest
    · rw [show keysNotIn (.fcons k0 v0 rest) (k :: ks)
          = .fcons k0 v0 (keysNotIn rest (k :: ks)) from by
        simp [keysNotIn, hm, h0]]
      rw [show keysNotIn (.fcons k0 v0 rest) ks = .fcons k0 v0 (keysNotIn rest ks) from by
        simp [keysNotIn, hm]]
      rw [keysNotIn_cons_not_mem rest k ks hrest]

lemma fieldKeys_fAppend : ∀ (x y : JFields),
    fieldKeys (fAppend x y) = fieldKeys x ++ fieldKeys y
  | .nil, y => rfl
  | .fcons k v rest, y => by
    rw [show fAppend (.fcons k v rest) y = .fcons k v (fAppend rest y) from rfl]
    rw [show fieldKeys (.fcons k v (fAppend rest y)) = k :: fieldKeys (fAppend rest y) from rfl]
    rw [fieldKeys_fAppend rest y]
    rfl

end Factory

namespace Factory

lemma fieldKeys_eraseFields : ∀ fs : JFields, fieldKeys (eraseFields fs) = fieldKeys fs
  | .nil => rfl
  | .fcons k v rest => by
    rw [show eraseFields (.fcons k v rest) = .fcons k (erase v) (eraseFields rest) from rfl]
    rw [show fieldKeys (.fcons k (erase v) (eraseFields rest))
        = k :: fieldKeys (eraseFields rest) from rfl]
    rw [fieldKeys_eraseFields rest]
    rfl

lemma getField_eraseFields : ∀ (fs : JFields) (k : String),
    getField (eraseFields fs) k = (getField fs k).map erase
  | .nil, k => rfl
  | .fcons k0 v0 rest, k => by
    by_cases h : k0 = k
    · subst h
      simp [eraseFields, getField]
    · rw [show eraseFields (.fcons k0 v0 rest) = .fcons k0 (erase v0) (eraseFields rest) from rfl]
      rw [show getField (.fcons k0 (erase v0) (eraseFields rest)) k
          = getField (eraseFields rest) k from by simp [getField, h]]
      rw [show getField (.fcons k0 v0 rest) k = getField rest k from by simp [getField, h]]
      exact getField_eraseFields rest k

lemma eraseFields_setField : ∀ (fs : JFields) (k : String) (v : JVal),
    eraseFields (setField fs k v) = setField (eraseFields fs) k (erase v)
  | .nil, k, v => rfl
  | .fcons k0 v0 rest, k, v => by
    by_cases h : k0 = k
    · subst h
      simp [setField, eraseFields]
    · rw [show setField (.fcons k0 v0 rest) k v = .fcons k0 v0 (setField rest k v) from by
        simp [setField, h]]
      rw [show eraseFields (.fcons k0 v0 (setField rest k v))
          = .fcons k0 (erase v0) (eraseFields (setField rest k v)) from rfl]
      rw [eraseFields_setField rest k v]
      rw [show eraseFields (.fcons k0 v0 rest) = .fcons k0 (erase v0) (eraseFields rest) from rfl]
      rw [show setField (.fcons k0 (erase v0) (eraseFields rest)) k (erase v)
          = .fcons k0 (erase v0) (setField (eraseFields rest) k (erase v)) from by
        simp [setField, h]]

lemma truthy_erase : ∀ v : JVal, truthy (erase v) = truthy v
  | .jnull => rfl
  | .jbool _ => rfl
  | .jnum _ => rfl
  | .jstr _ => rfl
  | .jobj _ _ => rfl
  | .jarr _ _ _ => rfl

lemma isObjectType_erase : ∀ v : JVal, isObjectType (erase v) = isObjectType v
  | .jnull => rfl
  | .jbool _ => rfl
  | .jnum _ => rfl
  | .jstr _ => rfl
  | .jobj _ _ => rfl
  | .jarr _ _ _ => rfl

lemma isArrayV_erase : ∀ v : JVal, isArrayV (erase v) = isArrayV v
  | .jnull => rfl
  | .jbool _ => rfl
  | .jnum _ => rfl
  | .jstr _ => rfl
  | .jobj _ _ => rfl
  | .jarr _ _ _ => rfl

end Factory

namespace Factory

mutual
theorem wfVal_erase : ∀ v : JVal, wfVal (erase v) = wfVal v
  | .jnull => rfl
  | .jbool _ => rfl
  | .jnum _ => rfl
  | .jstr _ => rfl
  | .jobj t fs => by
    rw [show erase (.jobj t fs) = .jobj 0 (eraseFields fs) from rfl]
    rw [show wfVal (.jobj 0 (eraseFields fs)) = wfFields (eraseFields fs) from rfl]
    rw [show wfVal (.jobj t fs) = wfFields fs from rfl]
    exact wfFields_erase fs
  | .jarr t es ex => by
    rw [show erase (.jarr t es ex) = .jarr 0 (eraseList es) (eraseFields ex) from rfl]
    rw [show wfVal (.jarr 0 (eraseList es) (eraseFields ex))
        = (wfList (eraseList es) && (eraseFields ex == JFields.nil)) from rfl]
    rw [show wfVal (.jarr t es ex) = (wfList es && (ex == JFields.nil)) from rfl]
    rw [wfList_erase es]
    cases ex with
    | nil => rfl
    | fcons k v rest => rfl
theorem wfFields_erase : ∀ fs : JFields, wfFields (eraseFields fs) = wfFields fs
  | .nil => rfl
  | .fcons k v rest => by
    rw [show eraseFields (.fcons k v rest) = .fcons k (erase v) (eraseFields rest) from rfl]
    rw [show wfFields (.fcons k (erase v) (eraseFields rest))
        = (!(fieldKeys (eraseFields rest)).contains k && wfVal (erase v)
            && wfFields (eraseFields rest)) from rfl]
    rw [show wfFields (.fcons k v rest)
        = (!(fieldKeys rest).contains k && wfVal v && wfFields rest) from rfl]
    rw [fieldKeys_eraseFields rest, wfVal_erase v, wfFields_erase rest]
theorem wfList_erase : ∀ es : JList, wfList (eraseList es) = wfList es
  | .nil => rfl
  | .lcons v rest => by
    rw [show eraseList (.lcons v rest) = .lcons (erase v) (eraseList rest) from rfl]
    rw [show wfList (.lcons (erase v) (eraseList rest))
        = (wfVal (erase v) && wfList (eraseList rest)) from rfl]
    rw [show wfList (.lcons v rest) = (wfVal v && wfList rest) from rfl]
    rw [wfVal_erase v, wfList_erase rest]
end

lemma allValsObj_erase : ∀ fs : JFields, allValsObj (eraseFields fs) = allValsObj fs
  | .nil => rfl
  | .fcons k v rest => by
    rw [show eraseFields (.fcons k v rest) = .fcons k (erase v) (eraseFields rest) from rfl]
    rw [show allValsObj (.fcons k (erase v) (eraseFields rest))
        = ((match erase v with | .jobj _ _ => true | _ => false)
            && allValsObj (eraseFields rest)) from rfl]
    rw [show allValsObj (.fcons k v rest)
        = ((match v with | .jobj _ _ => true | _ => false) && allValsObj rest) from rfl]
    rw [allValsObj_erase rest]
    cases v <;> rfl

lemma wfBag_erase : ∀ v : JVal, wfBag (erase v) = wfBag v := by
  intro v
  cases v with
  | jobj t fs =>
    rw [show erase (.jobj t fs) = .jobj 0 (eraseFields fs) from rfl]
    rw [show wfBag (.jobj 0 (eraseFields fs))
        = (wfFields (eraseFields fs) && allValsObj (eraseFields fs)) from rfl]
    rw [show wfBag (.jobj t fs) = (wfFields fs && allValsObj fs) from rfl]
    rw [wfFields_erase fs, allValsObj_erase fs]
  | jnull => rfl
  | jbool b => rfl
  | jnum n => rfl
  | jstr s => rfl
  | jarr t es ex => rfl

end Factory

namespace Factory

mutual
theorem deepMergeOk_erase : ∀ t s : JVal, deepMergeOk (erase t) (erase s) = deepMergeOk t s
  | t, .jobj stag sf => by
    cases t with
    | jobj ttag tf =>
      rw [show deepMergeOk (erase (.jobj ttag tf)) (erase (.jobj stag sf))
          = entriesOk (eraseFields tf) (eraseFields sf) from rfl]
      rw [show deepMergeOk (.jobj ttag tf) (.jobj stag sf) = entriesOk tf sf from rfl]
      exact entriesOk_erase tf sf
    | jnull => rfl
    | jbool b => rfl
    | jnum n => rfl
    | jstr s2 => rfl
    | jarr a b c => rfl
  | t, .jnull => by cases t <;> rfl
  | t, .jarr a b c => by cases t <;> rfl
  | _, .jbool b => rfl
  | _, .jnum n => rfl
  | _, .jstr s2 => rfl
theorem entriesOk_erase : ∀ tf sf : JFields,
    entriesOk (eraseFields tf) (eraseFields sf) = entriesOk tf sf
  | tf, .nil => rfl
  | tf, .fcons k v rest => by
    rw [show eraseFields (.fcons k v rest) = .fcons k (erase v) (eraseFields rest) from rfl]
    cases v with
    | jobj vt vf =>
      rw [show entriesOk (eraseFields tf) (.fcons k (erase (.jobj vt vf)) (eraseFields rest))
          = ((match getField (eraseFields tf) k with
              | some bv =>
                if truthy bv then
                  match bv with
                  | .jobj _ _ => deepMergeOk bv (erase (.jobj vt vf))
                  | _ => false
                else true
              | none => true)
            && entriesOk (eraseFields tf) (eraseFields rest)) from rfl]
      rw [show entriesOk tf (.fcons k (.jobj vt vf) rest)
          = ((match getField tf k with
              | some bv =>
                if truthy bv then
                  match bv with
                  | .jobj _ _ => deepMergeOk bv (.jobj vt vf)
                  | _ => false
                else true
              | none => true)
            && entriesOk tf rest) from rfl]
      rw [entriesOk_erase tf rest, getField_eraseFields tf k]
      have hhead : ∀ o : Option JVal,
          (match o.map erase with
           | some bv =>
             if truthy bv then
               match bv with
               | .jobj _ _ => deepMergeOk bv (erase (.jobj vt vf))
               | _ => false
             else true
           | none => true : Bool)
          = (match o with
             | some bv =>
               if truthy bv then
                 match bv with
                 | .jobj _ _ => deepMergeOk bv (.jobj vt vf)
                 | _ => false
               else true
             | none => true) := by
        intro o
        cases o with
        | none => rfl
        | some bv =>
          cases bv with
          | jobj b1 b2 =>
            show deepMergeOk (erase (.jobj b1 b2)) (erase (.jobj vt vf))
              = deepMergeOk (.jobj b1 b2) (.jobj vt vf)
            exact deepMergeOk_erase (.jobj b1 b2) (.jobj vt vf)
          | jnull => rfl
          | jbool c => rfl
          | jnum c => rfl
          | jstr c => rfl
          | jarr a b c => rfl
      exact congrArg (· && entriesOk tf rest) (hhead (getField tf k))
    | jnull =>
      rw [show entriesOk (eraseFields tf) (.fcons k (erase .jnull) (eraseFields rest))
          = (true && entriesOk (eraseFields tf) (eraseFields rest)) from rfl]
      rw [show entriesOk tf (.fcons k .jnull rest) = (true && entriesOk tf rest) from rfl]
      rw [entriesOk_erase tf rest]
    | jbool b =>
      rw [show entriesOk (eraseFields tf) (.fcons k (erase (.jbool b)) (eraseFields rest))
          = (true && entriesOk (eraseFields tf) (eraseFields rest)) from rfl]
      rw [show entriesOk tf (.fcons k (.jbool b) rest) = (true && entriesOk tf rest) from rfl]
      rw [entriesOk_erase tf rest]
    | jnum n =>
      rw [show entriesOk (eraseFields tf) (.fcons k (erase (.jnum n)) (eraseFields rest))
          = (true && entriesOk (eraseFields tf) (eraseFields rest)) from rfl]
      rw [show entriesOk tf (.fcons k (.jnum n) rest) = (true && entriesOk tf rest) from rfl]
      rw [entriesOk_erase tf rest]
    | jstr s2 =>
      rw [show entriesOk (eraseFields tf) (.fcons k (erase (.jstr s2)) (eraseFields rest))
          = (true && entriesOk (eraseFields tf) (eraseFields rest)) from rfl]
      rw [show entriesOk tf (.fcons k (.jstr s2) rest) = (true && entriesOk tf rest) from rfl]
      rw [entriesOk_erase tf rest]
    | jarr a b c =>
      rw [show entriesOk (eraseFields tf) (.fcons k (erase (.jarr a b c)) (eraseFields rest))
          = (true && entriesOk (eraseFields tf) (eraseFields rest)) from rfl]
      rw [show entriesOk tf (.fcons k (.jarr a b c) rest) = (true && entriesOk tf rest) from rfl]
      rw [entriesOk_erase tf rest]
end

end Factory

namespace Factory

theorem mcOk_erase : ∀ bf o : JFields, mcOk (eraseFields bf) (eraseFields o) = mcOk bf o
  | bf, .nil => rfl
  | bf, .fcons k v rest => by
    rw [show eraseFields (.fcons k v rest) = .fcons k (erase v) (eraseFields rest) from rfl]
    rw [show mcOk (eraseFields bf) (.fcons k (erase v) (eraseFields rest))
        = ((match getField (eraseFields bf) k with
            | some bv =>
              if truthy bv then
                match erase v with
                | .jnull => !isObjectType bv
                | .jobj _ _ =>
                  (match bv with
                   | .jobj _ _ => deepMergeOk bv (erase v)
                   | _ => false)
                | _ => true
              else true
            | none => true)
          && mcOk (eraseFields bf) (eraseFields rest)) from rfl]
    rw [show mcOk bf (.fcons k v rest)
        = ((match getField bf k with
            | some bv =>
              if truthy bv then
                match v with
                | .jnull => !isObjectType bv
                | .jobj _ _ =>
                  (match bv with
                   | .jobj _ _ => deepMergeOk bv v
                   | _ => false)
                | _ => true
              else true
            | none => true)
          && mcOk bf rest) from rfl]
    rw [mcOk_erase bf rest, getField_eraseFields bf k]
    have hhead : ∀ o2 : Option JVal,
        (match o2.map erase with
         | some bv =>
           if truthy bv then
             match erase v with
             | .jnull => !isObjectType bv
             | .jobj _ _ =>
               (match bv with
                | .jobj _ _ => deepMergeOk bv (erase v)
                | _ => false)
             | _ => true
           else true
         | none => true : Bool)
        = (match o2 with
           | some bv =>
             if truthy bv then
               match v with
               | .jnull => !isObjectType bv
               | .jobj _ _ =>
                 (match bv with
                  | .jobj _ _ => deepMergeOk bv v
                  | _ => false)
               | _ => true
             else true
           | none => true) := by
      intro o2
      cases o2 with
      | none => rfl
      | some bv =>
        cases v with
        | jobj vt vf =>
          cases bv with
          | jobj b1 b2 =>
            show deepMergeOk (erase (.jobj b1 b2)) (erase (.jobj vt vf))
              = deepMergeOk (.jobj b1 b2) (.jobj vt vf)
            exact deepMergeOk_erase (.jobj b1 b2) (.jobj vt vf)
          | jnull => rfl
          | jbool c => rfl
          | jnum c => rfl
          | jstr c => rfl
          | jarr a b c => rfl
        | jnull => cases bv <;> rfl
        | jbool b => cases bv <;> rfl
        | jnum n => cases bv <;> rfl
        | jstr s2 => cases bv <;> rfl
        | jarr a b c => cases bv <;> rfl
    exact congrArg (· && mcOk bf rest) (hhead (getField bf k))

lemma mcOkBags_erase : ∀ b o : JVal, mcOkBags (erase b) (erase o) = mcOkBags b o := by
  intro b o
  cases b with
  | jobj bt bf =>
    cases o with
    | jobj ot of =>
      rw [show mcOkBags (erase (.jobj bt bf)) (erase (.jobj ot of))
          = mcOk (eraseFields bf) (eraseFields of) from rfl]
      rw [show mcOkBags (.jobj bt bf) (.jobj ot of) = mcOk bf of from rfl]
      exact mcOk_erase bf of
    | jnull => rfl
    | jbool c => rfl
    | jnum c => rfl
    | jstr c => rfl
    | jarr a b2 c => rfl
  | jnull => cases o <;> rfl
  | jbool c => cases o <;> rfl
  | jnum c => cases o <;> rfl
  | jstr c => cases o <;> rfl
  | jarr a b2 c => cases o <;> rfl

end Factory

namespace Factory

lemma fAppend_nil : ∀ A : JFields, fAppend A .nil = A
  | .nil => rfl
  | .fcons k v rest => by
    rw [show fAppend (.fcons k v rest) .nil = .fcons k v (fAppend rest .nil) from rfl]
    rw [fAppend_nil rest]

lemma specMergeBase_nil : ∀ A : JFields, specMergeBase A .nil = A
  | .nil => rfl
  | .fcons k v rest => by
    rw [show specMergeBase (.fcons k v rest) .nil
        = .fcons k v (specMergeBase rest .nil) from rfl]
    rw [specMergeBase_nil rest]

lemma specMergeBase_src_congr : ∀ (A o1 o2 : JFields),
    (∀ k0, k0 ∈ fieldKeys A → getField o1 k0 = getField o2 k0) →
    specMergeBase A o1 = specMergeBase A o2
  | .nil, o1, o2, _ => rfl
  | .fcons k v rest, o1, o2, h => by
    have hk : getField o1 k = getField o2 k := h k (by simp [fieldKeys])
    have hrest : specMergeBase rest o1 = specMergeBase rest o2 :=
      specMergeBase_src_congr rest o1 o2 (fun k0 hk0 => h k0 (by simp [fieldKeys, hk0]))
    rw [show specMergeBase (.fcons k v rest) o1
        = (match getField o1 k with
           | some w => .fcons k (specMerge v w) (specMergeBase rest o1)
           | none => .fcons k v (specMergeBase rest o1)) from rfl]
    rw [show specMergeBase (.fcons k v rest) o2
        = (match getField o2 k with
           | some w => .fcons k (specMerge v w) (specMergeBase rest o2)
           | none => .fcons k v (specMergeBase rest o2)) from rfl]
    rw [hk, hrest]

lemma keysNotIn_congr : ∀ (R : JFields) (l1 l2 : List String),
    (∀ k0, k0 ∈ fieldKeys R → (k0 ∈ l1 ↔ k0 ∈ l2)) →
    keysNotIn R l1 = keysNotIn R l2
  | .nil, l1, l2, _ => rfl
  | .fcons k v rest, l1, l2, h => by
    have hk : k ∈ l1 ↔ k ∈ l2 := h k (by simp [fieldKeys])
    have hrest : keysNotIn rest l1 = keysNotIn rest l2 :=
      keysNotIn_congr rest l1 l2 (fun k0 hk0 => h k0 (by simp [fieldKeys, hk0]))
    by_cases hm : k ∈ l1
    · rw [show keysNotIn (.fcons k v rest) l1 = keysNotIn rest l1 from by simp [keysNotIn, hm]]
      rw [show keysNotIn (.fcons k v rest) l2 = keysNotIn rest l2 from by
        simp [keysNotIn, hk.mp hm]]
      exact hrest
    · have hm2 : ¬ k ∈ l2 := fun hc => hm (hk.mpr hc)
      rw [show keysNotIn (.fcons k v rest) l1 = .fcons k v (keysNotIn rest l1) from by
        simp [keysNotIn, hm]]
      rw [show keysNotIn (.fcons k v rest) l2 = .fcons k v (keysNotIn rest l2) from by
        simp [keysNotIn, hm2]]
      rw [hrest]

lemma getField_none_iff (fs : JFields) (k : String) :
    getField fs k = none ↔ ¬ k ∈ fieldKeys fs := by
  rw [mem_fieldKeys fs k]
  cases getField fs k <;> simp

lemma entriesOk_nil_tf : ∀ sf : JFields, entriesOk JFields.nil sf = true
  | .nil => rfl
  | .fcons k v rest => by
    rw [show entriesOk JFields.nil (.fcons k v rest)
        = ((match v with
            | .jobj _ _ =>
              (match getField JFields.nil k with
               | some bv =>
                 if truthy bv then
                   match bv with
                   | .jobj _ _ => deepMergeOk bv v
                   | _ => false
                 else true
               | none => true)
            | _ => true)
          && entriesOk JFields.nil rest) from rfl]
    rw [entriesOk_nil_tf rest]
    cases v <;> rfl

lemma entriesOk_congr : ∀ (sf tf1 tf2 : JFields),
    (∀ k0, k0 ∈ fieldKeys sf → getField tf1 k0 = getField tf2 k0) →
    entriesOk tf1 sf = entriesOk tf2 sf
  | .nil, tf1, tf2, _ => rfl
  | .fcons k v rest, tf1, tf2, h => by
    have hk : getField tf1 k = getField tf2 k := h k (by simp [fieldKeys])
    have hrest : entriesOk tf1 rest = entriesOk tf2 rest :=
      entriesOk_congr rest tf1 tf2 (fun k0 hk0 => h k0 (by simp [fieldKeys, hk0]))
    clear h
    rw [show entriesOk tf1 (.fcons k v rest)
        = ((match v with
            | .jobj _ _ =>
              (match getField tf1 k with
               | some bv =>
                 if truthy bv then
                   match bv with
                   | .jobj _ _ => deepMergeOk bv v
                   | _ => false
                 else true
               | none => true)
            | _ => true)
          && entriesOk tf1 rest) from rfl]
    rw [show entriesOk tf2 (.fcons k v rest)
        = ((match v with
            | .jobj _ _ =>
              (match getField tf2 k with
               | some bv =>
                 if truthy bv then
                   match bv with
                   | .jobj _ _ => deepMergeOk bv v
                   | _ => false
                 else true
               | none => true)
            | _ => true)
          && entriesOk tf2 rest) from rfl]
    rw [hk, hrest]

lemma mcOk_congr : ∀ (o bf1 bf2 : JFields),
    (∀ k0, k0 ∈ fieldKeys o → getField bf1 k0 = getField bf2 k0) →
    mcOk bf1 o = mcOk bf2 o
  | .nil, bf1, bf2, _ => rfl
  | .fcons k v rest, bf1, bf2, h => by
    have hk : getField bf1 k = getField bf2 k := h k (by simp [fieldKeys])
    have hrest : mcOk bf1 rest = mcOk bf2 rest :=
      mcOk_congr rest bf1 bf2 (fun k0 hk0 => h k0 (by simp [fieldKeys, hk0]))
    clear h
    rw [show mcOk bf1 (.fcons k v rest)
        = ((match getField bf1 k with
            | some bv =>
              if truthy bv then
                match v with
                | .jnull => !isObjectType bv
                | .jobj _ _ =>
                  (match bv with
                   | .jobj _ _ => deepMergeOk bv v
                   | _ => false)
                | _ => true
              else true
            | none => true)
          && mcOk bf1 rest) from rfl]
    rw [show mcOk bf2 (.fcons k v rest)
        = ((match getField bf2 k with
            | some bv =>
              if truthy bv then
                match v with
                | .jnull => !isObjectType bv
                | .jobj _ _ =>
                  (match bv with
                   | .jobj _ _ => deepMergeOk bv v
                   | _ => false)
                | _ => true
              else true
            | none => true)
          && mcOk bf2 rest) from rfl]
    rw [hk, hrest]

lemma wf_getField : ∀ (fs : JFields) (k : String) (bv : JVal),
    wfFields fs = true → getField fs k = some bv → wfVal bv = true
  | .nil, k, bv, _, hg => by cases hg
  | .fcons k0 v0 rest, k, bv, hwf, hg => by
    rw [show wfFields (.fcons k0 v0 rest)
        = (!(fieldKeys rest).contains k0 && wfVal v0 && wfFields rest) from rfl] at hwf
    obtain ⟨hwf1, hwf2⟩ := (Bool.and_eq_true _ _).mp hwf
    obtain ⟨-, hv0⟩ := (Bool.and_eq_true _ _).mp hwf1
    by_cases h : k0 = k
    · subst h
      rw [show getField (.fcons k0 v0 rest) k0 = some v0 from by simp [getField]] at hg
      cases hg
      exact hv0
    · rw [show getField (.fcons k0 v0 rest) k = getField rest k from by simp [getField, h]] at hg
      exact wf_getField rest k bv hwf2 hg

lemma tags_getField : ∀ (fs : JFields) (k : String) (bv : JVal) (a : Nat),
    getField fs k = some bv → a ∈ tagsOf bv → a ∈ tagsFields fs
  | .nil, k, bv, a, hg => by cases hg
  | .fcons k0 v0 rest, k, bv, a, hg => by
    intro ha
    rw [show tagsFields (.fcons k0 v0 rest) = tagsOf v0 ++ tagsFields rest from rfl]
    rw [List.mem_append]
    by_cases h : k0 = k
    · subst h
      rw [show getField (.fcons k0 v0 rest) k0 = some v0 from by simp [getField]] at hg
      cases hg
      exact Or.inl ha
    · rw [show getField (.fcons k0 v0 rest) k = getField rest k from by simp [getField, h]] at hg
      exact Or.inr (tags_getField rest k bv a hg ha)

lemma wfFields_setField : ∀ (fs : JFields) (k : String) (w : JVal),
    wfFields fs = true → wfVal w = true → wfFields (setField fs k w) = true
  | .nil, k, w, _, hw => by
    rw [show setField .nil k w = .fcons k w .nil from rfl]
    rw [show wfFields (.fcons k w .nil)
        = (!(fieldKeys JFields.nil).contains k && wfVal w && wfFields .nil) from rfl]
    simp [fieldKeys, wfFields, hw]
  | .fcons k0 v0 rest, k, w, hwf, hw => by
    rw [show wfFields (.fcons k0 v0 rest)
        = (!(fieldKeys rest).contains k0 && wfVal v0 && wfFields rest) from rfl] at hwf
    obtain ⟨hwf1, hwf2⟩ := (Bool.and_eq_true _ _).mp hwf
    obtain ⟨hk0, hv0⟩ := (Bool.and_eq_true _ _).mp hwf1
    by_cases h : k0 = k
    · subst h
      rw [show setField (.fcons k0 v0 rest) k0 w = .fcons k0 w rest from by simp [setField]]
      rw [show wfFields (.fcons k0 w rest)
          = (!(fieldKeys rest).contains k0 && wfVal w && wfFields rest) from rfl]
      simp only [hk0, hw, hwf2]
      rfl
    · rw [show setField (.fcons k0 v0 rest) k w = .fcons k0 v0 (setField rest k w) from by
        simp [setField, h]]
      rw [show wfFields (.fcons k0 v0 (setField rest k w))
          = (!(fieldKeys (setField rest k w)).contains k0 && wfVal v0
              && wfFields (setField rest k w)) from rfl]
      rw [wfFields_setField rest k w hwf2 hw]
      rw [fieldKeys_setField rest k w]
      by_cases hm : k ∈ fieldKeys rest
      · rw [if_pos hm]
        simp only [hk0, hv0]
        rfl
      · rw [if_neg hm]
        have hknotmem : ¬ k0 ∈ fieldKeys rest := by simpa using hk0
        simp [hv0, hknotmem, h]

lemma tagsFields_setField : ∀ (fs : JFields) (k : String) (w : JVal) (a : Nat),
    a ∈ tagsFields (setField fs k w) → a ∈ tagsFields fs ∨ a ∈ tagsOf w
  | .nil, k, w, a => by
    intro ha
    rw [show setField .nil k w = .fcons k w .nil from rfl] at ha
    rw [show tagsFields (.fcons k w .nil) = tagsOf w ++ tagsFields .nil from rfl] at ha
    rw [show tagsFields JFields.nil = [] from rfl] at ha
    rw [List.append_nil] at ha
    exact Or.inr ha
  | .fcons k0 v0 rest, k, w, a => by
    intro ha
    by_cases h : k0 = k
    · subst h
      rw [show setField (.fcons k0 v0 rest) k0 w = .fcons k0 w rest from by
        simp [setField]] at ha
      rw [show tagsFields (.fcons k0 w rest) = tagsOf w ++ tagsFields rest from rfl] at ha
      rcases List.mem_append.mp ha with h1 | h1
      · exact Or.inr h1
      · exact Or.inl (by
          rw [show tagsFields (.fcons k0 v0 rest) = tagsOf v0 ++ tagsFields rest from rfl]
          exact List.mem_append.mpr (Or.inr h1))
    · rw [show setField (.fcons k0 v0 rest) k w = .fcons k0 v0 (setField rest k w) from by
        simp [setField, h]] at ha
      rw [show tagsFields (.fcons k0 v0 (setField rest k w))
          = tagsOf v0 ++ tagsFields (setField rest k w) from rfl] at ha
      rcases List.mem_append.mp ha with h1 | h1
      · exact Or.inl (by
          rw [show tagsFields (.fcons k0 v0 rest) = tagsOf v0 ++ tagsFields rest from rfl]
          exact List.mem_append.mpr (Or.inl h1))
      · rcases tagsFields_setField rest k w a h1 with h2 | h2
        · exact Or.inl (by
            rw [show tagsFields (.fcons k0 v0 rest) = tagsOf v0 ++ tagsFields rest from rfl]
            exact List.mem_append.mpr (Or.inr h2))
        · exact Or.inr h2

end Factory

namespace Factory

/-- One entry of the source folded into the base on the specification side:
writing the merged value for key k into the base and then spec-merging the
remaining source entries equals spec-merging the whole source. -/
lemma spec_step_gen : ∀ (A : JFields) (k : String) (ev w : JVal) (R : JFields)
    (ks : List String),
    wfFields A = true →
    ¬ k ∈ fieldKeys R →
    ¬ k ∈ ks →
    w = (match getField A k with | some bv => specMerge bv ev | none => ev) →
    fAppend (specMergeBase (setField A k w) R)
        (keysNotIn R (ks ++ fieldKeys (setField A k w)))
      = fAppend (specMergeBase A (.fcons k ev R))
          (keysNotIn (.fcons k ev R) (ks ++ fieldKeys A))
  | .nil, k, ev, w, R, ks => by
    intro _ hkR hkks hw
    have hw2 : w = ev := hw
    rw [hw2]
    have hgRk : getField R k = none := (getField_none_iff R k).mpr hkR
    rw [show setField JFields.nil k ev = .fcons k ev .nil from rfl]
    rw [show specMergeBase (.fcons k ev .nil) R
        = (match getField R k with
           | some w0 => .fcons k (specMerge ev w0) (specMergeBase .nil R)
           | none => .fcons k ev (specMergeBase .nil R)) from rfl]
    rw [hgRk]
    rw [show (match (none : Option JVal) with
        | some w0 => JFields.fcons k (specMerge ev w0) (specMergeBase .nil R)
        | none => JFields.fcons k ev (specMergeBase .nil R) : JFields)
        = .fcons k ev (specMergeBase JFields.nil R) from rfl]
    rw [show specMergeBase JFields.nil R = JFields.nil from rfl]
    rw [show fieldKeys (JFields.fcons k ev JFields.nil) = [k] from rfl]
    rw [show keysNotIn R (ks ++ [k]) = keysNotIn R ks from
      keysNotIn_congr R (ks ++ [k]) ks (by
        intro k0 hk0
        have hne : ¬ k0 = k := fun hc => hkR (hc ▸ hk0)
        simp [hne])]
    rw [show specMergeBase JFields.nil (.fcons k ev R) = JFields.nil from rfl]
    rw [show fieldKeys JFields.nil = ([] : List String) from rfl, List.append_nil]
    rw [show keysNotIn (.fcons k ev R) ks = .fcons k ev (keysNotIn R ks) from by
      simp [keysNotIn, hkks]]
    rfl
  | .fcons k0 a0 A0, k, ev, w, R, ks => by
    intro hwfA hkR hkks hw
    rw [show wfFields (.fcons k0 a0 A0)
        = (!(fieldKeys A0).contains k0 && wfVal a0 && wfFields A0) from rfl] at hwfA
    obtain ⟨hwfA1, hwfA0⟩ := (Bool.and_eq_true _ _).mp hwfA
    obtain ⟨hk00, hva0⟩ := (Bool.and_eq_true _ _).mp hwfA1
    have hk0A0 : ¬ k0 ∈ fieldKeys A0 := by simpa using hk00
    by_cases hkk : k0 = k
    · subst hkk
      rw [show getField (.fcons k0 a0 A0) k0 = some a0 from by simp [getField]] at hw
      have hw2 : w = specMerge a0 ev := hw
      rw [hw2]
      have hgRk : getField R k0 = none := (getField_none_iff R k0).mpr hkR
      rw [show setField (.fcons k0 a0 A0) k0 (specMerge a0 ev)
          = .fcons k0 (specMerge a0 ev) A0 from by simp [setField]]
      rw [show specMergeBase (.fcons k0 (specMerge a0 ev) A0) R
          = (match getField R k0 with
             | some w0 => .fcons k0 (specMerge (specMerge a0 ev) w0) (specMergeBase A0 R)
             | none => .fcons k0 (specMerge a0 ev) (specMergeBase A0 R)) from rfl]
      rw [hgRk]
      rw [show (match (none : Option JVal) with
          | some w0 => JFields.fcons k0 (specMerge (specMerge a0 ev) w0) (specMergeBase A0 R)
          | none => JFields.fcons k0 (specMerge a0 ev) (specMergeBase A0 R) : JFields)
          = .fcons k0 (specMerge a0 ev) (specMergeBase A0 R) from rfl]
      rw [show fieldKeys (JFields.fcons k0 (specMerge a0 ev) A0)
          = k0 :: fieldKeys A0 from rfl]
      rw [show specMergeBase (.fcons k0 a0 A0) (.fcons k0 ev R)
          = (match getField (.fcons k0 ev R) k0 with
             | some w0 => .fcons k0 (specMerge a0 w0) (specMergeBase A0 (.fcons k0 ev R))
             | none => .fcons k0 a0 (specMergeBase A0 (.fcons k0 ev R))) from rfl]
      rw [show getField (.fcons k0 ev R) k0 = some ev from by simp [getField]]
      rw [show (match (some ev : Option JVal) with
          | some w0 => JFields.fcons k0 (specMerge a0 w0) (specMergeBase A0 (.fcons k0 ev R))
          | none => JFields.fcons k0 a0 (specMergeBase A0 (.fcons k0 ev R)) : JFields)
          = .fcons k0 (specMerge a0 ev) (specMergeBase A0 (.fcons k0 ev R)) from rfl]
      rw [specMergeBase_src_congr A0 (.fcons k0 ev R) R (by
        intro k2 hk2
        have hne : ¬ (k0 = k2) := fun hc => hk0A0 (hc ▸ hk2)
        simp [getField, hne])]
      rw [show fieldKeys (JFields.fcons k0 a0 A0) = k0 :: fieldKeys A0 from rfl]
      rw [show keysNotIn (.fcons k0 ev R) (ks ++ k0 :: fieldKeys A0)
          = keysNotIn R (ks ++ k0 :: fieldKeys A0) from by
        simp [keysNotIn]]
    · have hne2 : ¬ k = k0 := fun hc => hkk hc.symm
      rw [show getField (.fcons k0 a0 A0) k = getField A0 k from by
        simp [getField, hkk]] at hw
      rw [show setField (.fcons k0 a0 A0) k w = .fcons k0 a0 (setField A0 k w) from by
        simp [setField, hkk]]
      rw [show specMergeBase (.fcons k0 a0 (setField A0 k w)) R
          = (match getField R k0 with
             | some w0 => .fcons k0 (specMerge a0 w0) (specMergeBase (setField A0 k w) R)
             | none => .fcons k0 a0 (specMergeBase (setField A0 k w) R)) from rfl]
      rw [show specMergeBase (.fcons k0 a0 A0) (.fcons k ev R)
          = (match getField (.fcons k ev R) k0 with
             | some w0 => .fcons k0 (specMerge a0 w0) (specMergeBase A0 (.fcons k ev R))
             | none => .fcons k0 a0 (specMergeBase A0 (.fcons k ev R))) from rfl]
      rw [show getField (.fcons k ev R) k0 = getField R k0 from by simp [getField, hne2]]
      rw [show fieldKeys (JFields.fcons k0 a0 (setField A0 k w))
          = k0 :: fieldKeys (setField A0 k w) from rfl]
      rw [show fieldKeys (JFields.fcons k0 a0 A0) = k0 :: fieldKeys A0 from rfl]
      rw [show ks ++ k0 :: fieldKeys (setField A0 k w)
          = (ks ++ [k0]) ++ fieldKeys (setField A0 k w) from by rw [List.append_cons]]
      rw [show ks ++ k0 :: fieldKeys A0 = (ks ++ [k0]) ++ fieldKeys A0 from by
        rw [List.append_cons]]
      have hkks2 : ¬ k ∈ ks ++ [k0] := by simp [hkks, hne2]
      have ih := spec_step_gen A0 k ev w R (ks ++ [k0]) hwfA0 hkR hkks2 hw
      cases hg : getField R k0 with
      | none =>
        rw [show (match (none : Option JVal) with
            | some w0 => JFields.fcons k0 (specMerge a0 w0) (specMergeBase (setField A0 k w) R)
            | none => JFields.fcons k0 a0 (specMergeBase (setField A0 k w) R) : JFields)
            = .fcons k0 a0 (specMergeBase (setField A0 k w) R) from rfl]
        rw [show (match (none : Option JVal) with
            | some w0 => JFields.fcons k0 (specMerge a0 w0) (specMergeBase A0 (.fcons k ev R))
            | none => JFields.fcons k0 a0 (specMergeBase A0 (.fcons k ev R)) : JFields)
            = .fcons k0 a0 (specMergeBase A0 (.fcons k ev R)) from rfl]
        rw [show fAppend (.fcons k0 a0 (specMergeBase (setField A0 k w) R))
              (keysNotIn R ((ks ++ [k0]) ++ fieldKeys (setField A0 k w)))
            = .fcons k0 a0 (fAppend (specMergeBase (setField A0 k w) R)
              (keysNotIn R ((ks ++ [k0]) ++ fieldKeys (setField A0 k w)))) from rfl]
        rw [show fAppend (.fcons k0 a0 (specMergeBase A0 (.fcons k ev R)))
              (keysNotIn (.fcons k ev R) ((ks ++ [k0]) ++ fieldKeys A0))
            = .fcons k0 a0 (fAppend (specMergeBase A0 (.fcons k ev R))
              (keysNotIn (.fcons k ev R) ((ks ++ [k0]) ++ fieldKeys A0))) from rfl]
        rw [ih]
      | some w0 =>
        rw [show (match (some w0 : Option JVal) with
            | some w2 => JFields.fcons k0 (specMerge a0 w2) (specMergeBase (setField A0 k w) R)
            | none => JFields.fcons k0 a0 (specMergeBase (setField A0 k w) R) : JFields)
            = .fcons k0 (specMerge a0 w0) (specMergeBase (setField A0 k w) R) from rfl]
        rw [show (match (some w0 : Option JVal) with
            | some w2 => JFields.fcons k0 (specMerge a0 w2) (specMergeBase A0 (.fcons k ev R))
            | none => JFields.fcons k0 a0 (specMergeBase A0 (.fcons k ev R)) : JFields)
            = .fcons k0 (specMerge a0 w0) (specMergeBase A0 (.fcons k ev R)) from rfl]
        rw [show fAppend (.fcons k0 (specMerge a0 w0) (specMergeBase (setField A0 k w) R))
              (keysNotIn R ((ks ++ [k0]) ++ fieldKeys (setField A0 k w)))
            = .fcons k0 (specMerge a0 w0) (fAppend (specMergeBase (setField A0 k w) R)
              (keysNotIn R ((ks ++ [k0]) ++ fieldKeys (setField A0 k w)))) from rfl]
        rw [show fAppend (.fcons k0 (specMerge a0 w0) (specMergeBase A0 (.fcons k ev R)))
              (keysNotIn (.fcons k ev R) ((ks ++ [k0]) ++ fieldKeys A0))
            = .fcons k0 (specMerge a0 w0) (fAppend (specMergeBase A0 (.fcons k ev R))
              (keysNotIn (.fcons k ev R) ((ks ++ [k0]) ++ fieldKeys A0))) from rfl]
        rw [ih]

end Factory

namespace Factory

mutual
theorem cloneSpec : ∀ (v : JVal) (ctr : Nat), wfVal v = true →
    erase (deepClone ctr v).2 = erase v
    ∧ ctr ≤ (deepClone ctr v).1
    ∧ wfVal (deepClone ctr v).2 = true
    ∧ ∀ a, a ∈ tagsOf (deepClone ctr v).2 → ctr ≤ a ∧ a < (deepClone ctr v).1
  | .jnull, ctr, _ => ⟨rfl, Nat.le_refl ctr, rfl, by intro a ha; simp [deepClone, tagsOf] at ha⟩
  | .jbool b, ctr, _ =>
    ⟨rfl, Nat.le_refl ctr, rfl, by intro a ha; simp [deepClone, tagsOf] at ha⟩
  | .jnum n, ctr, _ =>
    ⟨rfl, Nat.le_refl ctr, rfl, by intro a ha; simp [deepClone, tagsOf] at ha⟩
  | .jstr s, ctr, _ =>
    ⟨rfl, Nat.le_refl ctr, rfl, by intro a ha; simp [deepClone, tagsOf] at ha⟩
  | .jobj t fs, ctr, hwf => by
    have hwfF : wfFields fs = true := hwf
    obtain ⟨h1, h2, h3, h4⟩ := cloneSpecFields fs (ctr + 1) hwfF
    refine ⟨?_, ?_, ?_, ?_⟩
    · show erase (.jobj ctr (deepCloneFields (ctr + 1) fs).2) = erase (.jobj t fs)
      rw [show erase (.jobj ctr (deepCloneFields (ctr + 1) fs).2)
          = .jobj 0 (eraseFields (deepCloneFields (ctr + 1) fs).2) from rfl]
      rw [h1]
      rfl
    · show ctr ≤ (deepCloneFields (ctr + 1) fs).1
      exact Nat.le_trans (Nat.le_succ ctr) h2
    · show wfFields (deepCloneFields (ctr + 1) fs).2 = true
      exact h3
    · intro a ha
      rw [show (deepClone ctr (.jobj t fs)).2
          = .jobj ctr (deepCloneFields (ctr + 1) fs).2 from rfl] at ha
      rw [show tagsOf (.jobj ctr (deepCloneFields (ctr + 1) fs).2)
          = ctr :: tagsFields (deepCloneFields (ctr + 1) fs).2 from rfl] at ha
      rcases List.mem_cons.mp ha with rfl | ha2
      · exact ⟨Nat.le_refl a, Nat.lt_of_lt_of_le (Nat.lt_succ_self a) h2⟩
      · obtain ⟨hb1, hb2⟩ := h4 a ha2
        exact ⟨Nat.le_trans (Nat.le_succ ctr) hb1, hb2⟩
  | .jarr t es ex, ctr, hwf => by
    have hwf2 : (wfList es && (ex == JFields.nil)) = true := hwf
    obtain ⟨hwfL, hexnil⟩ := (Bool.and_eq_true _ _).mp hwf2
    have hex : ex = JFields.nil := by simpa using hexnil
    subst hex
    obtain ⟨h1, h2, h3, h4⟩ := cloneSpecList es (ctr + 1) hwfL
    refine ⟨?_, ?_, ?_, ?_⟩
    · show erase (.jarr ctr (deepCloneList (ctr + 1) es).2 .nil)
        = erase (.jarr t es .nil)
      rw [show erase (.jarr ctr (deepCloneList (ctr + 1) es).2 .nil)
          = .jarr 0 (eraseList (deepCloneList (ctr + 1) es).2) .nil from rfl]
      rw [h1]
      rfl
    · show ctr ≤ (deepCloneList (ctr + 1) es).1
      exact Nat.le_trans (Nat.le_succ ctr) h2
    · show (wfList (deepCloneList (ctr + 1) es).2 && (JFields.nil == JFields.nil)) = true
      rw [h3]
      rfl
    · intro a ha
      rw [show (deepClone ctr (.jarr t es .nil)).2
          = .jarr ctr (deepCloneList (ctr + 1) es).2 .nil from rfl] at ha
      rw [show tagsOf (.jarr ctr (deepCloneList (ctr + 1) es).2 .nil)
          = ctr :: (tagsList (deepCloneList (ctr + 1) es).2 ++ tagsFields .nil) from rfl] at ha
      rw [show tagsFields JFields.nil = [] from rfl, List.append_nil] at ha
      rcases List.mem_cons.mp ha with rfl | ha2
      · exact ⟨Nat.le_refl a, Nat.lt_of_lt_of_le (Nat.lt_succ_self a) h2⟩
      · obtain ⟨hb1, hb2⟩ := h4 a ha2
        exact ⟨Nat.le_trans (Nat.le_succ ctr) hb1, hb2⟩
theorem cloneSpecFields : ∀ (fs : JFields) (ctr : Nat), wfFields fs = true →
    eraseFields (deepCloneFields ctr fs).2 = eraseFields fs
    ∧ ctr ≤ (deepCloneFields ctr fs).1
    ∧ wfFields (deepCloneFields ctr fs).2 = true
    ∧ ∀ a, a ∈ tagsFields (deepCloneFields ctr fs).2
        → ctr ≤ a ∧ a < (deepCloneFields ctr fs).1
  | .nil, ctr, _ =>
    ⟨rfl, Nat.le_refl ctr, rfl, by intro a ha; simp [deepCloneFields, tagsFields] at ha⟩
  | .fcons k v rest, ctr, hwf => by
    rw [show wfFields (.fcons k v rest)
        = (!(fieldKeys rest).contains k && wfVal v && wfFields rest) from rfl] at hwf
    obtain ⟨hwf1, hwfR⟩ := (Bool.and_eq_true _ _).mp hwf
    obtain ⟨hk, hwv⟩ := (Bool.and_eq_true _ _).mp hwf1
    obtain ⟨h1, h2, h3, h4⟩ := cloneSpec v ctr hwv
    obtain ⟨g1, g2, g3, g4⟩ := cloneSpecFields rest (deepClone ctr v).1 hwfR
    refine ⟨?_, ?_, ?_, ?_⟩
    · show eraseFields (.fcons k (deepClone ctr v).2
          (deepCloneFields (deepClone ctr v).1 rest).2) = eraseFields (.fcons k v rest)
      rw [show eraseFields (.fcons k (deepClone ctr v).2
            (deepCloneFields (deepClone ctr v).1 rest).2)
          = .fcons k (erase (deepClone ctr v).2)
            (eraseFields (deepCloneFields (deepClone ctr v).1 rest).2) from rfl]
      rw [h1, g1]
      rfl
    · show ctr ≤ (deepCloneFields (deepClone ctr v).1 rest).1
      exact Nat.le_trans h2 g2
    · show wfFields (.fcons k (deepClone ctr v).2
          (deepCloneFields (deepClone ctr v).1 rest).2) = true
      rw [show wfFields (.fcons k (deepClone ctr v).2
            (deepCloneFields (deepClone ctr v).1 rest).2)
          = (!(fieldKeys (deepCloneFields (deepClone ctr v).1 rest).2).contains k
              && wfVal (deepClone ctr v).2
              && wfFields (deepCloneFields (deepClone ctr v).1 rest).2) from rfl]
      have hkeys : fieldKeys (deepCloneFields (deepClone ctr v).1 rest).2 = fieldKeys rest := by
        rw [show fieldKeys rest = fieldKeys (eraseFields rest) from
          (fieldKeys_eraseFields rest).symm]
        rw [← g1]
        rw [fieldKeys_eraseFields]
      rw [hkeys, h3, g3, hk]
      rfl
    · intro a ha
      rw [show (deepCloneFields ctr (.fcons k v rest)).2
          = .fcons k (deepClone ctr v).2
            (deepCloneFields (deepClone ctr v).1 rest).2 from rfl] at ha
      rw [show (deepCloneFields ctr (.fcons k v rest)).1
          = (deepCloneFields (deepClone ctr v).1 rest).1 from rfl]
      rw [show tagsFields (.fcons k (deepClone ctr v).2
            (deepCloneFields (deepClone ctr v).1 rest).2)
          = tagsOf (deepClone ctr v).2
            ++ tagsFields (deepCloneFields (deepClone ctr v).1 rest).2 from rfl] at ha
      rcases List.mem_append.mp ha with ha2 | ha2
      · obtain ⟨hb1, hb2⟩ := h4 a ha2
        exact ⟨hb1, Nat.lt_of_lt_of_le hb2 g2⟩
      · obtain ⟨hb1, hb2⟩ := g4 a ha2
        exact ⟨Nat.le_trans h2 hb1, hb2⟩
theorem cloneSpecList : ∀ (es : JList) (ctr : Nat), wfList es = true →
    eraseList (deepCloneList ctr es).2 = eraseList es
    ∧ ctr ≤ (deepCloneList ctr es).1
    ∧ wfList (deepCloneList ctr es).2 = true
    ∧ ∀ a, a ∈ tagsList (deepCloneList ctr es).2 → ctr ≤ a ∧ a < (deepCloneList ctr es).1
  | .nil, ctr, _ =>
    ⟨rfl, Nat.le_refl ctr, rfl, by intro a ha; simp [deepCloneList, tagsList] at ha⟩
  | .lcons v rest, ctr, hwf => by
    have hwf2 : (wfVal v && wfList rest) = true := hwf
    obtain ⟨hwv, hwfR⟩ := (Bool.and_eq_true _ _).mp hwf2
    obtain ⟨h1, h2, h3, h4⟩ := cloneSpec v ctr hwv
    obtain ⟨g1, g2, g3, g4⟩ := cloneSpecList rest (deepClone ctr v).1 hwfR
    refine ⟨?_, ?_, ?_, ?_⟩
    · show eraseList (.lcons (deepClone ctr v).2
          (deepCloneList (deepClone ctr v).1 rest).2) = eraseList (.lcons v rest)
      rw [show eraseList (.lcons (deepClone ctr v).2
            (deepCloneList (deepClone ctr v).1 rest).2)
          = .lcons (erase (deepClone ctr v).2)
            (eraseList (deepCloneList (deepClone ctr v).1 rest).2) from rfl]
      rw [h1, g1]
      rfl
    · show ctr ≤ (deepCloneList (deepClone ctr v).1 rest).1
      exact Nat.le_trans h2 g2
    · show (wfVal (deepClone ctr v).2
          && wfList (deepCloneList (deepClone ctr v).1 rest).2) = true
      rw [h3, g3]
      rfl
    · intro a ha
      rw [show (deepCloneList ctr (.lcons v rest)).2
          = .lcons (deepClone ctr v).2
            (deepCloneList (deepClone ctr v).1 rest).2 from rfl] at ha
      rw [show (deepCloneList ctr (.lcons v rest)).1
          = (deepCloneList (deepClone ctr v).1 rest).1 from rfl]
      rw [show tagsList (.lcons (deepClone ctr v).2
            (deepCloneList (deepClone ctr v).1 rest).2)
          = tagsOf (deepClone ctr v).2
            ++ tagsList (deepCloneList (deepClone ctr v).1 rest).2 from rfl] at ha
      rcases List.mem_append.mp ha with ha2 | ha2
      · obtain ⟨hb1, hb2⟩ := h4 a ha2
        exact ⟨hb1, Nat.lt_of_lt_of_le hb2 g2⟩
      · obtain ⟨hb1, hb2⟩ := g4 a ha2
        exact ⟨Nat.le_trans h2 hb1, hb2⟩
end

end Factory

namespace Factory

lemma specMerge_nonobj : ∀ (x c : JVal),
    (match c with | .jobj _ _ => false | _ => true) = true → specMerge x c = c := by
  intro x c hc
  cases x <;> cases c <;> first | rfl | exact Bool.noConfusion hc

/-- Folding one source entry into the erased result: the algebra step shared
by the merge loops. -/
lemma assemble (rf : JFields) (k : String) (v w : JVal) (rest rf2 : JFields)
    (hknotin : ¬ k ∈ fieldKeys rest)
    (hwfR : wfFields rf = true)
    (hE2 : eraseFields rf2
      = fAppend (specMergeBase (eraseFields (setField rf k w)) (eraseFields rest))
          (keysNotIn (eraseFields rest) (fieldKeys (setField rf k w))))
    (hw : erase w = (match getField (eraseFields rf) k with
        | some bv => specMerge bv (erase v)
        | none => erase v)) :
    eraseFields rf2
      = fAppend (specMergeBase (eraseFields rf) (eraseFields (.fcons k v rest)))
          (keysNotIn (eraseFields (.fcons k v rest)) (fieldKeys rf)) := by
  rw [hE2]
  rw [show fieldKeys (setField rf k w)
      = fieldKeys (setField (eraseFields rf) k (erase w)) from by
    rw [← fieldKeys_eraseFields (setField rf k w), eraseFields_setField]]
  rw [eraseFields_setField]
  have hgen := spec_step_gen (eraseFields rf) k (erase v) (erase w) (eraseFields rest) []
      (by rw [wfFields_erase]; exact hwfR)
      (by rw [fieldKeys_eraseFields]; exact hknotin)
      (by simp)
      hw
  rw [List.nil_append, List.nil_append] at hgen
  rw [hgen]
  rw [show eraseFields (.fcons k v rest) = .fcons k (erase v) (eraseFields rest) from rfl]
  rw [fieldKeys_eraseFields]

lemma entriesOk_setField_tail (rf rest : JFields) (k : String) (w : JVal)
    (hknotin : ¬ k ∈ fieldKeys rest) :
    entriesOk (setField rf k w) rest = entriesOk rf rest :=
  entriesOk_congr rest (setField rf k w) rf
    (fun k0 hk0 => getField_setField_ne rf k w k0 (fun hc => hknotin (hc ▸ hk0)))

lemma mcOk_setField_tail (bf rest : JFields) (k : String) (w : JVal)
    (hknotin : ¬ k ∈ fieldKeys rest) :
    mcOk (setField bf k w) rest = mcOk bf rest :=
  mcOk_congr rest (setField bf k w) bf
    (fun k0 hk0 => getField_setField_ne bf k w k0 (fun hc => hknotin (hc ▸ hk0)))

lemma tags_setField_bound (rf : JFields) (k : String) (w : JVal) (lo c1 c2 : Nat)
    (h1 : ∀ a, a ∈ tagsFields rf → lo ≤ a ∧ a < c1)
    (h2 : ∀ a, a ∈ tagsOf w → lo ≤ a ∧ a < c2)
    (hc : c1 ≤ c2) :
    ∀ a, a ∈ tagsFields (setField rf k w) → lo ≤ a ∧ a < c2 := by
  intro a ha
  rcases tagsFields_setField rf k w a ha with h | h
  · obtain ⟨hb1, hb2⟩ := h1 a h
    exact ⟨hb1, Nat.lt_of_lt_of_le hb2 hc⟩
  · exact h2 a h

end Factory

namespace Factory

mutual
theorem dmSpec : ∀ (s t : JVal) (ctr lo : Nat),
    deepMergeOk t s = true → wfVal t = true → wfVal s = true →
    (∀ a, a ∈ tagsOf t → lo ≤ a ∧ a < ctr) → lo ≤ ctr →
    ∃ ctr2 r, deepMerge ctr t s = .ok (ctr2, r)
      ∧ erase r = specMerge (erase t) (erase s)
      ∧ wfVal r = true
      ∧ ctr ≤ ctr2
      ∧ (∀ a, a ∈ tagsOf r → lo ≤ a ∧ a < ctr2)
  | .jnull, t, ctr, lo => by
    intro hOk hwt hws htags hlo
    cases t with
    | jnull => exact absurd (show (false : Bool) = true from hOk) (by decide)
    | jobj a b => exact absurd (show (false : Bool) = true from hOk) (by decide)
    | jarr a b c => exact absurd (show (false : Bool) = true from hOk) (by decide)
    | jbool b =>
      exact ⟨ctr, .jnull, rfl, rfl, rfl, Nat.le_refl ctr,
        by intro a ha; exact absurd ha (by simp [tagsOf])⟩
    | jnum n =>
      exact ⟨ctr, .jnull, rfl, rfl, rfl, Nat.le_refl ctr,
        by intro a ha; exact absurd ha (by simp [tagsOf])⟩
    | jstr s2 =>
      exact ⟨ctr, .jnull, rfl, rfl, rfl, Nat.le_refl ctr,
        by intro a ha; exact absurd ha (by simp [tagsOf])⟩
  | .jbool b, t, ctr, lo => by
    intro hOk hwt hws htags hlo
    cases t <;>
      exact ⟨ctr, .jbool b, rfl, rfl, rfl, Nat.le_refl ctr,
        by intro a ha; exact absurd ha (by simp [tagsOf])⟩
  | .jnum n, t, ctr, lo => by
    intro hOk hwt hws htags hlo
    cases t <;>
      exact ⟨ctr, .jnum n, rfl, rfl, rfl, Nat.le_refl ctr,
        by intro a ha; exact absurd ha (by simp [tagsOf])⟩
  | .jstr s2, t, ctr, lo => by
    intro hOk hwt hws htags hlo
    cases t <;>
      exact ⟨ctr, .jstr s2, rfl, rfl, rfl, Nat.le_refl ctr,
        by intro a ha; exact absurd ha (by simp [tagsOf])⟩
  | .jarr atag es ex, t, ctr, lo => by
    intro hOk hwt hws htags hlo
    obtain ⟨c1, c2, c3, c4⟩ := cloneSpec (.jarr atag es ex) ctr hws
    cases t with
    | jbool b => exact absurd (show (false : Bool) = true from hOk) (by decide)
    | jnum n => exact absurd (show (false : Bool) = true from hOk) (by decide)
    | jstr s3 => exact absurd (show (false : Bool) = true from hOk) (by decide)
    | jnull =>
      refine ⟨(deepClone ctr (.jarr atag es ex)).1, (deepClone ctr (.jarr atag es ex)).2,
        rfl, ?_, c3, c2, ?_⟩
      · rw [c1]
        rfl
      · intro a ha
        obtain ⟨hb1, hb2⟩ := c4 a ha
        exact ⟨Nat.le_trans hlo hb1, hb2⟩
    | jobj a2 b2 =>
      refine ⟨(deepClone ctr (.jarr atag es ex)).1, (deepClone ctr (.jarr atag es ex)).2,
        rfl, ?_, c3, c2, ?_⟩
      · rw [c1]
        rfl
      · intro a ha
        obtain ⟨hb1, hb2⟩ := c4 a ha
        exact ⟨Nat.le_trans hlo hb1, hb2⟩
    | jarr a2 b2 c2x =>
      refine ⟨(deepClone ctr (.jarr atag es ex)).1, (deepClone ctr (.jarr atag es ex)).2,
        rfl, ?_, c3, c2, ?_⟩
      · rw [c1]
        rfl
      · intro a ha
        obtain ⟨hb1, hb2⟩ := c4 a ha
        exact ⟨Nat.le_trans hlo hb1, hb2⟩
  | .jobj stag sf, t, ctr, lo => by
    intro hOk hwt hws htags hlo
    cases t with
    | jnull => exact absurd (show (false : Bool) = true from hOk) (by decide)
    | jbool b => exact absurd (show (false : Bool) = true from hOk) (by decide)
    | jnum n => exact absurd (show (false : Bool) = true from hOk) (by decide)
    | jstr s3 => exact absurd (show (false : Bool) = true from hOk) (by decide)
    | jarr a2 b2 c2x => exact absurd (show (false : Bool) = true from hOk) (by decide)
    | jobj ttag tf =>
      have hOk2 : entriesOk tf sf = true := hOk
      have hwtf : wfFields tf = true := hwt
      have hwsf : wfFields sf = true := hws
      obtain ⟨c1, c2, c3, c4⟩ := cloneSpecFields tf (ctr + 1) hwtf
      have hEok : entriesOk (deepCloneFields (ctr + 1) tf).2 sf = true := by
        rw [← entriesOk_erase (deepCloneFields (ctr + 1) tf).2 sf, c1, entriesOk_erase tf sf]
        exact hOk2
      have htagsC : ∀ a, a ∈ tagsFields (deepCloneFields (ctr + 1) tf).2
          → lo ≤ a ∧ a < (deepCloneFields (ctr + 1) tf).1 := by
        intro a ha
        obtain ⟨hb1, hb2⟩ := c4 a ha
        exact ⟨Nat.le_trans hlo (Nat.le_trans (Nat.le_succ ctr) hb1), hb2⟩
      have hloC : lo ≤ (deepCloneFields (ctr + 1) tf).1 :=
        Nat.le_trans hlo (Nat.le_trans (Nat.le_succ ctr) c2)
      obtain ⟨ctr2, rf2, hme, hE, hwf2, hctr2, htags2⟩ :=
        meSpec sf ctr (deepCloneFields (ctr + 1) tf).2 (deepCloneFields (ctr + 1) tf).1 lo
          hEok c3 hwsf htagsC hloC
      refine ⟨ctr2, .jobj ctr rf2, ?_, ?_, hwf2, ?_, ?_⟩
      · exact hme
      · rw [show erase (JVal.jobj ctr rf2) = JVal.jobj 0 (eraseFields rf2) from rfl]
        rw [hE]
        rw [show specMerge (erase (.jobj ttag tf)) (erase (.jobj stag sf))
            = JVal.jobj 0 (fAppend (specMergeBase (eraseFields tf) (eraseFields sf))
                (keysNotIn (eraseFields sf) (fieldKeys (eraseFields tf)))) from rfl]
        rw [show fieldKeys (deepCloneFields (ctr + 1) tf).2
            = fieldKeys (eraseFields (deepCloneFields (ctr + 1) tf).2) from
          (fieldKeys_eraseFields _).symm]
        rw [c1]
      · exact Nat.le_trans (Nat.le_trans (Nat.le_succ ctr) c2) hctr2
      · intro a ha
        rw [show tagsOf (JVal.jobj ctr rf2) = ctr :: tagsFields rf2 from rfl] at ha
        rcases List.mem_cons.mp ha with rfl | ha2
        · exact ⟨hlo, Nat.lt_of_lt_of_le (Nat.lt_succ_self a) (Nat.le_trans c2 hctr2)⟩
        · exact htags2 a ha2
theorem meSpec : ∀ (sf : JFields) (rt : Nat) (rf : JFields) (ctr lo : Nat),
    entriesOk rf sf = true → wfFields rf = true → wfFields sf = true →
    (∀ a, a ∈ tagsFields rf → lo ≤ a ∧ a < ctr) → lo ≤ ctr →
    ∃ ctr2 rf2, mergeEntries ctr (.jobj rt rf) sf = .ok (ctr2, .jobj rt rf2)
      ∧ eraseFields rf2 = fAppend (specMergeBase (eraseFields rf) (eraseFields sf))
          (keysNotIn (eraseFields sf) (fieldKeys rf))
      ∧ wfFields rf2 = true
      ∧ ctr ≤ ctr2
      ∧ (∀ a, a ∈ tagsFields rf2 → lo ≤ a ∧ a < ctr2)
  | .nil, rt, rf, ctr, lo => by
    intro _ hwfR _ htags hlo
    refine ⟨ctr, rf, rfl, ?_, hwfR, Nat.le_refl ctr, htags⟩
    rw [show eraseFields JFields.nil = JFields.nil from rfl]
    rw [specMergeBase_nil]
    rw [show keysNotIn JFields.nil (fieldKeys rf) = JFields.nil from rfl]
    rw [fAppend_nil]
  | .fcons k v rest, rt, rf, ctr, lo => by
    intro hOk hwfR hwfS htags hlo
    rw [show wfFields (.fcons k v rest)
        = (!(fieldKeys rest).contains k && wfVal v && wfFields rest) from rfl] at hwfS
    obtain ⟨hwfS1, hwfrest⟩ := (Bool.and_eq_true _ _).mp hwfS
    obtain ⟨hkc, hwv⟩ := (Bool.and_eq_true _ _).mp hwfS1
    have hknotin : ¬ k ∈ fieldKeys rest := by simpa using hkc
    have hNonObj : (match erase v with | .jobj _ _ => false | _ => true) = true →
        entriesOk rf rest = true →
        ∃ ctr2 rf2,
          mergeEntries (deepClone ctr v).1
              (.jobj rt (setField rf k (deepClone ctr v).2)) rest
            = .ok (ctr2, .jobj rt rf2)
          ∧ eraseFields rf2 = fAppend (specMergeBase (eraseFields rf)
              (eraseFields (.fcons k v rest)))
              (keysNotIn (eraseFields (.fcons k v rest)) (fieldKeys rf))
          ∧ wfFields rf2 = true
          ∧ ctr ≤ ctr2
          ∧ (∀ a, a ∈ tagsFields rf2 → lo ≤ a ∧ a < ctr2) := by
      intro hshape hOkrest
      obtain ⟨c1, c2, c3, c4⟩ := cloneSpec v ctr hwv
      obtain ⟨ctr2, rf2, hme2, hE2, hwf2, hc2, ht2⟩ :=
        meSpec rest rt (setField rf k (deepClone ctr v).2) (deepClone ctr v).1 lo
          (by rw [entriesOk_setField_tail rf rest k _ hknotin]; exact hOkrest)
          (wfFields_setField rf k _ hwfR c3)
          hwfrest
          (tags_setField_bound rf k _ lo ctr (deepClone ctr v).1 htags
            (fun a ha => ⟨Nat.le_trans hlo (c4 a ha).1, (c4 a ha).2⟩) c2)
          (Nat.le_trans hlo c2)
      refine ⟨ctr2, rf2, hme2, ?_, hwf2, Nat.le_trans c2 hc2, ht2⟩
      refine assemble rf k v (deepClone ctr v).2 rest rf2 hknotin hwfR hE2 ?_
      rw [getField_eraseFields rf k]
      cases hb : getField rf k with
      | none => exact c1
      | some bv =>
        rw [show ((some bv : Option JVal).map erase) = some (erase bv) from rfl]
        rw [show (match (some (erase bv) : Option JVal) with
            | some bv2 => specMerge bv2 (erase v)
            | none => erase v : JVal) = specMerge (erase bv) (erase v) from rfl]
        rw [specMerge_nonobj (erase bv) (erase v) hshape]
        exact c1
    cases v with
    | jobj vt vf =>
      rw [show entriesOk rf (.fcons k (.jobj vt vf) rest)
          = ((match getField rf k with
              | some bv =>
                if truthy bv then
                  match bv with
                  | .jobj _ _ => deepMergeOk bv (.jobj vt vf)
                  | _ => false
                else true
              | none => true)
            && entriesOk rf rest) from rfl] at hOk
      obtain ⟨hHead, hOkrest⟩ := (Bool.and_eq_true _ _).mp hOk
      cases hb : getField rf k with
      | some bv =>
        rw [hb] at hHead
        by_cases htb : truthy bv = true
        · cases bv with
          | jnull =>
            have hF : (if truthy JVal.jnull then false else true : Bool) = true := hHead
            rw [if_pos htb] at hF
            exact absurd hF (by decide)
          | jbool c =>
            have hF : (if truthy (JVal.jbool c) then false else true : Bool) = true := hHead
            rw [if_pos htb] at hF
            exact absurd hF (by decide)
          | jnum c =>
            have hF : (if truthy (JVal.jnum c) then false else true : Bool) = true := hHead
            rw [if_pos htb] at hF
            exact absurd hF (by decide)
          | jstr c =>
            have hF : (if truthy (JVal.jstr c) then false else true : Bool) = true := hHead
            rw [if_pos htb] at hF
            exact absurd hF (by decide)
          | jarr a2 b2 c2x =>
            have hF : (if truthy (JVal.jarr a2 b2 c2x) then false else true : Bool)
                = true := hHead
            rw [if_pos htb] at hF
            exact absurd hF (by decide)
          | jobj b1 b2 =>
            have hbvOk : deepMergeOk (.jobj b1 b2) (.jobj vt vf) = true := hHead
            have hwbv : wfVal (.jobj b1 b2) = true := wf_getField rf k _ hwfR hb
            have htagsbv : ∀ a, a ∈ tagsOf (.jobj b1 b2) → lo ≤ a ∧ a < ctr := by
              intro a ha
              exact htags a (tags_getField rf k _ a hb ha)
            obtain ⟨ctrm, rm, hdm, hem, hwfm, hcm, htm⟩ :=
              dmSpec (.jobj vt vf) (.jobj b1 b2) ctr lo hbvOk hwbv hwv htagsbv hlo
            obtain ⟨ctr2, rf2, hme2, hE2, hwf2, hc2, ht2⟩ :=
              meSpec rest rt (setField rf k rm) ctrm lo
                (by rw [entriesOk_setField_tail rf rest k rm hknotin]; exact hOkrest)
                (wfFields_setField rf k rm hwfR hwfm)
                hwfrest
                (tags_setField_bound rf k rm lo ctr ctrm htags htm hcm)
                (Nat.le_trans hlo hcm)
            refine ⟨ctr2, rf2, ?_, ?_, hwf2, Nat.le_trans hcm hc2, ht2⟩
            · rw [show mergeEntries ctr (.jobj rt rf) (.fcons k (.jobj vt vf) rest)
                  = (match deepMerge
                        (match getField rf k with
                         | some x => if truthy x then (ctr, x) else emptyObj ctr
                         | none => emptyObj ctr).1
                        (match getField rf k with
                         | some x => if truthy x then (ctr, x) else emptyObj ctr
                         | none => emptyObj ctr).2
                        (.jobj vt vf) with
                     | .error e => .error e
                     | .ok r => mergeEntries r.1 (setProp (.jobj rt rf) k r.2) rest)
                  from rfl]
              rw [hb]
              rw [show (match (some (JVal.jobj b1 b2) : Option JVal) with
                  | some x => if truthy x then (ctr, x) else emptyObj ctr
                  | none => emptyObj ctr : Nat × JVal)
                  = (if truthy (JVal.jobj b1 b2) then (ctr, JVal.jobj b1 b2)
                     else emptyObj ctr) from rfl]
              rw [if_pos htb]
              rw [show ((ctr, JVal.jobj b1 b2) : Nat × JVal).1 = ctr from rfl]
              rw [show ((ctr, JVal.jobj b1 b2) : Nat × JVal).2 = JVal.jobj b1 b2 from rfl]
              rw [hdm]
              rw [show (match (Except.ok (ctrm, rm) : Except String (Nat × JVal)) with
                  | .error e => .error e
                  | .ok r => mergeEntries r.1 (setProp (.jobj rt rf) k r.2) rest)
                  = mergeEntries ctrm (setProp (.jobj rt rf) k rm) rest from rfl]
              rw [show setProp (.jobj rt rf) k rm = JVal.jobj rt (setField rf k rm) from rfl]
              exact hme2
            · refine assemble rf k (.jobj vt vf) rm rest rf2 hknotin hwfR hE2 ?_
              rw [getField_eraseFields rf k, hb]
              rw [show ((some (JVal.jobj b1 b2) : Option JVal).map erase)
                  = some (erase (JVal.jobj b1 b2)) from rfl]
              rw [show (match (some (erase (JVal.jobj b1 b2)) : Option JVal) with
                  | some bv2 => specMerge bv2 (erase (.jobj vt vf))
                  | none => erase (.jobj vt vf) : JVal)
                  = specMerge (erase (JVal.jobj b1 b2)) (erase (.jobj vt vf)) from rfl]
              exact hem
        · have hdOk : deepMergeOk (.jobj ctr JFields.nil) (.jobj vt vf) = true :=
            entriesOk_nil_tf vf
          have htagsE : ∀ a, a ∈ tagsOf (.jobj ctr JFields.nil) → lo ≤ a ∧ a < ctr + 1 := by
            intro a ha
            rw [show tagsOf (JVal.jobj ctr JFields.nil) = [ctr] from rfl] at ha
            have ha2 := List.mem_singleton.mp ha
            rw [ha2]
            exact ⟨hlo, Nat.lt_succ_self ctr⟩
          obtain ⟨ctrm, rm, hdm, hem, hwfm, hcm, htm⟩ :=
            dmSpec (.jobj vt vf) (.jobj ctr JFields.nil) (ctr + 1) lo hdOk rfl hwv htagsE
              (Nat.le_trans hlo (Nat.le_succ ctr))
          have hem2 : erase rm = erase (.jobj vt vf) := by
            rw [hem]
            rw [show specMerge (erase (.jobj ctr JFields.nil)) (erase (.jobj vt vf))
                = JVal.jobj 0 (keysNotIn (eraseFields vf) []) from rfl]
            rw [keysNotIn_nil_keys]
            rfl
          obtain ⟨ctr2, rf2, hme2, hE2, hwf2, hc2, ht2⟩ :=
            meSpec rest rt (setField rf k rm) ctrm lo
              (by rw [entriesOk_setField_tail rf rest k rm hknotin]; exact hOkrest)
              (wfFields_setField rf k rm hwfR hwfm)
              hwfrest
              (tags_setField_bound rf k rm lo ctr ctrm htags htm
                (Nat.le_trans (Nat.le_succ ctr) hcm))
              (Nat.le_trans hlo (Nat.le_trans (Nat.le_succ ctr) hcm))
          refine ⟨ctr2, rf2, ?_, ?_, hwf2,
            Nat.le_trans (Nat.le_succ ctr) (Nat.le_trans hcm hc2), ht2⟩
          · rw [show mergeEntries ctr (.jobj rt rf) (.fcons k (.jobj vt vf) rest)
                = (match deepMerge
                      (match getField rf k with
                       | some x => if truthy x then (ctr, x) else emptyObj ctr
                       | none => emptyObj ctr).1
                      (match getField rf k with
                       | some x => if truthy x then (ctr, x) else emptyObj ctr
                       | none => emptyObj ctr).2
                      (.jobj vt vf) with
                   | .error e => .error e
                   | .ok r => mergeEntries r.1 (setProp (.jobj rt rf) k r.2) rest)
                from rfl]
            rw [hb]
            rw [show (match (some bv : Option JVal) with
                | some x => if truthy x then (ctr, x) else emptyObj ctr
                | none => emptyObj ctr : Nat × JVal)
                = (if truthy bv then (ctr, bv) else emptyObj ctr) from rfl]
            rw [if_neg htb]
            rw [show ((emptyObj ctr).1 : Nat) = ctr + 1 from rfl]
            rw [show ((emptyObj ctr).2 : JVal) = JVal.jobj ctr JFields.nil from rfl]
            rw [hdm]
            rw [show (match (Except.ok (ctrm, rm) : Except String (Nat × JVal)) with
                | .error e => .error e
                | .ok r => mergeEntries r.1 (setProp (.jobj rt rf) k r.2) rest)
                = mergeEntries ctrm (setProp (.jobj rt rf) k rm) rest from rfl]
            rw [show setProp (.jobj rt rf) k rm = JVal.jobj rt (setField rf k rm) from rfl]
            exact hme2
          · refine assemble rf k (.jobj vt vf) rm rest rf2 hknotin hwfR hE2 ?_
            rw [getField_eraseFields rf k, hb]
            rw [show ((some bv : Option JVal).map erase) = some (erase bv) from rfl]
            rw [show (match (some (erase bv) : Option JVal) with
                | some bv2 => specMerge bv2 (erase (.jobj vt vf))
                | none => erase (.jobj vt vf) : JVal)
                = specMerge (erase bv) (erase (.jobj vt vf)) from rfl]
            rw [hem2]
            cases bv with
            | jobj b1 b2 => exact absurd rfl htb
            | jarr a2 b2 c2x => exact absurd rfl htb
            | jnull => rfl
            | jbool c => rfl
            | jnum c => rfl
            | jstr c => rfl
      | none =>
        have hdOk : deepMergeOk (.jobj ctr JFields.nil) (.jobj vt vf) = true :=
          entriesOk_nil_tf vf
        have htagsE : ∀ a, a ∈ tagsOf (.jobj ctr JFields.nil) → lo ≤ a ∧ a < ctr + 1 := by
          intro a ha
          rw [show tagsOf (JVal.jobj ctr JFields.nil) = [ctr] from rfl] at ha
          have ha2 := List.mem_singleton.mp ha
          rw [ha2]
          exact ⟨hlo, Nat.lt_succ_self ctr⟩
        obtain ⟨ctrm, rm, hdm, hem, hwfm, hcm, htm⟩ :=
          dmSpec (.jobj vt vf) (.jobj ctr JFields.nil) (ctr + 1) lo hdOk rfl hwv htagsE
            (Nat.le_trans hlo (Nat.le_succ ctr))
        have hem2 : erase rm = erase (.jobj vt vf) := by
          rw [hem]
          rw [show specMerge (erase (.jobj ctr JFields.nil)) (erase (.jobj vt vf))
              = JVal.jobj 0 (keysNotIn (eraseFields vf) []) from rfl]
          rw [keysNotIn_nil_keys]
          rfl
        obtain ⟨ctr2, rf2, hme2, hE2, hwf2, hc2, ht2⟩ :=
          meSpec rest rt (setField rf k rm) ctrm lo
            (by rw [entriesOk_setField_tail rf rest k rm hknotin]; exact hOkrest)
            (wfFields_setField rf k rm hwfR hwfm)
            hwfrest
            (tags_setField_bound rf k rm lo ctr ctrm htags htm
              (Nat.le_trans (Nat.le_succ ctr) hcm))
            (Nat.le_trans hlo (Nat.le_trans (Nat.le_succ ctr) hcm))
        refine ⟨ctr2, rf2, ?_, ?_, hwf2,
          Nat.le_trans (Nat.le_succ ctr) (Nat.le_trans hcm hc2), ht2⟩
        · rw [show mergeEntries ctr (.jobj rt rf) (.fcons k (.jobj vt vf) rest)
              = (match deepMerge
                    (match getField rf k with
                     | some x => if truthy x then (ctr, x) else emptyObj ctr
                     | none => emptyObj ctr).1
                    (match getField rf k with
                     | some x => if truthy x then (ctr, x) else emptyObj ctr
                     | none => emptyObj ctr).2
                    (.jobj vt vf) with
                 | .error e => .error e
                 | .ok r => mergeEntries r.1 (setProp (.jobj rt rf) k r.2) rest)
              from rfl]
          rw [hb]
          rw [show (match (none : Option JVal) with
              | some x => if truthy x then (ctr, x) else emptyObj ctr
              | none => emptyObj ctr : Nat × JVal) = emptyObj ctr from rfl]
          rw [show ((emptyObj ctr).1 : Nat) = ctr + 1 from rfl]
          rw [show ((emptyObj ctr).2 : JVal) = JVal.jobj ctr JFields.nil from rfl]
          rw [hdm]
          rw [show (match (Except.ok (ctrm, rm) : Except String (Nat × JVal)) with
              | .error e => .error e
              | .ok r => mergeEntries r.1 (setProp (.jobj rt rf) k r.2) rest)
              = mergeEntries ctrm (setProp (.jobj rt rf) k rm) rest from rfl]
          rw [show setProp (.jobj rt rf) k rm = JVal.jobj rt (setField rf k rm) from rfl]
          exact hme2
        · refine assemble rf k (.jobj vt vf) rm rest rf2 hknotin hwfR hE2 ?_
          rw [getField_eraseFields rf k, hb]
          exact hem2
    | jnull =>
      have hOkrest : entriesOk rf rest = true := by
        have h2 : (true && entriesOk rf rest) = true := hOk
        simpa using h2
      obtain ⟨ctr2, rf2, hme2, hE2, hwf2, hc2, ht2⟩ := hNonObj rfl hOkrest
      exact ⟨ctr2, rf2, hme2, hE2, hwf2, hc2, ht2⟩
    | jbool b =>
      have hOkrest : entriesOk rf rest = true := by
        have h2 : (true && entriesOk rf rest) = true := hOk
        simpa using h2
      obtain ⟨ctr2, rf2, hme2, hE2, hwf2, hc2, ht2⟩ := hNonObj rfl hOkrest
      exact ⟨ctr2, rf2, hme2, hE2, hwf2, hc2, ht2⟩
    | jnum n =>
      have hOkrest : entriesOk rf rest = true := by
        have h2 : (true && entriesOk rf rest) = true := hOk
        simpa using h2
      obtain ⟨ctr2, rf2, hme2, hE2, hwf2, hc2, ht2⟩ := hNonObj rfl hOkrest
      exact ⟨ctr2, rf2, hme2, hE2, hwf2, hc2, ht2⟩
    | jstr s2 =>
      have hOkrest : entriesOk rf rest = true := by
        have h2 : (true && entriesOk rf rest) = true := hOk
        simpa using h2
      obtain ⟨ctr2, rf2, hme2, hE2, hwf2, hc2, ht2⟩ := hNonObj rfl hOkrest
      exact ⟨ctr2, rf2, hme2, hE2, hwf2, hc2, ht2⟩
    | jarr a2 es2 ex2 =>
      have hOkrest : entriesOk rf rest = true := by
        have h2 : (true && entriesOk rf rest) = true := hOk
        simpa using h2
      obtain ⟨ctr2, rf2, hme2, hE2, hwf2, hc2, ht2⟩ := hNonObj rfl hOkrest
      exact ⟨ctr2, rf2, hme2, hE2, hwf2, hc2, ht2⟩
end

end Factory

namespace Factory

theorem mcSpec : ∀ (o : JFields) (rt : Nat) (rf : JFields) (ctr lo : Nat),
    mcOk rf o = true → wfFields rf = true → wfFields o = true →
    (∀ a, a ∈ tagsFields rf → lo ≤ a ∧ a < ctr) → lo ≤ ctr →
    ∃ ctr2 rf2, mcEntries ctr (.jobj rt rf) o = .ok (ctr2, .jobj rt rf2)
      ∧ eraseFields rf2 = fAppend (specMergeBase (eraseFields rf) (eraseFields o))
          (keysNotIn (eraseFields o) (fieldKeys rf))
      ∧ wfFields rf2 = true
      ∧ ctr ≤ ctr2
      ∧ (∀ a, a ∈ tagsFields rf2 → lo ≤ a ∧ a < ctr2)
  | .nil, rt, rf, ctr, lo => by
    intro _ hwfR _ htags hlo
    refine ⟨ctr, rf, rfl, ?_, hwfR, Nat.le_refl ctr, htags⟩
    rw [show eraseFields JFields.nil = JFields.nil from rfl]
    rw [specMergeBase_nil]
    rw [show keysNotIn JFields.nil (fieldKeys rf) = JFields.nil from rfl]
    rw [fAppend_nil]
  | .fcons k v rest, rt, rf, ctr, lo => by
    intro hOk hwfR hwfS htags hlo
    rw [show wfFields (.fcons k v rest)
        = (!(fieldKeys rest).contains k && wfVal v && wfFields rest) from rfl] at hwfS
    obtain ⟨hwfS1, hwfrest⟩ := (Bool.and_eq_true _ _).mp hwfS
    obtain ⟨hkc, hwv⟩ := (Bool.and_eq_true _ _).mp hwfS1
    have hknotin : ¬ k ∈ fieldKeys rest := by simpa using hkc
    have hCloneMc :
        (match getField (eraseFields rf) k with
          | some bv2 => specMerge bv2 (erase v)
          | none => erase v) = erase v →
        mcOk rf rest = true →
        ∃ ctr2 rf2,
          mcEntries (deepClone ctr v).1
              (.jobj rt (setField rf k (deepClone ctr v).2)) rest
            = .ok (ctr2, .jobj rt rf2)
          ∧ eraseFields rf2 = fAppend (specMergeBase (eraseFields rf)
              (eraseFields (.fcons k v rest)))
              (keysNotIn (eraseFields (.fcons k v rest)) (fieldKeys rf))
          ∧ wfFields rf2 = true ∧ ctr ≤ ctr2
          ∧ (∀ a, a ∈ tagsFields rf2 → lo ≤ a ∧ a < ctr2) := by
      intro hw2 hOkrest
      obtain ⟨c1, c2, c3, c4⟩ := cloneSpec v ctr hwv
      obtain ⟨ctr2, rf2, hme2, hE2, hwf2, hc2, ht2⟩ :=
        mcSpec rest rt (setField rf k (deepClone ctr v).2) (deepClone ctr v).1 lo
          (by rw [mcOk_setField_tail rf rest k _ hknotin]; exact hOkrest)
          (wfFields_setField rf k _ hwfR c3)
          hwfrest
          (tags_setField_bound rf k _ lo ctr (deepClone ctr v).1 htags
            (fun a ha => ⟨Nat.le_trans hlo (c4 a ha).1, (c4 a ha).2⟩) c2)
          (Nat.le_trans hlo c2)
      refine ⟨ctr2, rf2, hme2, ?_, hwf2, Nat.le_trans c2 hc2, ht2⟩
      refine assemble rf k v (deepClone ctr v).2 rest rf2 hknotin hwfR hE2 ?_
      rw [hw2]
      exact c1
    cases v with
    | jobj vt vf =>
      have hOk2 : ((match getField rf k with
          | some bv =>
            if truthy bv then
              match bv with
              | .jobj _ _ => deepMergeOk bv (.jobj vt vf)
              | _ => false
            else true
          | none => true : Bool) && mcOk rf rest) = true := hOk
      obtain ⟨hHead, hOkrest⟩ := (Bool.and_eq_true _ _).mp hOk2
      cases hb : getField rf k with
      | none =>
        obtain ⟨ctr2, rf2, hme2, hE2, hwf2, hc2, ht2⟩ := hCloneMc
          (by rw [getField_eraseFields rf k, hb]; rfl) hOkrest
        refine ⟨ctr2, rf2, ?_, hE2, hwf2, hc2, ht2⟩
        rw [show mcEntries ctr (.jobj rt rf) (.fcons k (.jobj vt vf) rest)
            = (if ((match getField rf k with
                    | some x => truthy x
                    | none => false)
                  && isObjectType (.jobj vt vf) && !isArrayV (.jobj vt vf) : Bool)
               then
                 (match deepMerge ctr ((getField rf k).getD JVal.jnull) (.jobj vt vf) with
                  | .error e => .error e
                  | .ok r => mcEntries r.1 (setProp (.jobj rt rf) k r.2) rest)
               else
                 mcEntries (deepClone ctr (.jobj vt vf)).1
                   (setProp (.jobj rt rf) k (deepClone ctr (.jobj vt vf)).2) rest)
            from rfl]
        rw [hb]
        exact hme2
      | some bv =>
        rw [hb] at hHead
        by_cases htb : truthy bv = true
        · cases bv with
          | jnull =>
            exact absurd htb (by decide)
          | jbool c =>
            have hF : (if truthy (JVal.jbool c) then false else true : Bool) = true := hHead
            rw [if_pos htb] at hF
            exact absurd hF (by decide)
          | jnum c =>
            have hF : (if truthy (JVal.jnum c) then false else true : Bool) = true := hHead
            rw [if_pos htb] at hF
            exact absurd hF (by decide)
          | jstr c =>
            have hF : (if truthy (JVal.jstr c) then false else true : Bool) = true := hHead
            rw [if_pos htb] at hF
            exact absurd hF (by decide)
          | jarr a2 b2 c2x =>
            have hF : (if truthy (JVal.jarr a2 b2 c2x) then false else true : Bool)
                = true := hHead
            rw [if_pos htb] at hF
            exact absurd hF (by decide)
          | jobj b1 b2 =>
            have hbvOk : deepMergeOk (JVal.jobj b1 b2) (JVal.jobj vt vf) = true := hHead
            have hwbv : wfVal (.jobj b1 b2) = true := wf_getField rf k _ hwfR hb
            have htagsbv : ∀ a, a ∈ tagsOf (.jobj b1 b2) → lo ≤ a ∧ a < ctr := by
              intro a ha
              exact htags a (tags_getField rf k _ a hb ha)
            obtain ⟨ctrm, rm, hdm, hem, hwfm, hcm, htm⟩ :=
              dmSpec (.jobj vt vf) (.jobj b1 b2) ctr lo hbvOk hwbv hwv htagsbv hlo
            obtain ⟨ctr2, rf2, hmc2, hE2, hwf2, hc2, ht2⟩ :=
              mcSpec rest rt (setField rf k rm) ctrm lo
                (by rw [mcOk_setField_tail rf rest k rm hknotin]; exact hOkrest)
                (wfFields_setField rf k rm hwfR hwfm)
                hwfrest
                (tags_setField_bound rf k rm lo ctr ctrm htags htm hcm)
                (Nat.le_trans hlo hcm)
            refine ⟨ctr2, rf2, ?_, ?_, hwf2, Nat.le_trans hcm hc2, ht2⟩
            · rw [show mcEntries ctr (.jobj rt rf) (.fcons k (.jobj vt vf) rest)
                  = (if ((match getField rf k with
                          | some x => truthy x
                          | none => false)
                        && isObjectType (.jobj vt vf) && !isArrayV (.jobj vt vf) : Bool)
                     then
                       (match deepMerge ctr ((getField rf k).getD JVal.jnull)
                            (.jobj vt vf) with
                        | .error e => .error e
                        | .ok r => mcEntries r.1 (setProp (.jobj rt rf) k r.2) rest)
                     else
                       mcEntries (deepClone ctr (.jobj vt vf)).1
                         (setProp (.jobj rt rf) k (deepClone ctr (.jobj vt vf)).2) rest)
                  from rfl]
              rw [hb]
              rw [show ((some (JVal.jobj b1 b2) : Option JVal).getD JVal.jnull)
                  = JVal.jobj b1 b2 from rfl]
              rw [hdm]
              rw [show (match (Except.ok (ctrm, rm) : Except String (Nat × JVal)) with
                  | .error e => .error e
                  | .ok r => mcEntries r.1 (setProp (.jobj rt rf) k r.2) rest)
                  = mcEntries ctrm (setProp (.jobj rt rf) k rm) rest from rfl]
              rw [show setProp (.jobj rt rf) k rm = JVal.jobj rt (setField rf k rm) from rfl]
              exact hmc2
            · refine assemble rf k (.jobj vt vf) rm rest rf2 hknotin hwfR hE2 ?_
              rw [getField_eraseFields rf k, hb]
              rw [show ((some (JVal.jobj b1 b2) : Option JVal).map erase)
                  = some (erase (JVal.jobj b1 b2)) from rfl]
              rw [show (match (some (erase (JVal.jobj b1 b2)) : Option JVal) with
                  | some bv2 => specMerge bv2 (erase (.jobj vt vf))
                  | none => erase (.jobj vt vf) : JVal)
                  = specMerge (erase (JVal.jobj b1 b2)) (erase (.jobj vt vf)) from rfl]
              exact hem
        · have htb2 : truthy bv = false := by simpa using htb
          obtain ⟨ctr2, rf2, hme2, hE2, hwf2, hc2, ht2⟩ := hCloneMc
            (by
              rw [getField_eraseFields rf k, hb]
              rw [show ((some bv : Option JVal).map erase) = some (erase bv) from rfl]
              rw [show (match (some (erase bv) : Option JVal) with
                  | some bv2 => specMerge bv2 (erase (.jobj vt vf))
                  | none => erase (.jobj vt vf) : JVal)
                  = specMerge (erase bv) (erase (.jobj vt vf)) from rfl]
              cases bv with
              | jobj b1 b2 => exact absurd rfl htb
              | jarr a2 b2 c2x => exact absurd rfl htb
              | jnull => rfl
              | jbool c => rfl
              | jnum c => rfl
              | jstr c => rfl) hOkrest
          refine ⟨ctr2, rf2, ?_, hE2, hwf2, hc2, ht2⟩
          rw [show mcEntries ctr (.jobj rt rf) (.fcons k (.jobj vt vf) rest)
              = (if ((match getField rf k with
                      | some x => truthy x
                      | none => false)
                    && isObjectType (.jobj vt vf) && !isArrayV (.jobj vt vf) : Bool)
                 then
                   (match deepMerge ctr ((getField rf k).getD JVal.jnull) (.jobj vt vf) with
                    | .error e => .error e
                    | .ok r => mcEntries r.1 (setProp (.jobj rt rf) k r.2) rest)
                 else
                   mcEntries (deepClone ctr (.jobj vt vf)).1
                     (setProp (.jobj rt rf) k (deepClone ctr (.jobj vt vf)).2) rest)
              from rfl]
          rw [hb]
          rw [show (match (some bv : Option JVal) with
              | some x => truthy x
              | none => false : Bool) = truthy bv from rfl]
          rw [show ((truthy bv && isObjectType (JVal.jobj vt vf)
              && !isArrayV (JVal.jobj vt vf)) : Bool) = false from by
            simp [isObjectType, isArrayV, htb2]]
          exact hme2
    | jnull =>
      have hOk2 : ((match getField rf k with
          | some bv => if truthy bv then !isObjectType bv else true
          | none => true : Bool) && mcOk rf rest) = true := hOk
      obtain ⟨hHead, hOkrest⟩ := (Bool.and_eq_true _ _).mp hOk2
      cases hb : getField rf k with
      | none =>
        obtain ⟨ctr2, rf2, hme2, hE2, hwf2, hc2, ht2⟩ := hCloneMc
          (by rw [getField_eraseFields rf k, hb]; rfl) hOkrest
        refine ⟨ctr2, rf2, ?_, hE2, hwf2, hc2, ht2⟩
        rw [show mcEntries ctr (.jobj rt rf) (.fcons k JVal.jnull rest)
            = (if ((match getField rf k with
                    | some x => truthy x
                    | none => false)
                  && isObjectType JVal.jnull && !isArrayV JVal.jnull : Bool)
               then
                 (match deepMerge ctr ((getField rf k).getD JVal.jnull) JVal.jnull with
                  | .error e => .error e
                  | .ok r => mcEntries r.1 (setProp (.jobj rt rf) k r.2) rest)
               else
                 mcEntries (deepClone ctr JVal.jnull).1
                   (setProp (.jobj rt rf) k (deepClone ctr JVal.jnull).2) rest)
            from rfl]
        rw [hb]
        exact hme2
      | some bv =>
        rw [hb] at hHead
        by_cases htb : truthy bv = true
        · have hIs : (if truthy bv then !isObjectType bv else true : Bool) = true := hHead
          rw [if_pos htb] at hIs
          cases bv with
          | jnull => exact absurd htb (by decide)
          | jobj b1 b2 => exact absurd (show (false : Bool) = true from hIs) (by decide)
          | jarr a2 b2 c2x => exact absurd (show (false : Bool) = true from hIs) (by decide)
          | jbool c =>
            obtain ⟨ctr2, rf2, hmc2, hE2, hwf2, hc2, ht2⟩ :=
              mcSpec rest rt (setField rf k JVal.jnull) ctr lo
                (by rw [mcOk_setField_tail rf rest k _ hknotin]; exact hOkrest)
                (wfFields_setField rf k _ hwfR rfl)
                hwfrest
                (tags_setField_bound rf k _ lo ctr ctr htags
                  (fun a ha => absurd ha (by simp [tagsOf])) (Nat.le_refl ctr))
                hlo
            refine ⟨ctr2, rf2, ?_, ?_, hwf2, hc2, ht2⟩
            · rw [show mcEntries ctr (.jobj rt rf) (.fcons k JVal.jnull rest)
                  = (if ((match getField rf k with
                          | some x => truthy x
                          | none => false)
                        && isObjectType JVal.jnull && !isArrayV JVal.jnull : Bool)
                     then
                       (match deepMerge ctr ((getField rf k).getD JVal.jnull) JVal.jnull with
                        | .error e => .error e
                        | .ok r => mcEntries r.1 (setProp (.jobj rt rf) k r.2) rest)
                     else
                       mcEntries (deepClone ctr JVal.jnull).1
                         (setProp (.jobj rt rf) k (deepClone ctr JVal.jnull).2) rest)
                  from rfl]
              rw [hb]
              rw [show (match (some (JVal.jbool c) : Option JVal) with
                  | some x => truthy x
                  | none => false : Bool) = truthy (JVal.jbool c) from rfl]
              rw [show ((truthy (JVal.jbool c) && isObjectType JVal.jnull
                  && !isArrayV JVal.jnull) : Bool) = true from by
                simp [isObjectType, isArrayV, htb]]
              rw [show ((some (JVal.jbool c) : Option JVal).getD JVal.jnull)
                  = JVal.jbool c from rfl]
              rw [show (deepMerge ctr (JVal.jbool c) JVal.jnull)
                  = Except.ok (ctr, JVal.jnull) from rfl]
              rw [show (match (Except.ok (ctr, JVal.jnull) : Except String (Nat × JVal)) with
                  | .error e => .error e
                  | .ok r => mcEntries r.1 (setProp (.jobj rt rf) k r.2) rest)
                  = mcEntries ctr (setProp (.jobj rt rf) k JVal.jnull) rest from rfl]
              rw [show setProp (.jobj rt rf) k JVal.jnull
                  = JVal.jobj rt (setField rf k JVal.jnull) from rfl]
              exact hmc2
            · refine assemble rf k JVal.jnull JVal.jnull rest rf2 hknotin hwfR hE2 ?_
              rw [getField_eraseFields rf k, hb]
              rfl
          | jnum c =>
            obtain ⟨ctr2, rf2, hmc2, hE2, hwf2, hc2, ht2⟩ :=
              mcSpec rest rt (setField rf k JVal.jnull) ctr lo
                (by rw [mcOk_setField_tail rf rest k _ hknotin]; exact hOkrest)
                (wfFields_setField rf k _ hwfR rfl)
                hwfrest
                (tags_setField_bound rf k _ lo ctr ctr htags
                  (fun a ha => absurd ha (by simp [tagsOf])) (Nat.le_refl ctr))
                hlo
            refine ⟨ctr2, rf2, ?_, ?_, hwf2, hc2, ht2⟩
            · rw [show mcEntries ctr (.jobj rt rf) (.fcons k JVal.jnull rest)
                  = (if ((match getField rf k with
                          | some x => truthy x
                          | none => false)
                        && isObjectType JVal.jnull && !isArrayV JVal.jnull : Bool)
                     then
                       (match deepMerge ctr ((getField rf k).getD JVal.jnull) JVal.jnull with
                        | .error e => .error e
                        | .ok r => mcEntries r.1 (setProp (.jobj rt rf) k r.2) rest)
                     else
                       mcEntries (deepClone ctr JVal.jnull).1
                         (setProp (.jobj rt rf) k (deepClone ctr JVal.jnull).2) rest)
                  from rfl]
              rw [hb]
              rw [show (match (some (JVal.jnum c) : Option JVal) with
                  | some x => truthy x
                  | none => false : Bool) = truthy (JVal.jnum c) from rfl]
              rw [show ((truthy (JVal.jnum c) && isObjectType JVal.jnull
                  && !isArrayV JVal.jnull) : Bool) = true from by
                simp [isObjectType, isArrayV, htb]]
              rw [show ((some (JVal.jnum c) : Option JVal).getD JVal.jnull)
                  = JVal.jnum c from rfl]
              rw [show (deepMerge ctr (JVal.jnum c) JVal.jnull)
                  = Except.ok (ctr, JVal.jnull) from rfl]
              rw [show (match (Except.ok (ctr, JVal.jnull) : Except String (Nat × JVal)) with
                  | .error e => .error e
                  | .ok r => mcEntries r.1 (setProp (.jobj rt rf) k r.2) rest)
                  = mcEntries ctr (setProp (.jobj rt rf) k JVal.jnull) rest from rfl]
              rw [show setProp (.jobj rt rf) k JVal.jnull
                  = JVal.jobj rt (setField rf k JVal.jnull) from rfl]
              exact hmc2
            · refine assemble rf k JVal.jnull JVal.jnull rest rf2 hknotin hwfR hE2 ?_
              rw [getField_eraseFields rf k, hb]
              rfl
          | jstr c =>
            obtain ⟨ctr2, rf2, hmc2, hE2, hwf2, hc2, ht2⟩ :=
              mcSpec rest rt (setField rf k JVal.jnull) ctr lo
                (by rw [mcOk_setField_tail rf rest k _ hknotin]; exact hOkrest)
                (wfFields_setField rf k _ hwfR rfl)
                hwfrest
                (tags_setField_bound rf k _ lo ctr ctr htags
                  (fun a ha => absurd ha (by simp [tagsOf])) (Nat.le_refl ctr))
                hlo
            refine ⟨ctr2, rf2, ?_, ?_, hwf2, hc2, ht2⟩
            · rw [show mcEntries ctr (.jobj rt rf) (.fcons k JVal.jnull rest)
                  = (if ((match getField rf k with
                          | some x => truthy x
                          | none => false)
                        && isObjectType JVal.jnull && !isArrayV JVal.jnull : Bool)
                     then
                       (match deepMerge ctr ((getField rf k).getD JVal.jnull) JVal.jnull with
                        | .error e => .error e
                        | .ok r => mcEntries r.1 (setProp (.jobj rt rf) k r.2) rest)
                     else
                       mcEntries (deepClone ctr JVal.jnull).1
                         (setProp (.jobj rt rf) k (deepClone ctr JVal.jnull).2) rest)
                  from rfl]
              rw [hb]
              rw [show (match (some (JVal.jstr c) : Option JVal) with
                  | some x => truthy x
                  | none => false : Bool) = truthy (JVal.jstr c) from rfl]
              rw [show ((truthy (JVal.jstr c) && isObjectType JVal.jnull
                  && !isArrayV JVal.jnull) : Bool) = true from by
                simp [isObjectType, isArrayV, htb]]
              rw [show ((some (JVal.jstr c) : Option JVal).getD JVal.jnull)
                  = JVal.jstr c from rfl]
              rw [show (deepMerge ctr (JVal.jstr c) JVal.jnull)
                  = Except.ok (ctr, JVal.jnull) from rfl]
              rw [show (match (Except.ok (ctr, JVal.jnull) : Except String (Nat × JVal)) with
                  | .error e => .error e
                  | .ok r => mcEntries r.1 (setProp (.jobj rt rf) k r.2) rest)
                  = mcEntries ctr (setProp (.jobj rt rf) k JVal.jnull) rest from rfl]
              rw [show setProp (.jobj rt rf) k JVal.jnull
                  = JVal.jobj rt (setField rf k JVal.jnull) from rfl]
              exact hmc2
            · refine assemble rf k JVal.jnull JVal.jnull rest rf2 hknotin hwfR hE2 ?_
              rw [getField_eraseFields rf k, hb]
              rfl
        · have htb2 : truthy bv = false := by simpa using htb
          obtain ⟨ctr2, rf2, hme2, hE2, hwf2, hc2, ht2⟩ := hCloneMc
            (by
              rw [getField_eraseFields rf k, hb]
              rw [show ((some bv : Option JVal).map erase) = some (erase bv) from rfl]
              rw [show (match (some (erase bv) : Option JVal) with
                  | some bv2 => specMerge bv2 (erase JVal.jnull)
                  | none => erase JVal.jnull : JVal)
                  = specMerge (erase bv) (erase JVal.jnull) from rfl]
              cases bv with
              | jobj b1 b2 => exact absurd rfl htb
              | jarr a2 b2 c2x => exact absurd rfl htb
              | jnull => rfl
              | jbool c => rfl
              | jnum c => rfl
              | jstr c => rfl) hOkrest
          refine ⟨ctr2, rf2, ?_, hE2, hwf2, hc2, ht2⟩
          rw [show mcEntries ctr (.jobj rt rf) (.fcons k JVal.jnull rest)
              = (if ((match getField rf k with
                      | some x => truthy x
                      | none => false)
                    && isObjectType JVal.jnull && !isArrayV JVal.jnull : Bool)
                 then
                   (match deepMerge ctr ((getField rf k).getD JVal.jnull) JVal.jnull with
                    | .error e => .error e
                    | .ok r => mcEntries r.1 (setProp (.jobj rt rf) k r.2) rest)
                 else
                   mcEntries (deepClone ctr JVal.jnull).1
                     (setProp (.jobj rt rf) k (deepClone ctr JVal.jnull).2) rest)
              from rfl]
          rw [hb]
          rw [show (match (some bv : Option JVal) with
              | some x => truthy x
              | none => false : Bool) = truthy bv from rfl]
          rw [show ((truthy bv && isObjectType JVal.jnull
              && !isArrayV JVal.jnull) : Bool) = false from by
            simp [isObjectType, isArrayV, htb2]]
          exact hme2
    | jbool b =>
      have hOk2 : ((match getField rf k with
          | some bv => if truthy bv then true else true
          | none => true : Bool) && mcOk rf rest) = true := hOk
      obtain ⟨-, hOkrest⟩ := (Bool.and_eq_true _ _).mp hOk2
      cases hb : getField rf k with
      | none =>
        obtain ⟨ctr2, rf2, hme2, hE2, hwf2, hc2, ht2⟩ := hCloneMc
          (by rw [getField_eraseFields rf k, hb]; rfl) hOkrest
        refine ⟨ctr2, rf2, ?_, hE2, hwf2, hc2, ht2⟩
        rw [show mcEntries ctr (.jobj rt rf) (.fcons k (JVal.jbool b) rest)
            = (if ((match getField rf k with
                    | some x => truthy x
                    | none => false)
                  && isObjectType (JVal.jbool b) && !isArrayV (JVal.jbool b) : Bool)
               then
                 (match deepMerge ctr ((getField rf k).getD JVal.jnull) (JVal.jbool b) with
                  | .error e => .error e
                  | .ok r => mcEntries r.1 (setProp (.jobj rt rf) k r.2) rest)
               else
                 mcEntries (deepClone ctr (JVal.jbool b)).1
                   (setProp (.jobj rt rf) k (deepClone ctr (JVal.jbool b)).2) rest)
            from rfl]
        rw [hb]
        exact hme2
      | some bv =>
        obtain ⟨ctr2, rf2, hme2, hE2, hwf2, hc2, ht2⟩ := hCloneMc
          (by
            rw [getField_eraseFields rf k, hb]
            rw [show ((some bv : Option JVal).map erase) = some (erase bv) from rfl]
            rw [show (match (some (erase bv) : Option JVal) with
                | some bv2 => specMerge bv2 (erase (JVal.jbool b))
                | none => erase (JVal.jbool b) : JVal)
                = specMerge (erase bv) (erase (JVal.jbool b)) from rfl]
            rw [specMerge_nonobj (erase bv) (erase (JVal.jbool b)) rfl]) hOkrest
        refine ⟨ctr2, rf2, ?_, hE2, hwf2, hc2, ht2⟩
        rw [show mcEntries ctr (.jobj rt rf) (.fcons k (JVal.jbool b) rest)
            = (if ((match getField rf k with
                    | some x => truthy x
                    | none => false)
                  && isObjectType (JVal.jbool b) && !isArrayV (JVal.jbool b) : Bool)
               then
                 (match deepMerge ctr ((getField rf k).getD JVal.jnull) (JVal.jbool b) with
                  | .error e => .error e
                  | .ok r => mcEntries r.1 (setProp (.jobj rt rf) k r.2) rest)
               else
                 mcEntries (deepClone ctr (JVal.jbool b)).1
                   (setProp (.jobj rt rf) k (deepClone ctr (JVal.jbool b)).2) rest)
            from rfl]
        rw [hb]
        rw [show (match (some bv : Option JVal) with
            | some x => truthy x
            | none => false : Bool) = truthy bv from rfl]
        rw [show ((truthy bv && isObjectType (JVal.jbool b)
            && !isArrayV (JVal.jbool b)) : Bool) = false from by
          simp [isObjectType]]
        exact hme2
    | jnum n =>
      have hOk2 : ((match getField rf k with
          | some bv => if truthy bv then true else true
          | none => true : Bool) && mcOk rf rest) = true := hOk
      obtain ⟨-, hOkrest⟩ := (Bool.and_eq_true _ _).mp hOk2
      cases hb : getField rf k with
      | none =>
        obtain ⟨ctr2, rf2, hme2, hE2, hwf2, hc2, ht2⟩ := hCloneMc
          (by rw [getField_eraseFields rf k, hb]; rfl) hOkrest
        refine ⟨ctr2, rf2, ?_, hE2, hwf2, hc2, ht2⟩
        rw [show mcEntries ctr (.jobj rt rf) (.fcons k (JVal.jnum n) rest)
            = (if ((match getField rf k with
                    | some x => truthy x
                    | none => false)
                  && isObjectType (JVal.jnum n) && !isArrayV (JVal.jnum n) : Bool)
               then
                 (match deepMerge ctr ((getField rf k).getD JVal.jnull) (JVal.jnum n) with
                  | .error e => .error e
                  | .ok r => mcEntries r.1 (setProp (.jobj rt rf) k r.2) rest)
               else
                 mcEntries (deepClone ctr (JVal.jnum n)).1
                   (setProp (.jobj rt rf) k (deepClone ctr (JVal.jnum n)).2) rest)
            from rfl]
        rw [hb]
        exact hme2
      | some bv =>
        obtain ⟨ctr2, rf2, hme2, hE2, hwf2, hc2, ht2⟩ := hCloneMc
          (by
            rw [getField_eraseFields rf k, hb]
            rw [show ((some bv : Option JVal).map erase) = some (erase bv) from rfl]
            rw [show (match (some (erase bv) : Option JVal) with
                | some bv2 => specMerge bv2 (erase (JVal.jnum n))
                | none => erase (JVal.jnum n) : JVal)
                = specMerge (erase bv) (erase (JVal.jnum n)) from rfl]
            rw [specMerge_nonobj (erase bv) (erase (JVal.jnum n)) rfl]) hOkrest
        refine ⟨ctr2, rf2, ?_, hE2, hwf2, hc2, ht2⟩
        rw [show mcEntries ctr (.jobj rt rf) (.fcons k (JVal.jnum n) rest)
            = (if ((match getField rf k with
                    | some x => truthy x
                    | none => false)
                  && isObjectType (JVal.jnum n) && !isArrayV (JVal.jnum n) : Bool)
               then
                 (match deepMerge ctr ((getField rf k).getD JVal.jnull) (JVal.jnum n) with
                  | .error e => .error e
                  | .ok r => mcEntries r.1 (setProp (.jobj rt rf) k r.2) rest)
               else
                 mcEntries (deepClone ctr (JVal.jnum n)).1
                   (setProp (.jobj rt rf) k (deepClone ctr (JVal.jnum n)).2) rest)
            from rfl]
        rw [hb]
        rw [show (match (some bv : Option JVal) with
            | some x => truthy x
            | none => false : Bool) = truthy bv from rfl]
        rw [show ((truthy bv && isObjectType (JVal.jnum n)
            && !isArrayV (JVal.jnum n)) : Bool) = false from by
          simp [isObjectType]]
        exact hme2
    | jstr s2 =>
      have hOk2 : ((match getField rf k with
          | some bv => if truthy bv then true else true
          | none => true : Bool) && mcOk rf rest) = true := hOk
      obtain ⟨-, hOkrest⟩ := (Bool.and_eq_true _ _).mp hOk2
      cases hb : getField rf k with
      | none =>
        obtain ⟨ctr2, rf2, hme2, hE2, hwf2, hc2, ht2⟩ := hCloneMc
          (by rw [getField_eraseFields rf k, hb]; rfl) hOkrest
        refine ⟨ctr2, rf2, ?_, hE2, hwf2, hc2, ht2⟩
        rw [show mcEntries ctr (.jobj rt rf) (.fcons k (JVal.jstr s2) rest)
            = (if ((match getField rf k with
                    | some x => truthy x
                    | none => false)
                  && isObjectType (JVal.jstr s2) && !isArrayV (JVal.jstr s2) : Bool)
               then
                 (match deepMerge ctr ((getField rf k).getD JVal.jnull) (JVal.jstr s2) with
                  | .error e => .error e
                  | .ok r => mcEntries r.1 (setProp (.jobj rt rf) k r.2) rest)
               else
                 mcEntries (deepClone ctr (JVal.jstr s2)).1
                   (setProp (.jobj rt rf) k (deepClone ctr (JVal.jstr s2)).2) rest)
            from rfl]
        rw [hb]
        exact hme2
      | some bv =>
        obtain ⟨ctr2, rf2, hme2, hE2, hwf2, hc2, ht2⟩ := hCloneMc
          (by
            rw [getField_eraseFields rf k, hb]
            rw [show ((some bv : Option JVal).map erase) = some (erase bv) from rfl]
            rw [show (match (some (erase bv) : Option JVal) with
                | some bv2 => specMerge bv2 (erase (JVal.jstr s2))
                | none => erase (JVal.jstr s2) : JVal)
                = specMerge (erase bv) (erase (JVal.jstr s2)) from rfl]
            rw [specMerge_nonobj (erase bv) (erase (JVal.jstr s2)) rfl]) hOkrest
        refine ⟨ctr2, rf2, ?_, hE2, hwf2, hc2, ht2⟩
        rw [show mcEntries ctr (.jobj rt rf) (.fcons k (JVal.jstr s2) rest)
            = (if ((match getField rf k with
                    | some x => truthy x
                    | none => false)
                  && isObjectType (JVal.jstr s2) && !isArrayV (JVal.jstr s2) : Bool)
               then
                 (match deepMerge ctr ((getField rf k).getD JVal.jnull) (JVal.jstr s2) with
                  | .error e => .error e
                  | .ok r => mcEntries r.1 (setProp (.jobj rt rf) k r.2) rest)
               else
                 mcEntries (deepClone ctr (JVal.jstr s2)).1
                   (setProp (.jobj rt rf) k (deepClone ctr (JVal.jstr s2)).2) rest)
            from rfl]
        rw [hb]
        rw [show (match (some bv : Option JVal) with
            | some x => truthy x
            | none => false : Bool) = truthy bv from rfl]
        rw [show ((truthy bv && isObjectType (JVal.jstr s2)
            && !isArrayV (JVal.jstr s2)) : Bool) = false from by
          simp [isObjectType]]
        exact hme2
    | jarr a2 es2 ex2 =>
      have hOk2 : ((match getField rf k with
          | some bv => if truthy bv then true else true
          | none => true : Bool) && mcOk rf rest) = true := hOk
      obtain ⟨-, hOkrest⟩ := (Bool.and_eq_true _ _).mp hOk2
      cases hb : getField rf k with
      | none =>
        obtain ⟨ctr2, rf2, hme2, hE2, hwf2, hc2, ht2⟩ := hCloneMc
          (by rw [getField_eraseFields rf k, hb]; rfl) hOkrest
        refine ⟨ctr2, rf2, ?_, hE2, hwf2, hc2, ht2⟩
        rw [show mcEntries ctr (.jobj rt rf) (.fcons k (JVal.jarr a2 es2 ex2) rest)
            = (if ((match getField rf k with
                    | some x => truthy x
                    | none => false)
                  && isObjectType (JVal.jarr a2 es2 ex2)
                  && !isArrayV (JVal.jarr a2 es2 ex2) : Bool)
               then
                 (match deepMerge ctr ((getField rf k).getD JVal.jnull)
                      (JVal.jarr a2 es2 ex2) with
                  | .error e => .error e
                  | .ok r => mcEntries r.1 (setProp (.jobj rt rf) k r.2) rest)
               else
                 mcEntries (deepClone ctr (JVal.jarr a2 es2 ex2)).1
                   (setProp (.jobj rt rf) k (deepClone ctr (JVal.jarr a2 es2 ex2)).2) rest)
            from rfl]
        rw [hb]
        rw [show (match (none : Option JVal) with
            | some x => truthy x
            | none => false : Bool) = false from rfl]
        rw [show ((false && isObjectType (JVal.jarr a2 es2 ex2)
            && !isArrayV (JVal.jarr a2 es2 ex2)) : Bool) = false from by simp]
        exact hme2
      | some bv =>
        obtain ⟨ctr2, rf2, hme2, hE2, hwf2, hc2, ht2⟩ := hCloneMc
          (by
            rw [getField_eraseFields rf k, hb]
            rw [show ((some bv : Option JVal).map erase) = some (erase bv) from rfl]
            rw [show (match (some (erase bv) : Option JVal) with
                | some bv2 => specMerge bv2 (erase (JVal.jarr a2 es2 ex2))
                | none => erase (JVal.jarr a2 es2 ex2) : JVal)
                = specMerge (erase bv) (erase (JVal.jarr a2 es2 ex2)) from rfl]
            rw [specMerge_nonobj (erase bv) (erase (JVal.jarr a2 es2 ex2)) rfl]) hOkrest
        refine ⟨ctr2, rf2, ?_, hE2, hwf2, hc2, ht2⟩
        rw [show mcEntries ctr (.jobj rt rf) (.fcons k (JVal.jarr a2 es2 ex2) rest)
            = (if ((match getField rf k with
                    | some x => truthy x
                    | none => false)
                  && isObjectType (JVal.jarr a2 es2 ex2)
                  && !isArrayV (JVal.jarr a2 es2 ex2) : Bool)
               then
                 (match deepMerge ctr ((getField rf k).getD JVal.jnull)
                      (JVal.jarr a2 es2 ex2) with
                  | .error e => .error e
                  | .ok r => mcEntries r.1 (setProp (.jobj rt rf) k r.2) rest)
               else
                 mcEntries (deepClone ctr (JVal.jarr a2 es2 ex2)).1
                   (setProp (.jobj rt rf) k (deepClone ctr (JVal.jarr a2 es2 ex2)).2) rest)
            from rfl]
        rw [hb]
        rw [show (match (some bv : Option JVal) with
            | some x => truthy x
            | none => false : Bool) = truthy bv from rfl]
        rw [show ((truthy bv && isObjectType (JVal.jarr a2 es2 ex2)
            && !isArrayV (JVal.jarr a2 es2 ex2)) : Bool) = false from by
          simp [isArrayV]]
        exact hme2

end Factory

namespace Factory

lemma specFoldComps_snoc : ∀ (l : List JVal) (acc c : JVal),
    specFoldComps acc (l ++ [c]) = specMerge (specFoldComps acc l) c
  | [], acc, c => rfl
  | x :: xs, acc, c => by
    rw [show (x :: xs) ++ [c] = x :: (xs ++ [c]) from rfl]
    rw [show specFoldComps acc (x :: (xs ++ [c]))
        = specFoldComps (specMerge acc x) (xs ++ [c]) from rfl]
    rw [specFoldComps_snoc xs (specMerge acc x) c]
    rfl

lemma chainOk_snoc : ∀ (l : List JVal) (acc c : JVal),
    chainOk acc (l ++ [c]) = true
      ↔ (chainOk acc l = true ∧ wfBag (specFoldComps acc l) = true
          ∧ wfBag c = true ∧ mcOkBags (specFoldComps acc l) c = true)
  | [], acc, c => by
    rw [show ([] : List JVal) ++ [c] = [c] from rfl]
    rw [show chainOk acc [c]
        = (wfBag acc && wfBag c && mcOkBags acc c && chainOk (specMerge acc c) []) from rfl]
    rw [show chainOk (specMerge acc c) [] = true from rfl]
    rw [show chainOk acc [] = true from rfl]
    rw [show specFoldComps acc [] = acc from rfl]
    constructor
    · intro h
      obtain ⟨h1, -⟩ := (Bool.and_eq_true _ _).mp h
      obtain ⟨h2, h3⟩ := (Bool.and_eq_true _ _).mp h1
      obtain ⟨h4, h5⟩ := (Bool.and_eq_true _ _).mp h2
      exact ⟨rfl, h4, h5, h3⟩
    · rintro ⟨-, h2, h3, h4⟩
      rw [h2, h3, h4]
      rfl
  | x :: xs, acc, c => by
    rw [show (x :: xs) ++ [c] = x :: (xs ++ [c]) from rfl]
    rw [show chainOk acc (x :: (xs ++ [c]))
        = (wfBag acc && wfBag x && mcOkBags acc x
            && chainOk (specMerge acc x) (xs ++ [c])) from rfl]
    rw [show chainOk acc (x :: xs)
        = (wfBag acc && wfBag x && mcOkBags acc x && chainOk (specMerge acc x) xs) from rfl]
    rw [show specFoldComps acc (x :: xs) = specFoldComps (specMerge acc x) xs from rfl]
    constructor
    · intro h
      obtain ⟨h1, h2⟩ := (Bool.and_eq_true _ _).mp h
      obtain ⟨hrec, hw1, hw2, hmc⟩ := (chainOk_snoc xs (specMerge acc x) c).mp h2
      refine ⟨?_, hw1, hw2, hmc⟩
      rw [hrec]
      rw [show (wfBag acc && wfBag x && mcOkBags acc x && true : Bool)
          = (wfBag acc && wfBag x && mcOkBags acc x) from by
        cases (wfBag acc && wfBag x && mcOkBags acc x) <;> rfl]
      exact h1
    · rintro ⟨hco, hw1, hw2, hmc⟩
      obtain ⟨h1, h2⟩ := (Bool.and_eq_true _ _).mp hco
      rw [h1]
      rw [(chainOk_snoc xs (specMerge acc x) c).mpr ⟨h2, hw1, hw2, hmc⟩]
      rfl

lemma erase_eq_jobj : ∀ (x : JVal) (f : JFields), erase x = .jobj 0 f →
    ∃ tg f2, x = JVal.jobj tg f2 ∧ eraseFields f2 = f := by
  intro x f h
  cases x with
  | jobj tg f2 =>
    refine ⟨tg, f2, rfl, ?_⟩
    have h2 : JVal.jobj 0 (eraseFields f2) = JVal.jobj 0 f := h
    injection h2
  | jnull => exact absurd h (by simp [erase])
  | jbool b => exact absurd h (by simp [erase])
  | jnum n => exact absurd h (by simp [erase])
  | jstr s => exact absurd h (by simp [erase])
  | jarr a b c => exact absurd h (by simp [erase])

lemma wfBag_jobj : ∀ x : JVal, wfBag x = true →
    ∃ tg fs, x = JVal.jobj tg fs ∧ wfFields fs = true ∧ allValsObj fs = true := by
  intro x h
  cases x with
  | jobj tg fs =>
    have h2 : (wfFields fs && allValsObj fs) = true := h
    obtain ⟨h3, h4⟩ := (Bool.and_eq_true _ _).mp h2
    exact ⟨tg, fs, rfl, h3, h4⟩
  | jnull => exact absurd (show (false : Bool) = true from h) (by decide)
  | jbool b => exact absurd (show (false : Bool) = true from h) (by decide)
  | jnum n => exact absurd (show (false : Bool) = true from h) (by decide)
  | jstr s => exact absurd (show (false : Bool) = true from h) (by decide)
  | jarr a b c => exact absurd (show (false : Bool) = true from h) (by decide)

/-- mergeComponents on two well-formed bags under the agreement conditions:
success, spec agreement of the erasure, well-formedness, counter growth and
freshness of every tag in the result. -/
theorem mcBagSpec (bf of : JFields) (bt og ctr lo : Nat)
    (hOk : mcOk bf of = true)
    (hwfB : wfFields bf = true) (hwfO : wfFields of = true)
    (hlo : lo ≤ ctr) :
    ∃ ctr2 rf2, mergeComponents ctr (.jobj bt bf) (.jobj og of) = .ok (ctr2, .jobj ctr rf2)
      ∧ erase (JVal.jobj ctr rf2)
          = specMerge (erase (.jobj bt bf)) (erase (.jobj og of))
      ∧ wfFields rf2 = true
      ∧ ctr ≤ ctr2
      ∧ (∀ a, a ∈ tagsOf (JVal.jobj ctr rf2) → lo ≤ a ∧ a < ctr2) := by
  obtain ⟨c1, c2, c3, c4⟩ := cloneSpecFields bf (ctr + 1) hwfB
  have hMok : mcOk (deepCloneFields (ctr + 1) bf).2 of = true := by
    rw [← mcOk_erase (deepCloneFields (ctr + 1) bf).2 of, c1, mcOk_erase bf of]
    exact hOk
  have htagsC : ∀ a, a ∈ tagsFields (deepCloneFields (ctr + 1) bf).2
      → lo ≤ a ∧ a < (deepCloneFields (ctr + 1) bf).1 := by
    intro a ha
    obtain ⟨hb1, hb2⟩ := c4 a ha
    exact ⟨Nat.le_trans hlo (Nat.le_trans (Nat.le_succ ctr) hb1), hb2⟩
  obtain ⟨ctr2, rf2, hmc, hE, hwf2, hc2, ht2⟩ :=
    mcSpec of ctr (deepCloneFields (ctr + 1) bf).2 (deepCloneFields (ctr + 1) bf).1 lo
      hMok c3 hwfO htagsC (Nat.le_trans hlo (Nat.le_trans (Nat.le_succ ctr) c2))
  refine ⟨ctr2, rf2, ?_, ?_, hwf2, Nat.le_trans (Nat.le_succ ctr) (Nat.le_trans c2 hc2), ?_⟩
  · exact hmc
  · rw [show erase (JVal.jobj ctr rf2) = JVal.jobj 0 (eraseFields rf2) from rfl]
    rw [hE]
    rw [show specMerge (erase (.jobj bt bf)) (erase (.jobj og of))
        = JVal.jobj 0 (fAppend (specMergeBase (eraseFields bf) (eraseFields of))
            (keysNotIn (eraseFields of) (fieldKeys (eraseFields bf)))) from rfl]
    rw [show fieldKeys (deepCloneFields (ctr + 1) bf).2
        = fieldKeys (eraseFields (deepCloneFields (ctr + 1) bf).2) from
      (fieldKeys_eraseFields _).symm]
    rw [c1]
  · intro a ha
    rw [show tagsOf (JVal.jobj ctr rf2) = ctr :: tagsFields rf2 from rfl] at ha
    rcases List.mem_cons.mp ha with rfl | ha2
    · exact ⟨hlo, Nat.lt_of_lt_of_le (Nat.lt_succ_self a) (Nat.le_trans c2 hc2)⟩
    · exact ht2 a ha2

end Factory

namespace Factory

theorem resolveSpec : ∀ (ps : List Template) (t : Template) (fac : EFactory)
    (fuel ctr : Nat),
    chainUp fac t ps = true →
    ps.length ≤ fuel →
    chainOk (JVal.jobj 0 JFields.nil)
      ((t :: ps).reverse.map (fun p2 => erase p2.components)) = true →
    ∃ ctr2 rt, resolveTemplate fuel fac ctr t = .ok (ctr2, rt)
      ∧ erase rt.components = specFoldComps (JVal.jobj 0 JFields.nil)
          ((t :: ps).reverse.map (fun p2 => erase p2.components))
      ∧ (∃ bt bf, rt.components = JVal.jobj bt bf ∧ wfFields bf = true)
      ∧ ctr ≤ ctr2
  | [], t, fac, fuel, ctr => by
    intro hchain hfuel hOkChain
    have hx2 : (!optStrTruthy t.xtends) = true := hchain
    have hx0 : optStrTruthy t.xtends = false := by simpa using hx2
    have hOk1 : (wfBag (JVal.jobj 0 JFields.nil) && wfBag (erase t.components)
        && mcOkBags (JVal.jobj 0 JFields.nil) (erase t.components)
        && chainOk (specMerge (JVal.jobj 0 JFields.nil) (erase t.components)) [])
        = true := hOkChain
    obtain ⟨h1, -⟩ := (Bool.and_eq_true _ _).mp hOk1
    obtain ⟨h2, -⟩ := (Bool.and_eq_true _ _).mp h1
    obtain ⟨-, hwfC⟩ := (Bool.and_eq_true _ _).mp h2
    cases hct : t.components with
    | jnull => rw [hct] at hwfC; exact Bool.noConfusion hwfC
    | jbool b => rw [hct] at hwfC; exact Bool.noConfusion hwfC
    | jnum n => rw [hct] at hwfC; exact Bool.noConfusion hwfC
    | jstr s => rw [hct] at hwfC; exact Bool.noConfusion hwfC
    | jarr a b c => rw [hct] at hwfC; exact Bool.noConfusion hwfC
    | jobj tg fs =>
      have hwffs : wfFields fs = true := by
        rw [hct] at hwfC
        have h3 : (wfFields (eraseFields fs) && allValsObj (eraseFields fs)) = true := hwfC
        obtain ⟨h4, -⟩ := (Bool.and_eq_true _ _).mp h3
        rw [← wfFields_erase fs]
        exact h4
      refine ⟨ctr, t, ?_, ?_, ⟨tg, fs, hct, hwffs⟩, Nat.le_refl ctr⟩
      · cases fuel with
        | zero =>
          rw [show resolveTemplate 0 fac ctr t
              = (if optStrTruthy t.xtends then .error "resolution fuel exhausted"
                 else .ok (ctr, t)) from rfl]
          rw [hx0]
          rfl
        | succ fuel2 =>
          rw [show resolveTemplate (fuel2 + 1) fac ctr t
              = (if optStrTruthy t.xtends then
                  (match Store.lookupA fac.templates (t.xtends.getD "") with
                   | none =>
                     .error ("Parent template \"" ++ t.xtends.getD ""
                       ++ "\" not found for \"" ++ t.id ++ "\"")
                   | some parent =>
                     match resolveTemplate fuel2 fac ctr parent with
                     | .error e => .error e
                     | .ok (ctr1, rp) =>
                       match mergeComponents ctr1 rp.components t.components with
                       | .error e => .error e
                       | .ok (ctr2, mc) =>
                         .ok (ctr2,
                           { id := t.id
                             type := orStr t.type rp.type
                             xtends := none
                             description := orOptStr t.description rp.description
                             components := mc }))
                 else .ok (ctr, t)) from rfl]
          rw [hx0]
          rfl
      · rw [show specFoldComps (JVal.jobj 0 JFields.nil)
            (List.map (fun p2 => erase p2.components) (List.reverse (t :: ([] : List Template))))
            = specMerge (JVal.jobj 0 JFields.nil) (erase t.components) from rfl]
        rw [hct]
        rw [show specMerge (JVal.jobj 0 JFields.nil) (erase (JVal.jobj tg fs))
            = JVal.jobj 0 (keysNotIn (eraseFields fs) []) from rfl]
        rw [keysNotIn_nil_keys]
        rfl
  | p :: ps2, t, fac, fuel, ctr => by
    intro hchain hfuel hOkChain
    have hchain2 : ((t.xtends == some p.id && strTruthy p.id
        && (Store.lookupA fac.templates p.id == some p)) && chainUp fac p ps2)
        = true := hchain
    obtain ⟨h123, hchainP⟩ := (Bool.and_eq_true _ _).mp hchain2
    obtain ⟨h12, h3⟩ := (Bool.and_eq_true _ _).mp h123
    obtain ⟨h1, hpid⟩ := (Bool.and_eq_true _ _).mp h12
    have hx : t.xtends = some p.id := by simpa using h1
    have hlook : Store.lookupA fac.templates p.id = some p := by simpa using h3
    cases fuel with
    | zero => exact absurd hfuel (by simp)
    | succ fuel2 =>
      have hfuel2 : ps2.length ≤ fuel2 := Nat.succ_le_succ_iff.mp hfuel
      rw [show (t :: p :: ps2).reverse.map (fun p2 => erase p2.components)
          = ((p :: ps2).reverse.map (fun p2 => erase p2.components))
            ++ [erase t.components] from by
        rw [List.reverse_cons, List.map_append]
        rfl] at hOkChain
      obtain ⟨hOkPrefix, hwfAcc, hwfC, hmcSpecOk⟩ :=
        (chainOk_snoc ((p :: ps2).reverse.map (fun p2 => erase p2.components))
          (JVal.jobj 0 JFields.nil) (erase t.components)).mp hOkChain
      obtain ⟨ctr1, rp, hres, hemP, ⟨bt, bf, hcompP, hwfbf⟩, hc1⟩ :=
        resolveSpec ps2 p fac fuel2 ctr hchainP hfuel2 hOkPrefix
      have hwfAcc2 : wfBag (erase rp.components) = true := by
        rw [hemP]
        exact hwfAcc
      cases hct : t.components with
      | jnull => rw [hct] at hwfC; exact Bool.noConfusion hwfC
      | jbool b => rw [hct] at hwfC; exact Bool.noConfusion hwfC
      | jnum n => rw [hct] at hwfC; exact Bool.noConfusion hwfC
      | jstr s => rw [hct] at hwfC; exact Bool.noConfusion hwfC
      | jarr a b c => rw [hct] at hwfC; exact Bool.noConfusion hwfC
      | jobj og of =>
        have hwfof : wfFields of = true := by
          rw [hct] at hwfC
          have h4 : (wfFields (eraseFields of) && allValsObj (eraseFields of)) = true := hwfC
          obtain ⟨h5, -⟩ := (Bool.and_eq_true _ _).mp h4
          rw [← wfFields_erase of]
          exact h5
        have hmcOkRaw : mcOk bf of = true := by
          have h4 : mcOkBags (JVal.jobj bt bf) (JVal.jobj og of) = true := by
            rw [← mcOkBags_erase, ← hcompP, ← hct, hemP]
            exact hmcSpecOk
          exact h4
        obtain ⟨ctr2, rf2, hmc, hEmc, hwf2, hc2, -⟩ :=
          mcBagSpec bf of bt og ctr1 ctr1 hmcOkRaw hwfbf hwfof (Nat.le_refl ctr1)
        have hstep : resolveTemplate (fuel2 + 1) fac ctr t
            = .ok (ctr2,
                { id := t.id
                  type := orStr t.type rp.type
                  xtends := none
                  description := orOptStr t.description rp.description
                  components := JVal.jobj ctr1 rf2 }) := by
          rw [show resolveTemplate (fuel2 + 1) fac ctr t
              = (if optStrTruthy t.xtends then
                  (match Store.lookupA fac.templates (t.xtends.getD "") with
                   | none =>
                     .error ("Parent template \"" ++ t.xtends.getD ""
                       ++ "\" not found for \"" ++ t.id ++ "\"")
                   | some parent =>
                     match resolveTemplate fuel2 fac ctr parent with
                     | .error e => .error e
                     | .ok (ctrx, rp2) =>
                       match mergeComponents ctrx rp2.components t.components with
                       | .error e => .error e
                       | .ok (ctry, mc) =>
                         .ok (ctry,
                           { id := t.id
                             type := orStr t.type rp2.type
                             xtends := none
                             description := orOptStr t.description rp2.description
                             components := mc }))
                 else .ok (ctr, t)) from rfl]
          rw [hx]
          rw [show optStrTruthy (some p.id) = strTruthy p.id from rfl]
          rw [hpid]
          rw [show ((some p.id : Option String).getD "") = p.id from rfl]
          rw [hlook]
          rw [show (match (some p : Option Template) with
              | none =>
                .error ("Parent template \"" ++ p.id
                  ++ "\" not found for \"" ++ t.id ++ "\"")
              | some parent =>
                match resolveTemplate fuel2 fac ctr parent with
                | .error e => .error e
                | .ok (ctrx, rp2) =>
                  match mergeComponents ctrx rp2.components t.components with
                  | .error e => .error e
                  | .ok (ctry, mc) =>
                    .ok (ctry,
                      { id := t.id
                        type := orStr t.type rp2.type
                        xtends := none
                        description := orOptStr t.description rp2.description
                        components := mc }) : Except String (Nat × Template))
              = (match resolveTemplate fuel2 fac ctr p with
                 | .error e => .error e
                 | .ok (ctrx, rp2) =>
                   match mergeComponents ctrx rp2.components t.components with
                   | .error e => .error e
                   | .ok (ctry, mc) =>
                     .ok (ctry,
                       { id := t.id
                         type := orStr t.type rp2.type
                         xtends := none
                         description := orOptStr t.description rp2.description
                         components := mc })) from rfl]
          rw [hres]
          rw [show (match (Except.ok (ctr1, rp) : Except String (Nat × Template)) with
              | .error e => .error e
              | .ok (ctrx, rp2) =>
                match mergeComponents ctrx rp2.components t.components with
                | .error e => .error e
                | .ok (ctry, mc) =>
                  .ok (ctry,
                    { id := t.id
                      type := orStr t.type rp2.type
                      xtends := none
                      description := orOptStr t.description rp2.description
                      components := mc })
              : Except String (Nat × Template))
              = (match mergeComponents ctr1 rp.components t.components with
                 | .error e => .error e
                 | .ok (ctry, mc) =>
                   .ok (ctry,
                     { id := t.id
                       type := orStr t.type rp.type
                       xtends := none
                       description := orOptStr t.description rp.description
                       components := mc })) from rfl]
          rw [hcompP, hct, hmc]
          rfl
        refine ⟨ctr2,
          { id := t.id
            type := orStr t.type rp.type
            xtends := none
            description := orOptStr t.description rp.description
            components := JVal.jobj ctr1 rf2 },
          hstep, ?_, ⟨ctr1, rf2, rfl, hwf2⟩, Nat.le_trans hc1 hc2⟩
        rw [show Template.components
            { id := t.id
              type := orStr t.type rp.type
              xtends := none
              description := orOptStr t.description rp.description
              components := JVal.jobj ctr1 rf2 } = JVal.jobj ctr1 rf2 from rfl]
        rw [show (t :: p :: ps2).reverse.map (fun p2 => erase p2.components)
            = ((p :: ps2).reverse.map (fun p2 => erase p2.components))
              ++ [erase t.components] from by
          rw [List.reverse_cons, List.map_append]
          rfl]
        rw [specFoldComps_snoc]
        rw [hEmc]
        rw [← hcompP, ← hct, hemP]

end Factory

namespace Factory

theorem createSpec (fac : EFactory) (ctr0 fuel : Nat) (tid : String) (t : Template)
    (ps : List Template)
    (hlookt : Store.lookupA fac.templates tid = some t)
    (hchain : chainUp fac t ps = true)
    (hfuel : ps.length ≤ fuel)
    (hok : chainOk (JVal.jobj 0 JFields.nil)
      ((t :: ps).reverse.map (fun p2 => erase p2.components)) = true) :
    ∃ ctr2 fac2 ent, createFromTemplate fac ctr0 fuel tid none = .ok (ctr2, fac2, ent)
      ∧ erase ent.components = specFoldComps (JVal.jobj 0 JFields.nil)
          ((t :: ps).reverse.map (fun p2 => erase p2.components))
      ∧ ctr0 ≤ ctr2
      ∧ ∀ a, a ∈ tagsOf ent.components → ctr0 ≤ a ∧ a < ctr2 := by
  obtain ⟨ctr1, rt, hres, hem, ⟨bt, bf, hcomp, hwfbf⟩, hc1⟩ :=
    resolveSpec ps t fac fuel ctr0 hchain hfuel hok
  have hwfrt : wfVal rt.components = true := by
    rw [hcomp]
    exact hwfbf
  obtain ⟨hcE, hcLe, hcWf, hcTags⟩ := cloneSpec rt.components ctr1 hwfrt
  have hstep : createFromTemplate fac ctr0 fuel tid none
      = .ok ((deepClone ctr1 rt.components).1, (generateId fac).1,
          { id := (generateId fac).2
            type := rt.type
            components := (deepClone ctr1 rt.components).2 }) := by
    rw [show createFromTemplate fac ctr0 fuel tid none
        = (match Store.lookupA fac.templates tid with
           | none => Except.error ("Template \"" ++ tid ++ "\" not found")
           | some t2 =>
             match resolveTemplate fuel fac ctr0 t2 with
             | .error e => .error e
             | .ok (ctrx, rt2) =>
               .ok ((deepClone ctrx rt2.components).1, (generateId fac).1,
                 { id := (generateId fac).2
                   type := rt2.type
                   components := (deepClone ctrx rt2.components).2 })) from rfl]
    rw [hlookt]
    rw [show (match (some t : Option Template) with
        | none => Except.error ("Template \"" ++ tid ++ "\" not found")
        | some t2 =>
          match resolveTemplate fuel fac ctr0 t2 with
          | .error e => .error e
          | .ok (ctrx, rt2) =>
            .ok ((deepClone ctrx rt2.components).1, (generateId fac).1,
              { id := (generateId fac).2
                type := rt2.type
                components := (deepClone ctrx rt2.components).2 })
        : Except String (Nat × EFactory × JEntity))
        = (match resolveTemplate fuel fac ctr0 t with
           | .error e => .error e
           | .ok (ctrx, rt2) =>
             .ok ((deepClone ctrx rt2.components).1, (generateId fac).1,
               { id := (generateId fac).2
                 type := rt2.type
                 components := (deepClone ctrx rt2.components).2 })) from rfl]
    rw [hres]
  refine ⟨(deepClone ctr1 rt.components).1, (generateId fac).1,
    { id := (generateId fac).2
      type := rt.type
      components := (deepClone ctr1 rt.components).2 },
    hstep, ?_, Nat.le_trans hc1 hcLe, ?_⟩
  · rw [show JEntity.components
        { id := (generateId fac).2
          type := rt.type
          components := (deepClone ctr1 rt.components).2 }
        = (deepClone ctr1 rt.components).2 from rfl]
    rw [hcE, hem]
  · intro a ha
    have ha2 : a ∈ tagsOf (deepClone ctr1 rt.components).2 := ha
    exact ⟨Nat.le_trans hc1 (hcTags a ha2).1, (hcTags a ha2).2⟩

end Factory

namespace Factory

/-- C8 (amended): for a registered template whose extends chain is acyclic
with every parent registered, whenever the chain's component bags satisfy
the agreement conditions chainOk — every collision merges an object over a
truthy plain object, never an object or array override over a primitive or
an object over an array, and never a null override over an object —
createFromTemplate succeeds and produces components equal (up to identity
tags) to the specification's deep merge of the chain folded root to leaf,
child fields overriding ancestor fields; and all identity tags of the
result are freshly allocated in [ctr0, ctr2), so the instance shares no
mutable reference with any stored template of the chain, and a second
instance created from the same template shares no reference with the
first. -/
theorem create_from_template_merges_chain (fac : EFactory) (ctr0 fuel : Nat)
    (tid : String) (t : Template) (ps : List Template)
    (hlookt : Store.lookupA fac.templates tid = some t)
    (hchain : chainUp fac t ps = true)
    (hfuel : ps.length ≤ fuel)
    (hok : chainOk (JVal.jobj 0 JFields.nil)
      ((t :: ps).reverse.map (fun p2 => erase p2.components)) = true)
    (htags : ∀ p, p ∈ t :: ps → tagsBelow ctr0 p.components = true) :
    ∃ ctr2 fac2 ent, createFromTemplate fac ctr0 fuel tid none = .ok (ctr2, fac2, ent)
      ∧ erase ent.components = specFoldComps (JVal.jobj 0 JFields.nil)
          ((t :: ps).reverse.map (fun p2 => erase p2.components))
      ∧ (∀ p, p ∈ t :: ps → ∀ a, a ∈ tagsOf ent.components → a ∉ tagsOf p.components)
      ∧ (∀ ctr3 fac3 ent2, createFromTemplate fac ctr2 fuel tid none = .ok (ctr3, fac3, ent2) →
          ∀ a, a ∈ tagsOf ent.components → a ∉ tagsOf ent2.components) := by
  obtain ⟨ctr2, fac2, ent, hcreate, hem, hle, htag⟩ :=
    createSpec fac ctr0 fuel tid t ps hlookt hchain hfuel hok
  refine ⟨ctr2, fac2, ent, hcreate, hem, ?_, ?_⟩
  · intro p hp a ha hmem
    have hbelow := htags p hp
    have h3 : decide (a < ctr0) = true := by
      have h4 := List.all_eq_true.mp hbelow a hmem
      simpa using h4
    have h2 : a < ctr0 := of_decide_eq_true h3
    exact Nat.lt_irrefl a (Nat.lt_of_lt_of_le h2 (htag a ha).1)
  · intro ctr3 fac3 ent2 hcreate2 a ha hmem
    obtain ⟨ctr3b, fac3b, ent2b, hcreate2b, -, -, htag2⟩ :=
      createSpec fac ctr2 fuel tid t ps hlookt hchain hfuel hok
    rw [hcreate2b] at hcreate2
    injection hcreate2 with h4
    injection h4 with h5 h6
    injection h6 with h7 h8
    subst h8
    exact Nat.lt_irrefl a (Nat.lt_of_lt_of_le (htag a ha).2 (htag2 a hmem).1)

/-- C8 counterexample: with the cx pair — the child overrides the base's
array-valued field a.x with an object — createFromTemplate succeeds, but
the components it returns differ from the specification's deep merge of
the chain: the code grafts the object's fields onto a clone of the array
and the field stays an array, while the spec says the child's object
replaces it. -/
theorem create_from_template_object_over_array_diverges :
    (createFromTemplate cxFac 0 2 "cx_child" none).toOption.isSome = true
    ∧ (createFromTemplate cxFac 0 2 "cx_child" none).toOption.map
        (fun r => erase r.2.2.components)
      ≠ some (specFoldComps (JVal.jobj 0 JFields.nil)
          ((cxChild :: [cxBase]).reverse.map (fun p2 => erase p2.components))) := by
  refine ⟨by decide, by decide⟩

/-- Witness for the amended C8 theorem at the ok chain: child ok_child
extends ok_base, counter starts at 10, fuel 1. -/
theorem create_from_template_merges_chain_witness :
    ∃ ctr2 fac2 ent, createFromTemplate okFac 10 1 "ok_child" none = .ok (ctr2, fac2, ent)
      ∧ erase ent.components = specFoldComps (JVal.jobj 0 JFields.nil)
          ((okChild :: [okBase]).reverse.map (fun p2 => erase p2.components))
      ∧ (∀ p, p ∈ okChild :: [okBase] → ∀ a, a ∈ tagsOf ent.components →
          a ∉ tagsOf p.components)
      ∧ (∀ ctr3 fac3 ent2, createFromTemplate okFac ctr2 1 "ok_child" none
            = .ok (ctr3, fac3, ent2) →
          ∀ a, a ∈ tagsOf ent.components → a ∉ tagsOf ent2.components) :=
  create_from_template_merges_chain okFac 10 1 "ok_child" okChild [okBase]
    (by decide) (by decide) (by decide) (by decide) (by decide)

end Factory
